import Mathlib

/-!
# go-eth: transaction codec and hijack pipeline, verified model

A shallow embedding of the transaction variant model, the RLP binary codec,
the legacy signing logic, and the transport hijack pipeline of the `go-eth`
JSON-RPC client library, together with theorems settling the specification
claims about them.

Conventions of the embedding:

* Go byte slices are `List Nat` with values below 256 (kept so by
  construction or by explicit well-formedness hypotheses).
* Go `uint64` arithmetic is `Nat` arithmetic with explicit `% 2 ^ 64`
  where the source can overflow.
* Go `*T` optional fields are `Option`; `nil` is `none`.
* `math/big.Int` values are `Nat`: every quantity handled here reaches the
  code as a non-negative hex quantity or minimal big-endian byte string.
* Hash functions (keccak256) and elliptic-curve operations are external
  collaborators of the repository and are passed in as opaque function
  parameters, never interpreted.
-/

namespace GoEth

/-! ## Big-endian byte conversion

`natToBE` is the minimal big-endian byte representation of a natural number
(the empty list for zero), mirroring how `go-rlp` serializes `uint64` and
`big.Int` quantities.  `beToNat` is the reading direction used on decode. -/

/-- Big-endian base-256 digits, written fuel-structurally (the fuel `n`
itself always suffices, since `n / 256 < n`). -/
def natToBEAux : Nat → Nat → List Nat
  | 0, _ => []
  | fuel + 1, n => if n = 0 then [] else natToBEAux fuel (n / 256) ++ [n % 256]

def natToBE (n : Nat) : List Nat := natToBEAux n n

theorem natToBEAux_congr : ∀ f1 f2 n, n ≤ f1 → n ≤ f2 →
    natToBEAux f1 n = natToBEAux f2 n := by
  intro f1
  induction f1 with
  | zero =>
    intro f2 n h1 _
    have : n = 0 := by omega
    subst this
    cases f2 with
    | zero => rfl
    | succ f => simp [natToBEAux]
  | succ f1 ih =>
    intro f2 n h1 h2
    cases f2 with
    | zero =>
      have : n = 0 := by omega
      subst this
      simp [natToBEAux]
    | succ f2 =>
      by_cases h0 : n = 0
      · simp [natToBEAux, h0]
      · simp only [natToBEAux, h0, if_false]
        have hlt : n / 256 < n := Nat.div_lt_self (Nat.pos_of_ne_zero h0) (by omega)
        rw [ih f2 (n / 256) (by omega) (by omega)]

/-- The defining recurrence of `natToBE`. -/
theorem natToBE_eq (n : Nat) :
    natToBE n = if n = 0 then [] else natToBE (n / 256) ++ [n % 256] := by
  cases n with
  | zero => rfl
  | succ m =>
    rw [natToBE, natToBE, natToBEAux]
    simp only [Nat.succ_ne_zero, if_false]
    have hlt : (m + 1) / 256 < m + 1 := Nat.div_lt_self (by omega) (by omega)
    rw [natToBEAux_congr m ((m + 1) / 256) ((m + 1) / 256) (by omega) (le_refl _)]

def beToNat (bs : List Nat) : Nat :=
  bs.foldl (fun acc b => acc * 256 + b) 0

theorem beToNat_append_one (bs : List Nat) (b : Nat) :
    beToNat (bs ++ [b]) = beToNat bs * 256 + b := by
  simp [beToNat, List.foldl_append]

theorem beToNat_natToBE (n : Nat) : beToNat (natToBE n) = n := by
  induction n using Nat.strong_induction_on with
  | _ n ih =>
    rw [natToBE_eq]
    by_cases h : n = 0
    · simp [h, beToNat]
    · rw [if_neg h]
      rw [beToNat_append_one, ih (n / 256) (Nat.div_lt_self (Nat.pos_of_ne_zero h) (by omega))]
      omega

theorem natToBE_zero : natToBE 0 = [] := rfl

theorem natToBE_length_le (n k : Nat) (h : n < 256 ^ k) : (natToBE n).length ≤ k := by
  induction k generalizing n with
  | zero =>
    have : n = 0 := by simpa using h
    simp [this, natToBE_zero]
  | succ k ih =>
    rw [natToBE_eq]
    by_cases h0 : n = 0
    · simp [h0]
    · rw [if_neg h0]
      simp only [List.length_append, List.length_cons, List.length_nil]
      have : n / 256 < 256 ^ k := by
        rw [Nat.div_lt_iff_lt_mul (by omega)]
        calc n < 256 ^ (k + 1) := h
        _ = 256 ^ k * 256 := by ring
      have := ih (n / 256) this
      omega

theorem natToBE_ne_nil (n : Nat) (h : n ≠ 0) : natToBE n ≠ [] := by
  rw [natToBE_eq]; simp [h]

theorem natToBE_length_pos (n : Nat) (h : n ≠ 0) : 1 ≤ (natToBE n).length := by
  have := natToBE_ne_nil n h
  cases hn : natToBE n with
  | nil => exact absurd hn this
  | cons a l => simp

/-! ## RLP items

`RItem` is the recursive list/byte-string structure of RLP, the canonical
binary format used by every transaction codec in the repository (via the
`go-rlp` dependency: `rlp.Bytes`, `rlp.Uint`, `rlp.BigInt`, `rlp.List`). -/

inductive RItem where
  | bytes : List Nat → RItem
  | list : List RItem → RItem

/-- Length prefix of an RLP payload: one tag byte for payloads shorter than
56 bytes, otherwise a tag byte carrying the byte-length of the length
followed by the big-endian length itself. -/
def encodeLen (offset len : Nat) : List Nat :=
  if len < 56 then [offset + len]
  else (offset + 55 + (natToBE len).length) :: natToBE len

mutual

/-- RLP encoding: a single byte below 0x80 stands for itself; other byte
strings get a 0x80-based prefix; lists get a 0xc0-based prefix over the
concatenated encodings of their items. -/
def rlpEncode : RItem → List Nat
  | .bytes bs =>
    if bs.length = 1 ∧ bs.headD 0 < 128 then bs
    else encodeLen 128 bs.length ++ bs
  | .list items =>
    let payload := rlpEncodeItems items
    encodeLen 192 payload.length ++ payload

def rlpEncodeItems : List RItem → List Nat
  | [] => []
  | x :: xs => rlpEncode x ++ rlpEncodeItems xs

end

mutual

/-- Fuel-indexed RLP decoder returning the parsed item and the unconsumed
tail.  The fuel only bounds recursion depth page-count; `rlpDecode` below
supplies enough fuel for any input. -/
def rlpDecodeF : Nat → List Nat → Option (RItem × List Nat)
  | 0, _ => none
  | _ + 1, [] => none
  | fuel + 1, b :: rest =>
    if b < 128 then some (.bytes [b], rest)
    else if b < 184 then
      let len := b - 128
      if rest.length < len then none
      else some (.bytes (rest.take len), rest.drop len)
    else if b < 192 then
      let ll := b - 183
      if rest.length < ll then none
      else
        let len := beToNat (rest.take ll)
        let rest' := rest.drop ll
        if rest'.length < len then none
        else some (.bytes (rest'.take len), rest'.drop len)
    else if b < 248 then
      let len := b - 192
      if rest.length < len then none
      else
        match rlpDecodeItemsF fuel (rest.take len) with
        | some items => some (.list items, rest.drop len)
        | none => none
    else
      let ll := b - 247
      if rest.length < ll then none
      else
        let len := beToNat (rest.take ll)
        let rest' := rest.drop ll
        if rest'.length < len then none
        else
          match rlpDecodeItemsF fuel (rest'.take len) with
          | some items => some (.list items, rest'.drop len)
          | none => none

def rlpDecodeItemsF : Nat → List Nat → Option (List RItem)
  | _, [] => some []
  | 0, _ :: _ => none
  | fuel + 1, bs@(_ :: _) =>
    match rlpDecodeF fuel bs with
    | some (x, rest) =>
      match rlpDecodeItemsF fuel rest with
      | some xs => some (x :: xs)
      | none => none
    | none => none

end

/-- Total RLP decoder. -/
def rlpDecode (bs : List Nat) : Option (RItem × List Nat) :=
  rlpDecodeF (2 * bs.length + 1) bs

mutual

/-- Size bound making the RLP length prefixes injective: every byte string
and every list payload is shorter than `2 ^ 64` bytes (`go-rlp` works with
`int` lengths; real data is far below this). -/
def RItem.sized : RItem → Prop
  | .bytes bs => bs.length < 2 ^ 64
  | .list items => (rlpEncodeItems items).length < 2 ^ 64 ∧ RItem.sizedItems items

def RItem.sizedItems : List RItem → Prop
  | [] => True
  | x :: xs => RItem.sized x ∧ RItem.sizedItems xs

end

mutual

def RItem.sizedDec : (x : RItem) → Decidable x.sized
  | .bytes bs => by unfold RItem.sized; infer_instance
  | .list items => by
    unfold RItem.sized
    exact @instDecidableAnd _ _ inferInstance (RItem.sizedItemsDec items)

def RItem.sizedItemsDec : (xs : List RItem) → Decidable (RItem.sizedItems xs)
  | [] => by unfold RItem.sizedItems; infer_instance
  | x :: xs => by
    unfold RItem.sizedItems
    exact @instDecidableAnd _ _ (RItem.sizedDec x) (RItem.sizedItemsDec xs)

end

instance : DecidablePred RItem.sized := RItem.sizedDec
instance : DecidablePred RItem.sizedItems := RItem.sizedItemsDec

mutual

/-- Fuel sufficient to decode an encoded item. -/
def rlpNeed : RItem → Nat
  | .bytes _ => 1
  | .list items => 1 + rlpNeedItems items

def rlpNeedItems : List RItem → Nat
  | [] => 0
  | x :: xs => 1 + max (rlpNeed x) (rlpNeedItems xs)

end

theorem rlpEncode_length_pos (x : RItem) : 1 ≤ (rlpEncode x).length := by
  cases x with
  | bytes bs =>
    rw [rlpEncode]
    split
    · omega
    · unfold encodeLen; split <;> simp
  | list items => rw [rlpEncode]; unfold encodeLen; split <;> simp

mutual

theorem rlpNeed_le (x : RItem) : rlpNeed x ≤ 2 * (rlpEncode x).length - 1 := by
  cases x with
  | bytes bs =>
    have := rlpEncode_length_pos (.bytes bs)
    unfold rlpNeed; omega
  | list items =>
    have h := rlpNeedItems_le items
    unfold rlpNeed
    show 1 + rlpNeedItems items ≤ 2 * (rlpEncode (.list items)).length - 1
    rw [rlpEncode]
    simp only [List.length_append]
    have hpos : 1 ≤ (encodeLen 192 (rlpEncodeItems items).length).length := by
      unfold encodeLen; split <;> simp
    omega

theorem rlpNeedItems_le (xs : List RItem) :
    rlpNeedItems xs ≤ 2 * (rlpEncodeItems xs).length := by
  cases xs with
  | nil => unfold rlpNeedItems rlpEncodeItems; simp
  | cons x xs =>
    have h1 := rlpNeed_le x
    have h2 := rlpNeedItems_le xs
    have h3 := rlpEncode_length_pos x
    unfold rlpNeedItems rlpEncodeItems
    simp only [List.length_append]
    omega

end

theorem rlp_decode_encode_aux (fuel : Nat) :
    (∀ (x : RItem) (rest : List Nat), x.sized → rlpNeed x ≤ fuel →
      rlpDecodeF fuel (rlpEncode x ++ rest) = some (x, rest)) ∧
    (∀ (xs : List RItem), RItem.sizedItems xs → rlpNeedItems xs ≤ fuel →
      rlpDecodeItemsF fuel (rlpEncodeItems xs) = some xs) := by
  induction fuel with
  | zero =>
    constructor
    · intro x rest _ hneed
      exfalso
      cases x <;> simp [rlpNeed] at hneed
    · intro xs hsz hneed
      cases xs with
      | nil => simp [rlpEncodeItems, rlpDecodeItemsF]
      | cons x xs => simp [rlpNeedItems] at hneed
  | succ fuel ih =>
    constructor
    · intro x rest hsz hneed
      cases x with
      | bytes bs =>
        rw [rlpEncode]
        by_cases h1 : bs.length = 1 ∧ bs.headD 0 < 128
        · rw [if_pos h1]
          obtain ⟨hl, hh⟩ := h1
          obtain ⟨b, hb⟩ : ∃ b, bs = [b] := by
            cases bs with
            | nil => simp at hl
            | cons a l =>
              cases l with
              | nil => exact ⟨a, rfl⟩
              | cons c t => simp at hl
          rw [hb] at hh ⊢
          simp only [List.headD_cons] at hh
          simp [rlpDecodeF, hh]
        · rw [if_neg h1]
          unfold RItem.sized at hsz
          by_cases h2 : bs.length < 56
          · rw [encodeLen, if_pos h2]
            simp only [List.cons_append, List.append_assoc, List.nil_append]
            rw [rlpDecodeF]
            rw [if_neg (by omega : ¬ (128 + bs.length < 128)),
              if_pos (by omega : 128 + bs.length < 184)]
            simp only [Nat.add_sub_cancel_left]
            rw [if_neg (by simp : ¬ (bs ++ rest).length < bs.length)]
            rw [List.take_left' rfl, List.drop_left' rfl]
          · rw [encodeLen, if_neg h2]
            have hll1 : 1 ≤ (natToBE bs.length).length :=
              natToBE_length_pos _ (by omega)
            have hll8 : (natToBE bs.length).length ≤ 8 :=
              natToBE_length_le _ 8 (by norm_num at hsz ⊢; omega)
            simp only [List.cons_append, List.append_assoc, List.nil_append]
            rw [rlpDecodeF]
            rw [if_neg (by omega : ¬ (128 + 55 + (natToBE bs.length).length < 128)),
              if_neg (by omega : ¬ (128 + 55 + (natToBE bs.length).length < 184)),
              if_pos (by omega : 128 + 55 + (natToBE bs.length).length < 192)]
            have hsub : 128 + 55 + (natToBE bs.length).length - 183
                = (natToBE bs.length).length := by omega
            rw [hsub]
            rw [if_neg (by simp : ¬ (natToBE bs.length ++ (bs ++ rest)).length
              < (natToBE bs.length).length)]
            rw [List.take_left' rfl, List.drop_left' rfl, beToNat_natToBE]
            rw [if_neg (by simp : ¬ (bs ++ rest).length < bs.length)]
            rw [List.take_left' rfl, List.drop_left' rfl]
      | list items =>
        rw [rlpEncode]
        obtain ⟨hszp, hszi⟩ := (by exact hsz : (RItem.list items).sized)
        have hneedi : rlpNeedItems items ≤ fuel := by
          unfold rlpNeed at hneed; omega
        by_cases h2 : (rlpEncodeItems items).length < 56
        · rw [encodeLen, if_pos h2]
          simp only [List.cons_append, List.append_assoc, List.nil_append]
          rw [rlpDecodeF]
          rw [if_neg (by omega : ¬ (192 + (rlpEncodeItems items).length < 128)),
            if_neg (by omega : ¬ (192 + (rlpEncodeItems items).length < 184)),
            if_neg (by omega : ¬ (192 + (rlpEncodeItems items).length < 192)),
            if_pos (by omega : 192 + (rlpEncodeItems items).length < 248)]
          simp only [Nat.add_sub_cancel_left]
          rw [if_neg (by simp :
            ¬ (rlpEncodeItems items ++ rest).length < (rlpEncodeItems items).length)]
          rw [List.take_left' rfl, List.drop_left' rfl, ih.2 items hszi hneedi]
        · rw [encodeLen, if_neg h2]
          have hll1 : 1 ≤ (natToBE (rlpEncodeItems items).length).length :=
            natToBE_length_pos _ (by omega)
          have hll8 : (natToBE (rlpEncodeItems items).length).length ≤ 8 :=
            natToBE_length_le _ 8 (by norm_num at hszp ⊢; omega)
          simp only [List.cons_append, List.append_assoc, List.nil_append]
          rw [rlpDecodeF]
          rw [if_neg (by omega :
              ¬ (192 + 55 + (natToBE (rlpEncodeItems items).length).length < 128)),
            if_neg (by omega :
              ¬ (192 + 55 + (natToBE (rlpEncodeItems items).length).length < 184)),
            if_neg (by omega :
              ¬ (192 + 55 + (natToBE (rlpEncodeItems items).length).length < 192)),
            if_neg (by omega :
              ¬ (192 + 55 + (natToBE (rlpEncodeItems items).length).length < 248))]
          have hsub : 192 + 55 + (natToBE (rlpEncodeItems items).length).length - 247
              = (natToBE (rlpEncodeItems items).length).length := by omega
          rw [hsub]
          rw [if_neg (by simp :
            ¬ (natToBE (rlpEncodeItems items).length ++ (rlpEncodeItems items ++ rest)).length
              < (natToBE (rlpEncodeItems items).length).length)]
          rw [List.take_left' rfl, List.drop_left' rfl, beToNat_natToBE]
          rw [if_neg (by simp :
            ¬ (rlpEncodeItems items ++ rest).length < (rlpEncodeItems items).length)]
          rw [List.take_left' rfl, List.drop_left' rfl, ih.2 items hszi hneedi]
    · intro xs hsz hneed
      cases xs with
      | nil => simp [rlpEncodeItems, rlpDecodeItemsF]
      | cons x xs =>
        obtain ⟨hszx, hszxs⟩ := (by exact hsz : RItem.sizedItems (x :: xs))
        rw [rlpNeedItems] at hneed
        have hmax : max (rlpNeed x) (rlpNeedItems xs) ≤ fuel := by omega
        have hneedx : rlpNeed x ≤ fuel := le_trans (le_max_left _ _) hmax
        have hneedxs : rlpNeedItems xs ≤ fuel := le_trans (le_max_right _ _) hmax
        rw [rlpEncodeItems]
        have hne : rlpEncode x ++ rlpEncodeItems xs ≠ [] := by
          have h1 := rlpEncode_length_pos x
          cases hx : rlpEncode x with
          | nil => rw [hx] at h1; simp at h1
          | cons a l => simp [hx]
        match hmm : rlpEncode x ++ rlpEncodeItems xs, hne with
        | b :: bs, _ =>
          rw [rlpDecodeItemsF, ← hmm]
          rw [ih.1 x (rlpEncodeItems xs) hszx hneedx]
          simp [ih.2 xs hszxs hneedxs]

/-- Round-trip of the RLP codec on canonically encoded, size-bounded items:
decoding an encoding returns the item and leaves trailing bytes untouched. -/
theorem rlpDecode_rlpEncode (x : RItem) (hsz : x.sized) :
    rlpDecode (rlpEncode x) = some (x, []) := by
  have h := (rlp_decode_encode_aux (2 * (rlpEncode x).length + 1)).1 x [] hsz
    (le_trans (rlpNeed_le x) (by have := rlpEncode_length_pos x; omega))
  rw [List.append_nil] at h
  rw [rlpDecode]
  simpa using h

/-! ## Transaction data model

The capability fragments embedded into the four transaction variants,
mirroring `types.EmbedCallData`, `types.EmbedTransactionData`,
`types.EmbedLegacyPriceData`, `types.EmbedAccessListData`,
`types.EmbedDynamicFeeData` and (modelled from the spec, its source file
being absent) `EmbedBlobData`.  Pointer-valued fields are `Option`;
`Input []byte` keeps Go's slice semantics where `nil` and a decoded empty
slice are both `[]`. -/

/-- 20-byte account address (`types.Address`). -/
abbrev Address := List Nat

/-- 32-byte hash (`types.Hash`). -/
abbrev Hash256 := List Nat

/-- ECDSA signature `types.Signature` with `V`, `R`, `S` as non-negative
big integers. -/
structure Sig where
  v : Nat
  r : Nat
  s : Nat
deriving DecidableEq

structure EmbedCallData where
  fromAddr : Option Address := none
  toAddr : Option Address := none
  gasLimit : Option Nat := none
  value : Option Nat := none
  input : List Nat := []
deriving DecidableEq

structure EmbedTransactionData where
  chainID : Option Nat := none
  nonce : Option Nat := none
  signature : Option Sig := none
deriving DecidableEq

structure EmbedLegacyPriceData where
  gasPrice : Option Nat := none
deriving DecidableEq

/-- `types.AccessTuple` (`types/tx_test.go`, the embedded `types` source
document, line 55): an address together with its storage keys,
order-preserving, duplicates allowed. -/
structure AccessTuple where
  address : Address
  storageKeys : List Hash256
deriving DecidableEq

structure EmbedAccessListData where
  accessList : List AccessTuple := []
deriving DecidableEq

structure EmbedDynamicFeeData where
  maxFeePerGas : Option Nat := none
  maxPriorityFeePerGas : Option Nat := none
deriving DecidableEq

/-- `types.BlobSidecar` (`types/tx_test.go`, line 153): the blob payload
plus its KZG commitment and proof; the `kzg4844` fixed sizes
131072/48/48 are enforced as well-formedness. -/
structure BlobSidecar where
  blob : List Nat
  commitment : List Nat
  proof : List Nat
deriving DecidableEq

/-- `types.Blob` (`types/tx_test.go`, line 147) — a versioned hash plus
an optional sidecar. -/
structure Blob where
  hash : Hash256
  sidecar : Option BlobSidecar
deriving DecidableEq

/-- Modelled from the spec: `EmbedBlobData` — the blob fee cap and the
blob list of a Blob transaction. -/
structure EmbedBlobData where
  maxFeePerBlobGas : Option Nat := none
  blobs : List Blob := []
deriving DecidableEq

/-- `types.TransactionLegacy`. -/
structure TransactionLegacy where
  cd : EmbedCallData := {}
  td : EmbedTransactionData := {}
  lp : EmbedLegacyPriceData := {}
deriving DecidableEq

/-- `types.TransactionAccessList`. -/
structure TransactionAccessList where
  cd : EmbedCallData := {}
  td : EmbedTransactionData := {}
  lp : EmbedLegacyPriceData := {}
  al : EmbedAccessListData := {}
deriving DecidableEq

/-- `types.TransactionDynamicFee`. -/
structure TransactionDynamicFee where
  cd : EmbedCallData := {}
  td : EmbedTransactionData := {}
  al : EmbedAccessListData := {}
  df : EmbedDynamicFeeData := {}
deriving DecidableEq

/-- `types.TransactionBlob`. -/
structure TransactionBlob where
  cd : EmbedCallData := {}
  td : EmbedTransactionData := {}
  al : EmbedAccessListData := {}
  df : EmbedDynamicFeeData := {}
  bd : EmbedBlobData := {}
deriving DecidableEq

/-! ## Scalar RLP item helpers (the `go-rlp` leaf codecs) -/

/-- `rlp.Uint` / `rlp.BigInt` encoding: minimal big-endian bytes. -/
def uintItem (n : Nat) : RItem := .bytes (natToBE n)

/-- Decode an item as a `rlp.Uint` destination: must be a byte string of at
most 8 bytes (a `uint64`). -/
def decUint : RItem → Except String Nat
  | .bytes bs => if bs.length ≤ 8 then .ok (beToNat bs) else .error "uint overflow"
  | .list _ => .error "expected bytes"

/-- Decode an item as a `rlp.BigInt` destination. -/
def decBig : RItem → Except String Nat
  | .bytes bs => .ok (beToNat bs)
  | .list _ => .error "expected bytes"

/-- Decode an item as a `rlp.Bytes` destination. -/
def decBytes : RItem → Except String (List Nat)
  | .bytes bs => .ok bs
  | .list _ => .error "expected bytes"

/-- The bytes of an optional `to` address: Go's
`to = ([]byte)(nil); if t.To != nil { to = t.To[:] }`. -/
def toBytes (o : Option Address) : List Nat := o.getD []

/-! ## Legacy transaction codec (`types/tx_legacy.go`) -/

/-- The nine RLP list items written by `TransactionLegacy.EncodeRLP`:
every field is emitted, unset fields as their zero defaults. -/
def TransactionLegacy.encodeItems (t : TransactionLegacy) : List RItem :=
  let nonce := t.td.nonce.getD 0
  let gasPrice := t.lp.gasPrice.getD 0
  let gasLimit := t.cd.gasLimit.getD 0
  let toB := toBytes t.cd.toAddr
  let value := t.cd.value.getD 0
  let input := t.cd.input
  let v := (t.td.signature.map Sig.v).getD 0
  let r := (t.td.signature.map Sig.r).getD 0
  let s := (t.td.signature.map Sig.s).getD 0
  [uintItem nonce, uintItem gasPrice, uintItem gasLimit, .bytes toB,
    uintItem value, .bytes input, uintItem v, uintItem r, uintItem s]

/-- `TransactionLegacy.EncodeRLP`. -/
def TransactionLegacy.encodeRLP (t : TransactionLegacy) : List Nat :=
  rlpEncode (.list t.encodeItems)

/-- `TransactionLegacy.DecodeRLP`: parse a nine-item list, then store each
field only when its decoded value is non-zero / non-empty; when the
signature is present and `v ≥ 35`, derive the chain ID as `(v - 35) / 2`
(`big.Int.Uint64` wraps modulo `2 ^ 64`).  The address constructor
(`AddressFromBytesPtr`, source absent from `src/`) is modelled from the
spec as wrapping the decoded recipient bytes. -/
def TransactionLegacy.decodeRLP (data : List Nat) : Except String TransactionLegacy :=
  if data.isEmpty then .error "empty data"
  else
    match rlpDecode data with
    | some (.list [inonce, igasPrice, igasLimit, ito, ivalue, iinput, iv, ir, is'], _) => do
      let nonce ← decUint inonce
      let gasPrice ← decBig igasPrice
      let gasLimit ← decUint igasLimit
      let toB ← decBytes ito
      let value ← decBig ivalue
      let input ← decBytes iinput
      let v ← decBig iv
      let r ← decBig ir
      let s ← decBig is'
      .ok
        { td :=
            { nonce := if nonce ≠ 0 then some nonce else none
              chainID :=
                if v ≠ 0 ∨ r ≠ 0 ∨ s ≠ 0 then
                  if 35 ≤ v then some (((v - 35) / 2) % 2 ^ 64) else none
                else none
              signature := if v ≠ 0 ∨ r ≠ 0 ∨ s ≠ 0 then some ⟨v, r, s⟩ else none }
          cd :=
            { toAddr := if toB ≠ [] then some toB else none
              value := if value ≠ 0 then some value else none
              input := if input ≠ [] then input else []
              gasLimit := if gasLimit ≠ 0 then some gasLimit else none }
          lp := { gasPrice := if gasPrice ≠ 0 then some gasPrice else none } }
    | some _ => .error "unable to decode transaction"
    | none => .error "unable to decode transaction"

/-- What a decode of an encode observably returns for a legacy
transaction: zero/empty fields collapse to unset, `from` is dropped
entirely (it is never serialized), and the chain ID is recomputed from the
signature's `v` alone. -/
def normalizeLegacy (t : TransactionLegacy) : TransactionLegacy :=
  let v := (t.td.signature.map Sig.v).getD 0
  let r := (t.td.signature.map Sig.r).getD 0
  let s := (t.td.signature.map Sig.s).getD 0
  { td :=
      { nonce := if t.td.nonce.getD 0 ≠ 0 then some (t.td.nonce.getD 0) else none
        chainID :=
          if v ≠ 0 ∨ r ≠ 0 ∨ s ≠ 0 then
            if 35 ≤ v then some (((v - 35) / 2) % 2 ^ 64) else none
          else none
        signature := if v ≠ 0 ∨ r ≠ 0 ∨ s ≠ 0 then some ⟨v, r, s⟩ else none }
    cd :=
      { toAddr := if toBytes t.cd.toAddr ≠ [] then some (toBytes t.cd.toAddr) else none
        value := if t.cd.value.getD 0 ≠ 0 then some (t.cd.value.getD 0) else none
        input := t.cd.input
        gasLimit := if t.cd.gasLimit.getD 0 ≠ 0 then some (t.cd.gasLimit.getD 0) else none }
    lp := { gasPrice := if t.lp.gasPrice.getD 0 ≠ 0 then some (t.lp.gasPrice.getD 0) else none } }

/-- Well-formedness of a legacy transaction for the codec: `uint64` fields
in range and the encoded item list within RLP's size bound. -/
def WFLegacy (t : TransactionLegacy) : Prop :=
  t.td.nonce.getD 0 < 2 ^ 64 ∧ t.cd.gasLimit.getD 0 < 2 ^ 64 ∧
    RItem.sized (.list t.encodeItems)

instance (t : TransactionLegacy) : Decidable (WFLegacy t) := by
  unfold WFLegacy; infer_instance

theorem decUint_uintItem (n : Nat) (h : n < 2 ^ 64) : decUint (uintItem n) = .ok n := by
  rw [uintItem, decUint, if_pos (natToBE_length_le n 8 (by norm_num; omega)),
    beToNat_natToBE]

theorem decBig_uintItem (n : Nat) : decBig (uintItem n) = .ok n := by
  rw [uintItem, decBig, beToNat_natToBE]

/-- Decode-of-encode for the legacy codec, characterized exactly. -/
theorem legacy_decode_encode (t : TransactionLegacy) (h : WFLegacy t) :
    TransactionLegacy.decodeRLP t.encodeRLP = .ok (normalizeLegacy t) := by
  obtain ⟨h1, h2, hsz⟩ := h
  rw [TransactionLegacy.decodeRLP, TransactionLegacy.encodeRLP]
  rw [if_neg (by
    have := rlpEncode_length_pos (.list t.encodeItems)
    cases hx : rlpEncode (.list t.encodeItems) with
    | nil => rw [hx] at this; simp at this
    | cons a l => simp)]
  rw [rlpDecode_rlpEncode _ hsz]
  simp only [TransactionLegacy.encodeItems]
  simp only [decUint_uintItem _ h1, decUint_uintItem _ h2, decBig_uintItem,
    decBytes, bind, Except.bind, normalizeLegacy]
  have hinp : (if t.cd.input ≠ [] then t.cd.input else []) = t.cd.input := by
    split <;> simp_all
  rw [hinp]

/-! ## Legacy signing hash (`TransactionLegacy.CalculateSigningHash`) -/

/-- The RLP items hashed by `TransactionLegacy.CalculateSigningHash`,
mirroring the source: zero defaults for unset fields, and the EIP-155
triple appended via `list.Add` when `t.ChainID != nil && *t.ChainID != 0`. -/
def TransactionLegacy.signingItems (t : TransactionLegacy) : List RItem :=
  let chainID := t.td.chainID.getD 0
  let nonce := t.td.nonce.getD 0
  let gasPrice := t.lp.gasPrice.getD 0
  let gasLimit := t.cd.gasLimit.getD 0
  let toB := toBytes t.cd.toAddr
  let value := t.cd.value.getD 0
  let input := t.cd.input
  let base := [uintItem nonce, uintItem gasPrice, uintItem gasLimit,
    .bytes toB, uintItem value, .bytes input]
  if t.td.chainID ≠ none ∧ chainID ≠ 0 then
    base ++ [uintItem chainID, uintItem 0, uintItem 0]
  else base

/-- `TransactionLegacy.CalculateSigningHash`, with keccak256 as an opaque
external hash function. -/
def TransactionLegacy.calculateSigningHash (keccak : List Nat → Hash256)
    (t : TransactionLegacy) : Hash256 :=
  keccak (rlpEncode (.list t.signingItems))

/-- Stated from the spec's words, for comparison with the code: the RLP
list `(nonce, gas_price, gas_limit, to, value, input)` with zero defaults,
with `(chain_id, 0, 0)` appended if and only if the chain ID is set and
non-zero. -/
def legacySigningItemsSpec (t : TransactionLegacy) : List RItem :=
  [uintItem (t.td.nonce.getD 0), uintItem (t.lp.gasPrice.getD 0),
    uintItem (t.cd.gasLimit.getD 0), .bytes (toBytes t.cd.toAddr),
    uintItem (t.cd.value.getD 0), .bytes t.cd.input] ++
    (match t.td.chainID with
     | some c => if c ≠ 0 then [uintItem c, uintItem 0, uintItem 0] else []
     | none => [])

theorem signingItems_eq_spec (t : TransactionLegacy) :
    t.signingItems = legacySigningItemsSpec t := by
  rw [TransactionLegacy.signingItems, legacySigningItemsSpec]
  cases h : t.td.chainID with
  | none => simp [h]
  | some c =>
    by_cases hc : c = 0 <;> simp [h, hc]

/-! ## Transaction signing (`crypto/txsign.Sign`), legacy variant

`ecdsa.SignHash` is an external collaborator; its output is the recovery
bit (`V ∈ {0, 1}` after the 27/28 normalization in `crypto/ecdsa`) and the
`R`/`S` scalars, which are passed in here as parameters.  For the legacy
type the stored `v` is `bit + uint64(chainID * 2) + 35` when the chain ID
is set — the `*txd.ChainID * 2` multiplication is Go `uint64` arithmetic
and wraps modulo `2 ^ 64` — and `bit + 27` otherwise.  `Sign` also stores
the signer's address into the `from` field. -/
def signLegacy (t : TransactionLegacy) (bit r s : Nat) (signer : Address) :
    TransactionLegacy :=
  let sv : Nat :=
    match t.td.chainID with
    | some c => bit + c * 2 % 2 ^ 64 + 35
    | none => bit + 27
  { t with
    td := { t.td with signature := some ⟨sv, r, s⟩ }
    cd := { t.cd with fromAddr := some signer } }

/-! ## Access list and hash list RLP fragments

The RLP codecs `AccessList.EncodeRLP` / `AccessList.DecodeRLP` and
`AccessTuple.EncodeRLP` / `AccessTuple.DecodeRLP` are embedded from
`types/tx_test.go` (the embedded `types` source document, lines 71-144):
an access list is a list of `[address, [storage_key, ...]]` pairs; the
inner storage-key decode loop is the list of 32-byte strings at lines
132-142.  The standalone `hashList` RLP codec used by the blob
transaction's versioned hashes is the same list-of-32-byte-strings wire
form; its own type declaration is not under `src/` and is modelled from
the spec. -/

def accessTupleItem (a : AccessTuple) : RItem :=
  .list [.bytes a.address, .list (a.storageKeys.map RItem.bytes)]

def accessListItem (al : List AccessTuple) : RItem :=
  .list (al.map accessTupleItem)

def hashListItem (hs : List Hash256) : RItem :=
  .list (hs.map RItem.bytes)

/-- Decode a fixed-width byte string (addresses, hashes, KZG payloads). -/
def decFixed (n : Nat) : RItem → Except String (List Nat)
  | .bytes bs => if bs.length = n then .ok bs else .error "invalid length"
  | .list _ => .error "expected bytes"

def decHashList : RItem → Except String (List Hash256)
  | .list items => decHashListAux items
  | .bytes _ => .error "expected list"
where
  decHashListAux : List RItem → Except String (List Hash256)
    | [] => .ok []
    | x :: xs => do
      let h ← decFixed 32 x
      let t ← decHashListAux xs
      .ok (h :: t)

def decAccessTuple : RItem → Except String AccessTuple
  | .list [a, ks] => do
    let addr ← decFixed 20 a
    let keys ← decHashList ks
    .ok ⟨addr, keys⟩
  | _ => .error "invalid access tuple"

def decAccessList : RItem → Except String (List AccessTuple)
  | .list items => decAccessListAux items
  | .bytes _ => .error "expected list"
where
  decAccessListAux : List RItem → Except String (List AccessTuple)
    | [] => .ok []
    | x :: xs => do
      let a ← decAccessTuple x
      let t ← decAccessListAux xs
      .ok (a :: t)

/-- Well-formed access list: 20-byte addresses, 32-byte storage keys. -/
def wfAccessList (al : List AccessTuple) : Bool :=
  al.all fun a => a.address.length == 20 && a.storageKeys.all fun k => k.length == 32

theorem decHashList_hashListItem (hs : List Hash256)
    (h : hs.all (fun k => k.length == 32) = true) :
    decHashList (hashListItem hs) = .ok hs := by
  rw [hashListItem, decHashList]
  induction hs with
  | nil => simp [decHashList.decHashListAux]
  | cons x xs ih =>
    simp only [List.all_cons, Bool.and_eq_true, beq_iff_eq] at h
    simp only [List.map_cons, decHashList.decHashListAux, decFixed, if_pos h.1,
      bind, Except.bind, ih h.2]

theorem decAccessList_accessListItem (al : List AccessTuple)
    (h : wfAccessList al = true) :
    decAccessList (accessListItem al) = .ok al := by
  rw [accessListItem, decAccessList]
  induction al with
  | nil => simp [decAccessList.decAccessListAux]
  | cons a al ih =>
    simp only [wfAccessList, List.all_cons, Bool.and_eq_true, beq_iff_eq] at h
    have hh : a.storageKeys.all (fun k => k.length == 32) = true := h.1.2
    simp only [List.map_cons, decAccessList.decAccessListAux, decAccessTuple,
      accessTupleItem, decFixed, if_pos h.1.1, bind, Except.bind]
    have hkeys := decHashList_hashListItem a.storageKeys hh
    rw [hashListItem] at hkeys
    rw [hkeys, ih (by simpa [wfAccessList] using h.2)]

/-! ## Access list transaction codec (`types/tx_accesslist.go`) -/

/-- The eleven RLP list items of `TransactionAccessList.EncodeRLP`. -/
def TransactionAccessList.encodeItems (t : TransactionAccessList) : List RItem :=
  let chainID := t.td.chainID.getD 0
  let nonce := t.td.nonce.getD 0
  let gasPrice := t.lp.gasPrice.getD 0
  let gasLimit := t.cd.gasLimit.getD 0
  let toB := toBytes t.cd.toAddr
  let value := t.cd.value.getD 0
  let input := t.cd.input
  let v := (t.td.signature.map Sig.v).getD 0
  let r := (t.td.signature.map Sig.r).getD 0
  let s := (t.td.signature.map Sig.s).getD 0
  [uintItem chainID, uintItem nonce, uintItem gasPrice, uintItem gasLimit,
    .bytes toB, uintItem value, .bytes input, accessListItem t.al.accessList,
    uintItem v, uintItem r, uintItem s]

/-- `TransactionAccessList.EncodeRLP`: type byte `0x01` plus the list. -/
def TransactionAccessList.encodeRLP (t : TransactionAccessList) : List Nat :=
  1 :: rlpEncode (.list t.encodeItems)

/-- `TransactionAccessList.DecodeRLP`. -/
def TransactionAccessList.decodeRLP (data : List Nat) :
    Except String TransactionAccessList :=
  match data with
  | [] => .error "empty data"
  | b :: rest =>
    if b ≠ 1 then .error "invalid transaction type"
    else
      match rlpDecode rest with
      | some (.list [ichainID, inonce, igasPrice, igasLimit, ito, ivalue,
          iinput, ial, iv, ir, is'], _) => do
        let chainID ← decUint ichainID
        let nonce ← decUint inonce
        let gasPrice ← decBig igasPrice
        let gasLimit ← decUint igasLimit
        let toB ← decBytes ito
        let value ← decBig ivalue
        let input ← decBytes iinput
        let al ← decAccessList ial
        let v ← decBig iv
        let r ← decBig ir
        let s ← decBig is'
        .ok
          { td :=
              { chainID := if chainID ≠ 0 then some chainID else none
                nonce := if nonce ≠ 0 then some nonce else none
                signature := if v ≠ 0 ∨ r ≠ 0 ∨ s ≠ 0 then some ⟨v, r, s⟩ else none }
            cd :=
              { toAddr := if toB ≠ [] then some toB else none
                value := if value ≠ 0 then some value else none
                input := if input ≠ [] then input else []
                gasLimit := if gasLimit ≠ 0 then some gasLimit else none }
            lp := { gasPrice := if gasPrice ≠ 0 then some gasPrice else none }
            al := { accessList := if al ≠ [] then al else [] } }
      | some _ => .error "unable to decode transaction"
      | none => .error "unable to decode transaction"

/-- Decode-of-encode observably returns this for an access list
transaction. -/
def normalizeAccessList (t : TransactionAccessList) : TransactionAccessList :=
  let v := (t.td.signature.map Sig.v).getD 0
  let r := (t.td.signature.map Sig.r).getD 0
  let s := (t.td.signature.map Sig.s).getD 0
  { td :=
      { chainID := if t.td.chainID.getD 0 ≠ 0 then some (t.td.chainID.getD 0) else none
        nonce := if t.td.nonce.getD 0 ≠ 0 then some (t.td.nonce.getD 0) else none
        signature := if v ≠ 0 ∨ r ≠ 0 ∨ s ≠ 0 then some ⟨v, r, s⟩ else none }
    cd :=
      { toAddr := if toBytes t.cd.toAddr ≠ [] then some (toBytes t.cd.toAddr) else none
        value := if t.cd.value.getD 0 ≠ 0 then some (t.cd.value.getD 0) else none
        input := t.cd.input
        gasLimit := if t.cd.gasLimit.getD 0 ≠ 0 then some (t.cd.gasLimit.getD 0) else none }
    lp := { gasPrice := if t.lp.gasPrice.getD 0 ≠ 0 then some (t.lp.gasPrice.getD 0) else none }
    al := { accessList := t.al.accessList } }

def WFAccessList (t : TransactionAccessList) : Prop :=
  t.td.chainID.getD 0 < 2 ^ 64 ∧ t.td.nonce.getD 0 < 2 ^ 64 ∧
    t.cd.gasLimit.getD 0 < 2 ^ 64 ∧ wfAccessList t.al.accessList = true ∧
    RItem.sized (.list t.encodeItems)

instance (t : TransactionAccessList) : Decidable (WFAccessList t) := by
  unfold WFAccessList; infer_instance

theorem accessList_decode_encode (t : TransactionAccessList) (h : WFAccessList t) :
    TransactionAccessList.decodeRLP t.encodeRLP = .ok (normalizeAccessList t) := by
  obtain ⟨h1, h2, h3, h4, hsz⟩ := h
  rw [TransactionAccessList.encodeRLP, TransactionAccessList.decodeRLP]
  rw [if_neg (by simp)]
  rw [rlpDecode_rlpEncode _ hsz]
  simp only [TransactionAccessList.encodeItems]
  simp only [decUint_uintItem _ h1, decUint_uintItem _ h2, decUint_uintItem _ h3,
    decBig_uintItem, decBytes, decAccessList_accessListItem _ h4, bind,
    Except.bind, normalizeAccessList]
  have hinp : (if t.cd.input ≠ [] then t.cd.input else []) = t.cd.input := by
    split <;> simp_all
  have hal : (if t.al.accessList ≠ [] then t.al.accessList else []) = t.al.accessList := by
    split <;> simp_all
  rw [hinp, hal]

/-! ## Dynamic fee transaction codec (`types/tx_dynamicfee.go`) -/

/-- The twelve RLP list items of `TransactionDynamicFee.EncodeRLP`
(the priority fee precedes the fee cap). -/
def TransactionDynamicFee.encodeItems (t : TransactionDynamicFee) : List RItem :=
  let chainID := t.td.chainID.getD 0
  let nonce := t.td.nonce.getD 0
  let maxPriorityFeePerGas := t.df.maxPriorityFeePerGas.getD 0
  let maxFeePerGas := t.df.maxFeePerGas.getD 0
  let gasLimit := t.cd.gasLimit.getD 0
  let toB := toBytes t.cd.toAddr
  let value := t.cd.value.getD 0
  let input := t.cd.input
  let v := (t.td.signature.map Sig.v).getD 0
  let r := (t.td.signature.map Sig.r).getD 0
  let s := (t.td.signature.map Sig.s).getD 0
  [uintItem chainID, uintItem nonce, uintItem maxPriorityFeePerGas,
    uintItem maxFeePerGas, uintItem gasLimit, .bytes toB, uintItem value,
    .bytes input, accessListItem t.al.accessList, uintItem v, uintItem r,
    uintItem s]

/-- `TransactionDynamicFee.EncodeRLP`: type byte `0x02` plus the list. -/
def TransactionDynamicFee.encodeRLP (t : TransactionDynamicFee) : List Nat :=
  2 :: rlpEncode (.list t.encodeItems)

/-- `TransactionDynamicFee.DecodeRLP`. -/
def TransactionDynamicFee.decodeRLP (data : List Nat) :
    Except String TransactionDynamicFee :=
  match data with
  | [] => .error "empty data"
  | b :: rest =>
    if b ≠ 2 then .error "invalid transaction type"
    else
      match rlpDecode rest with
      | some (.list [ichainID, inonce, iprio, ifee, igasLimit, ito, ivalue,
          iinput, ial, iv, ir, is'], _) => do
        let chainID ← decUint ichainID
        let nonce ← decUint inonce
        let maxPriorityFeePerGas ← decBig iprio
        let maxFeePerGas ← decBig ifee
        let gasLimit ← decUint igasLimit
        let toB ← decBytes ito
        let value ← decBig ivalue
        let input ← decBytes iinput
        let al ← decAccessList ial
        let v ← decBig iv
        let r ← decBig ir
        let s ← decBig is'
        .ok
          { td :=
              { chainID := if chainID ≠ 0 then some chainID else none
                nonce := if nonce ≠ 0 then some nonce else none
                signature := if v ≠ 0 ∨ r ≠ 0 ∨ s ≠ 0 then some ⟨v, r, s⟩ else none }
            cd :=
              { toAddr := if toB ≠ [] then some toB else none
                value := if value ≠ 0 then some value else none
                input := if input ≠ [] then input else []
                gasLimit := if gasLimit ≠ 0 then some gasLimit else none }
            df :=
              { maxPriorityFeePerGas :=
                  if maxPriorityFeePerGas ≠ 0 then some maxPriorityFeePerGas else none
                maxFeePerGas := if maxFeePerGas ≠ 0 then some maxFeePerGas else none }
            al := { accessList := if al ≠ [] then al else [] } }
      | some _ => .error "unable to decode transaction"
      | none => .error "unable to decode transaction"

/-- Decode-of-encode observably returns this for a dynamic fee
transaction. -/
def normalizeDynamicFee (t : TransactionDynamicFee) : TransactionDynamicFee :=
  let v := (t.td.signature.map Sig.v).getD 0
  let r := (t.td.signature.map Sig.r).getD 0
  let s := (t.td.signature.map Sig.s).getD 0
  { td :=
      { chainID := if t.td.chainID.getD 0 ≠ 0 then some (t.td.chainID.getD 0) else none
        nonce := if t.td.nonce.getD 0 ≠ 0 then some (t.td.nonce.getD 0) else none
        signature := if v ≠ 0 ∨ r ≠ 0 ∨ s ≠ 0 then some ⟨v, r, s⟩ else none }
    cd :=
      { toAddr := if toBytes t.cd.toAddr ≠ [] then some (toBytes t.cd.toAddr) else none
        value := if t.cd.value.getD 0 ≠ 0 then some (t.cd.value.getD 0) else none
        input := t.cd.input
        gasLimit := if t.cd.gasLimit.getD 0 ≠ 0 then some (t.cd.gasLimit.getD 0) else none }
    df :=
      { maxPriorityFeePerGas :=
          if t.df.maxPriorityFeePerGas.getD 0 ≠ 0 then some (t.df.maxPriorityFeePerGas.getD 0)
          else none
        maxFeePerGas :=
          if t.df.maxFeePerGas.getD 0 ≠ 0 then some (t.df.maxFeePerGas.getD 0) else none }
    al := { accessList := t.al.accessList } }

def WFDynamicFee (t : TransactionDynamicFee) : Prop :=
  t.td.chainID.getD 0 < 2 ^ 64 ∧ t.td.nonce.getD 0 < 2 ^ 64 ∧
    t.cd.gasLimit.getD 0 < 2 ^ 64 ∧ wfAccessList t.al.accessList = true ∧
    RItem.sized (.list t.encodeItems)

instance (t : TransactionDynamicFee) : Decidable (WFDynamicFee t) := by
  unfold WFDynamicFee; infer_instance

theorem dynamicFee_decode_encode (t : TransactionDynamicFee) (h : WFDynamicFee t) :
    TransactionDynamicFee.decodeRLP t.encodeRLP = .ok (normalizeDynamicFee t) := by
  obtain ⟨h1, h2, h3, h4, hsz⟩ := h
  rw [TransactionDynamicFee.encodeRLP, TransactionDynamicFee.decodeRLP]
  rw [if_neg (by simp)]
  rw [rlpDecode_rlpEncode _ hsz]
  simp only [TransactionDynamicFee.encodeItems]
  simp only [decUint_uintItem _ h1, decUint_uintItem _ h2, decUint_uintItem _ h3,
    decBig_uintItem, decBytes, decAccessList_accessListItem _ h4, bind,
    Except.bind, normalizeDynamicFee]
  have hinp : (if t.cd.input ≠ [] then t.cd.input else []) = t.cd.input := by
    split <;> simp_all
  have hal : (if t.al.accessList ≠ [] then t.al.accessList else []) = t.al.accessList := by
    split <;> simp_all
  rw [hinp, hal]

/-! ## Blob transaction codec (`types/tx_blob.go`)

The KZG commitment-to-versioned-hash computation
(`BlobSidecar.ComputeHash`, an SHA-256 over the commitment) is an external
collaborator and is passed in as an opaque `computeHash` parameter. -/

/-- Whether a hash is the zero hash (`Hash.IsZero`). -/
def isZeroHash (h : Hash256) : Bool := h.all fun b => b == 0

/-- The versioned hash the encoder emits for a blob: the explicit hash,
or — when it is zero and a sidecar is present — the hash computed from
the sidecar's commitment. -/
def blobEffHash (computeHash : BlobSidecar → Hash256) (b : Blob) : Hash256 :=
  match b.sidecar with
  | some sc => if isZeroHash b.hash then computeHash sc else b.hash
  | none => b.hash

/-- The sidecars collected while encoding (one `Add` per blob that carries
one, in blob order). -/
def blobSidecars (t : TransactionBlob) : List BlobSidecar :=
  t.bd.blobs.filterMap Blob.sidecar

/-- The fourteen RLP list items of `TransactionBlob.EncodeRLP`. -/
def TransactionBlob.encodeItems (computeHash : BlobSidecar → Hash256)
    (t : TransactionBlob) : List RItem :=
  let chainID := t.td.chainID.getD 0
  let nonce := t.td.nonce.getD 0
  let maxPriorityFeePerGas := t.df.maxPriorityFeePerGas.getD 0
  let maxFeePerGas := t.df.maxFeePerGas.getD 0
  let gasLimit := t.cd.gasLimit.getD 0
  let toB := toBytes t.cd.toAddr
  let value := t.cd.value.getD 0
  let input := t.cd.input
  let maxFeePerBlobGas := t.bd.maxFeePerBlobGas.getD 0
  let blobHashes := t.bd.blobs.map (blobEffHash computeHash)
  let v := (t.td.signature.map Sig.v).getD 0
  let r := (t.td.signature.map Sig.r).getD 0
  let s := (t.td.signature.map Sig.s).getD 0
  [uintItem chainID, uintItem nonce, uintItem maxPriorityFeePerGas,
    uintItem maxFeePerGas, uintItem gasLimit, .bytes toB, uintItem value,
    .bytes input, accessListItem t.al.accessList, uintItem maxFeePerBlobGas,
    hashListItem blobHashes, uintItem v, uintItem r, uintItem s]

/-- The network-envelope condition of `TransactionBlob.EncodeRLP`:
`len(blobHashes) > 0 && len(blobHashes) == len(blobs)`, where `blobs`
holds one entry per blob that carries a sidecar. -/
def TransactionBlob.useEnvelope (t : TransactionBlob) : Bool :=
  (t.bd.blobs.map Blob.hash).length != 0 &&
    (t.bd.blobs.map Blob.hash).length == (blobSidecars t).length

/-- The outer RLP value of `TransactionBlob.EncodeRLP`: the 14-item
consensus list, or — when every blob has a sidecar — the 4-element network
envelope `[inner-tx-list, blobs, commitments, proofs]`. -/
def TransactionBlob.outerItem (computeHash : BlobSidecar → Hash256)
    (t : TransactionBlob) : RItem :=
  if t.useEnvelope then
    .list [.list (t.encodeItems computeHash),
      .list ((blobSidecars t).map fun sc => .bytes sc.blob),
      .list ((blobSidecars t).map fun sc => .bytes sc.commitment),
      .list ((blobSidecars t).map fun sc => .bytes sc.proof)]
  else .list (t.encodeItems computeHash)

/-- `TransactionBlob.EncodeRLP`: type byte `0x03` plus the outer value. -/
def TransactionBlob.encodeRLP (computeHash : BlobSidecar → Hash256)
    (t : TransactionBlob) : List Nat :=
  3 :: rlpEncode (t.outerItem computeHash)

/-- Rebuild the blob list on decode: one blob per versioned hash, attaching
the `i`-th sidecar when all three sidecar lists still have an `i`-th
element (Go's `i < len(blobs) && i < len(commitments) && i < len(proofs)`). -/
def rebuildBlobs : List Hash256 → List (List Nat) → List (List Nat) →
    List (List Nat) → List Blob
  | [], _, _, _ => []
  | h :: hs, b :: bs, c :: cs, p :: ps =>
    ⟨h, some ⟨b, c, p⟩⟩ :: rebuildBlobs hs bs cs ps
  | h :: hs, _, _, _ => ⟨h, none⟩ :: rebuildBlobs hs [] [] []

/-- Decode a `rlp.TypedList` of fixed-size byte strings (KZG payloads). -/
def decFixedList (n : Nat) : RItem → Except String (List (List Nat))
  | .list items => decFixedListAux n items
  | .bytes _ => .error "expected list"
where
  decFixedListAux (n : Nat) : List RItem → Except String (List (List Nat))
    | [] => .ok []
    | x :: xs => do
      let b ← decFixed n x
      let t ← decFixedListAux n xs
      .ok (b :: t)

/-- The shared field parsing of `TransactionBlob.DecodeRLP`, applied to the
14 inner items together with the (possibly empty) sidecar lists. -/
def TransactionBlob.decodeFields (items : List RItem)
    (blobs commitments proofs : List (List Nat)) :
    Except String TransactionBlob :=
  match items with
  | [ichainID, inonce, iprio, ifee, igasLimit, ito, ivalue, iinput, ial,
      iblobfee, ihashes, iv, ir, is'] => do
    let chainID ← decUint ichainID
    let nonce ← decUint inonce
    let maxPriorityFeePerGas ← decBig iprio
    let maxFeePerGas ← decBig ifee
    let gasLimit ← decUint igasLimit
    let toB ← decBytes ito
    let value ← decBig ivalue
    let input ← decBytes iinput
    let al ← decAccessList ial
    let maxFeePerBlobGas ← decBig iblobfee
    let hashes ← decHashList ihashes
    let v ← decBig iv
    let r ← decBig ir
    let s ← decBig is'
    .ok
      { td :=
          { chainID := if chainID ≠ 0 then some chainID else none
            nonce := if nonce ≠ 0 then some nonce else none
            signature := if v ≠ 0 ∨ r ≠ 0 ∨ s ≠ 0 then some ⟨v, r, s⟩ else none }
        cd :=
          { toAddr := if toB ≠ [] then some toB else none
            value := if value ≠ 0 then some value else none
            input := if input ≠ [] then input else []
            gasLimit := if gasLimit ≠ 0 then some gasLimit else none }
        df :=
          { maxPriorityFeePerGas :=
              if maxPriorityFeePerGas ≠ 0 then some maxPriorityFeePerGas else none
            maxFeePerGas := if maxFeePerGas ≠ 0 then some maxFeePerGas else none }
        al := { accessList := if al ≠ [] then al else [] }
        bd :=
          { maxFeePerBlobGas := if maxFeePerBlobGas ≠ 0 then some maxFeePerBlobGas else none
            blobs := if hashes ≠ [] then rebuildBlobs hashes blobs commitments proofs else [] } }
  | _ => .error "unable to decode transaction"

/-- The outer dispatch of `TransactionBlob.DecodeRLP`: Go decodes the
outer RLP value lazily and switches on its item count — exactly four items
select the network envelope `[inner-tx-list, blobs, commitments, proofs]`,
anything else is decoded as the 14-item consensus list. -/
def TransactionBlob.decodeOuter : RItem → Except String TransactionBlob
  | .bytes _ => .error "unable to decode transaction"
  | .list l =>
    if l.length = 4 then
      match l with
      | [.list inner, iblobs, icommitments, iproofs] => do
        let blobs ← decFixedList 131072 iblobs
        let commitments ← decFixedList 48 icommitments
        let proofs ← decFixedList 48 iproofs
        TransactionBlob.decodeFields inner blobs commitments proofs
      | _ => .error "unable to decode transaction"
    else TransactionBlob.decodeFields l [] [] []

/-- `TransactionBlob.DecodeRLP`: type byte `0x03`, then the outer
dispatch. -/
def TransactionBlob.decodeRLP (data : List Nat) : Except String TransactionBlob :=
  match data with
  | [] => .error "empty data"
  | b :: rest =>
    if b ≠ 3 then .error "invalid transaction type"
    else
      match rlpDecode rest with
      | some (x, _) => TransactionBlob.decodeOuter x
      | none => .error "unable to decode transaction"

/-- Decode-of-encode observably returns this for a blob transaction:
zero fields collapse, `from` is dropped, every blob hash becomes its
effective (possibly computed) versioned hash, and sidecars survive only
when every blob carried one. -/
def normalizeBlob (computeHash : BlobSidecar → Hash256) (t : TransactionBlob) :
    TransactionBlob :=
  let v := (t.td.signature.map Sig.v).getD 0
  let r := (t.td.signature.map Sig.r).getD 0
  let s := (t.td.signature.map Sig.s).getD 0
  { td :=
      { chainID := if t.td.chainID.getD 0 ≠ 0 then some (t.td.chainID.getD 0) else none
        nonce := if t.td.nonce.getD 0 ≠ 0 then some (t.td.nonce.getD 0) else none
        signature := if v ≠ 0 ∨ r ≠ 0 ∨ s ≠ 0 then some ⟨v, r, s⟩ else none }
    cd :=
      { toAddr := if toBytes t.cd.toAddr ≠ [] then some (toBytes t.cd.toAddr) else none
        value := if t.cd.value.getD 0 ≠ 0 then some (t.cd.value.getD 0) else none
        input := t.cd.input
        gasLimit := if t.cd.gasLimit.getD 0 ≠ 0 then some (t.cd.gasLimit.getD 0) else none }
    df :=
      { maxPriorityFeePerGas :=
          if t.df.maxPriorityFeePerGas.getD 0 ≠ 0 then some (t.df.maxPriorityFeePerGas.getD 0)
          else none
        maxFeePerGas :=
          if t.df.maxFeePerGas.getD 0 ≠ 0 then some (t.df.maxFeePerGas.getD 0) else none }
    al := { accessList := t.al.accessList }
    bd :=
      { maxFeePerBlobGas :=
          if t.bd.maxFeePerBlobGas.getD 0 ≠ 0 then some (t.bd.maxFeePerBlobGas.getD 0) else none
        blobs :=
          t.bd.blobs.map fun b =>
            ⟨blobEffHash computeHash b, if t.useEnvelope then b.sidecar else none⟩ } }

/-- Well-formed blob transaction: `uint64` fields in range, 32-byte
hashes (also after `computeHash`), 20/32-byte access list entries,
131072/48/48-byte sidecar payloads, and RLP size bounds for both the
inner list and the envelope. -/
def WFBlob (computeHash : BlobSidecar → Hash256) (t : TransactionBlob) : Prop :=
  t.td.chainID.getD 0 < 2 ^ 64 ∧ t.td.nonce.getD 0 < 2 ^ 64 ∧
    t.cd.gasLimit.getD 0 < 2 ^ 64 ∧ wfAccessList t.al.accessList = true ∧
    ((t.bd.blobs.map (blobEffHash computeHash)).all fun k => k.length == 32) = true ∧
    (t.bd.blobs.all fun b =>
      match b.sidecar with
      | some sc => sc.blob.length == 131072 && sc.commitment.length == 48 &&
          sc.proof.length == 48
      | none => true) = true ∧
    RItem.sized (t.outerItem computeHash)

instance (computeHash : BlobSidecar → Hash256) (t : TransactionBlob) :
    Decidable (WFBlob computeHash t) := by
  unfold WFBlob; infer_instance

theorem decFixedList_map (n : Nat) (bs : List (List Nat))
    (h : (bs.all fun b => b.length == n) = true) :
    decFixedList n (.list (bs.map RItem.bytes)) = .ok bs := by
  rw [decFixedList]
  induction bs with
  | nil => simp [decFixedList.decFixedListAux]
  | cons b bs ih =>
    simp only [List.all_cons, Bool.and_eq_true, beq_iff_eq] at h
    simp only [List.map_cons, decFixedList.decFixedListAux, decFixed,
      if_pos h.1, bind, Except.bind, ih h.2]

/-- When every blob carries a sidecar, rebuilding from the effective hashes
and the collected sidecar payload lists restores blob order, hashes and
sidecars. -/
theorem rebuildBlobs_all_sidecars (computeHash : BlobSidecar → Hash256)
    (blobs : List Blob)
    (h : ∀ b ∈ blobs, b.sidecar ≠ none) :
    rebuildBlobs (blobs.map (blobEffHash computeHash))
      ((blobs.filterMap Blob.sidecar).map BlobSidecar.blob)
      ((blobs.filterMap Blob.sidecar).map BlobSidecar.commitment)
      ((blobs.filterMap Blob.sidecar).map BlobSidecar.proof) =
      blobs.map fun b => ⟨blobEffHash computeHash b, b.sidecar⟩ := by
  induction blobs with
  | nil => simp [rebuildBlobs]
  | cons b bs ih =>
    have hb := h b (by simp)
    match hsc : b.sidecar with
    | none => exact absurd hsc hb
    | some sc =>
      simp only [List.map_cons, List.filterMap_cons, hsc]
      rw [rebuildBlobs]
      rw [ih fun x hx => h x (by simp [hx])]

/-- Without sidecar payloads, rebuilding attaches no sidecars. -/
theorem rebuildBlobs_no_sidecars (hashes : List Hash256) :
    rebuildBlobs hashes [] [] [] = hashes.map fun h => ⟨h, none⟩ := by
  induction hashes with
  | nil => simp [rebuildBlobs]
  | cons h hs ih =>
    rw [show rebuildBlobs (h :: hs) [] [] [] = ⟨h, none⟩ :: rebuildBlobs hs [] [] [] from rfl,
      ih, List.map_cons]

theorem filterMap_sidecar_all_some (bs : List Blob)
    (h : (bs.filterMap Blob.sidecar).length = bs.length) :
    ∀ b ∈ bs, b.sidecar ≠ none := by
  induction bs with
  | nil => simp
  | cons b bs ih =>
    match hsc : b.sidecar with
    | none =>
      exfalso
      rw [List.filterMap_cons, hsc] at h
      have := List.length_filterMap_le Blob.sidecar bs
      simp at h
      omega
    | some sc =>
      intro x hx
      rcases List.mem_cons.mp hx with hx | hx
      · rw [hx, hsc]; simp
      · refine ih ?_ x hx
        rw [List.filterMap_cons, hsc] at h
        simpa using h

theorem blob_decode_encode (computeHash : BlobSidecar → Hash256)
    (t : TransactionBlob) (h : WFBlob computeHash t) :
    TransactionBlob.decodeRLP (t.encodeRLP computeHash) =
      .ok (normalizeBlob computeHash t) := by
  obtain ⟨h1, h2, h3, h4, h5, h6, hsz⟩ := h
  have hside : ∀ sc ∈ blobSidecars t,
      sc.blob.length = 131072 ∧ sc.commitment.length = 48 ∧ sc.proof.length = 48 := by
    intro sc hsc
    obtain ⟨b, hb, hbsc⟩ := List.mem_filterMap.mp hsc
    have := List.all_eq_true.mp h6 b hb
    rw [hbsc] at this
    simp only [Bool.and_eq_true, beq_iff_eq] at this
    exact ⟨this.1.1, this.1.2, this.2⟩
  have hhashes := decHashList_hashListItem (t.bd.blobs.map (blobEffHash computeHash)) h5
  have hinp : (if t.cd.input ≠ [] then t.cd.input else []) = t.cd.input := by
    split <;> simp_all
  have hal : (if t.al.accessList ≠ [] then t.al.accessList else []) = t.al.accessList := by
    split <;> simp_all
  rw [TransactionBlob.encodeRLP, TransactionBlob.decodeRLP]
  rw [if_neg (by simp)]
  rw [rlpDecode_rlpEncode _ hsz]
  rw [TransactionBlob.outerItem] at hsz ⊢
  by_cases henv : t.useEnvelope
  · rw [if_pos henv] at hsz ⊢
    have hall : ∀ b ∈ t.bd.blobs, b.sidecar ≠ none := by
      apply filterMap_sidecar_all_some
      rw [TransactionBlob.useEnvelope, blobSidecars] at henv
      simp only [Bool.and_eq_true, bne_iff_ne, ne_eq, beq_iff_eq,
        List.length_map] at henv
      omega
    have hblen : ((blobSidecars t).map BlobSidecar.blob).all
        (fun b => b.length == 131072) = true := by
      rw [List.all_eq_true]
      intro x hx
      obtain ⟨sc, hsc, rfl⟩ := List.mem_map.mp hx
      simpa using (hside sc hsc).1
    have hclen : ((blobSidecars t).map BlobSidecar.commitment).all
        (fun b => b.length == 48) = true := by
      rw [List.all_eq_true]
      intro x hx
      obtain ⟨sc, hsc, rfl⟩ := List.mem_map.mp hx
      simpa using (hside sc hsc).2.1
    have hplen : ((blobSidecars t).map BlobSidecar.proof).all
        (fun b => b.length == 48) = true := by
      rw [List.all_eq_true]
      intro x hx
      obtain ⟨sc, hsc, rfl⟩ := List.mem_map.mp hx
      simpa using (hside sc hsc).2.2
    have hdecb : decFixedList 131072
        (RItem.list ((blobSidecars t).map fun sc => RItem.bytes sc.blob)) =
        .ok ((blobSidecars t).map BlobSidecar.blob) := by
      simpa [List.map_map, Function.comp] using
        decFixedList_map 131072 ((blobSidecars t).map BlobSidecar.blob) hblen
    have hdecc : decFixedList 48
        (RItem.list ((blobSidecars t).map fun sc => RItem.bytes sc.commitment)) =
        .ok ((blobSidecars t).map BlobSidecar.commitment) := by
      simpa [List.map_map, Function.comp] using
        decFixedList_map 48 ((blobSidecars t).map BlobSidecar.commitment) hclen
    have hdecp : decFixedList 48
        (RItem.list ((blobSidecars t).map fun sc => RItem.bytes sc.proof)) =
        .ok ((blobSidecars t).map BlobSidecar.proof) := by
      simpa [List.map_map, Function.comp] using
        decFixedList_map 48 ((blobSidecars t).map BlobSidecar.proof) hplen
    simp only [TransactionBlob.encodeItems, TransactionBlob.decodeOuter,
      TransactionBlob.decodeFields, List.length_cons, List.length_nil,
      hdecb, hdecc, hdecp, decUint_uintItem _ h1, decUint_uintItem _ h2,
      decUint_uintItem _ h3, decBig_uintItem, decBytes,
      decAccessList_accessListItem _ h4, hhashes, bind, Except.bind,
      normalizeBlob, reduceIte]
    rw [hinp, hal]
    have hne : t.bd.blobs.map (blobEffHash computeHash) ≠ [] := by
      rw [TransactionBlob.useEnvelope] at henv
      simp only [Bool.and_eq_true, bne_iff_ne, ne_eq] at henv
      intro hcontra
      exact henv.1 (by simp_all)
    rw [if_pos hne, blobSidecars, rebuildBlobs_all_sidecars computeHash t.bd.blobs hall]
    simp only [henv, if_pos]
  · rw [if_neg henv] at hsz ⊢
    simp only [TransactionBlob.encodeItems, TransactionBlob.decodeOuter,
      List.length_cons, List.length_nil, Nat.reduceAdd]
    rw [if_neg (by norm_num)]
    simp only [TransactionBlob.decodeFields,
      decUint_uintItem _ h1, decUint_uintItem _ h2, decUint_uintItem _ h3,
      decBig_uintItem, decBytes, decAccessList_accessListItem _ h4, hhashes,
      bind, Except.bind, normalizeBlob]
    rw [hinp, hal]
    have hblobs : (if t.bd.blobs.map (blobEffHash computeHash) ≠ [] then
        rebuildBlobs (t.bd.blobs.map (blobEffHash computeHash)) [] [] [] else []) =
        t.bd.blobs.map fun b => ⟨blobEffHash computeHash b, none⟩ := by
      split
      · rw [rebuildBlobs_no_sidecars, List.map_map]; rfl
      · simp_all
    rw [hblobs]
    simp [henv]

/-! ## The transaction sum type and capability accessors

`types.Transaction` is an interface over the four variants; capability
access (`HasCallData`, `HasLegacyPrice`, `HasAccessListData`,
`HasDynamicFeeData`, `HasBlobData`) is a type assertion, modelled as
`Option`-returning accessors over a sum. -/

inductive Transaction where
  | legacy : TransactionLegacy → Transaction
  | accessList : TransactionAccessList → Transaction
  | dynamicFee : TransactionDynamicFee → Transaction
  | blob : TransactionBlob → Transaction
deriving DecidableEq

inductive TxType where
  | legacy | accessList | dynamicFee | blob
deriving DecidableEq

def Transaction.type : Transaction → TxType
  | .legacy _ => .legacy
  | .accessList _ => .accessList
  | .dynamicFee _ => .dynamicFee
  | .blob _ => .blob

def Transaction.callData : Transaction → EmbedCallData
  | .legacy t => t.cd
  | .accessList t => t.cd
  | .dynamicFee t => t.cd
  | .blob t => t.cd

def Transaction.transactionData : Transaction → EmbedTransactionData
  | .legacy t => t.td
  | .accessList t => t.td
  | .dynamicFee t => t.td
  | .blob t => t.td

/-- `getLegacyPriceData` (`rpc/hijack_util.go`): `none` when the variant
does not carry the legacy price fragment. -/
def Transaction.legacyPriceData? : Transaction → Option EmbedLegacyPriceData
  | .legacy t => some t.lp
  | .accessList t => some t.lp
  | .dynamicFee _ => none
  | .blob _ => none

/-- `getAccessListData`. -/
def Transaction.accessListData? : Transaction → Option EmbedAccessListData
  | .legacy _ => none
  | .accessList t => some t.al
  | .dynamicFee t => some t.al
  | .blob t => some t.al

/-- `getDynamicFeeData`. -/
def Transaction.dynamicFeeData? : Transaction → Option EmbedDynamicFeeData
  | .legacy _ => none
  | .accessList _ => none
  | .dynamicFee t => some t.df
  | .blob t => some t.df

def Transaction.blobData? : Transaction → Option EmbedBlobData
  | .legacy _ => none
  | .accessList _ => none
  | .dynamicFee _ => none
  | .blob t => some t.bd

def Transaction.setFrom (a : Address) : Transaction → Transaction
  | .legacy t => .legacy { t with cd := { t.cd with fromAddr := some a } }
  | .accessList t => .accessList { t with cd := { t.cd with fromAddr := some a } }
  | .dynamicFee t => .dynamicFee { t with cd := { t.cd with fromAddr := some a } }
  | .blob t => .blob { t with cd := { t.cd with fromAddr := some a } }

/-- In-place write through the `HasDynamicFeeData` pointer (a no-op for
variants without the fragment, which can never reach the write). -/
def Transaction.setDynamicFeeData (d : EmbedDynamicFeeData) : Transaction → Transaction
  | .dynamicFee t => .dynamicFee { t with df := d }
  | .blob t => .blob { t with bd := t.bd, df := d }
  | t => t

/-! ## Call projections (`Transaction.Call`), value level

The per-variant `Call()` methods project the call-relevant fragments into
a `Call` value (`CallLegacy`, `CallAccessList`, `CallDynamicFee`,
`CallBlob`).  At the value level the `Copy()` calls are identities; the
aliasing content of `Copy` is handled separately in the heap model. -/

inductive CallV where
  | legacy : EmbedCallData → EmbedLegacyPriceData → CallV
  | accessList : EmbedCallData → EmbedLegacyPriceData → EmbedAccessListData → CallV
  | dynamicFee : EmbedCallData → EmbedAccessListData → EmbedDynamicFeeData → CallV
  | blob : EmbedCallData → EmbedAccessListData → EmbedDynamicFeeData → EmbedBlobData → CallV
deriving DecidableEq

/-- `Transaction.Call`; the interface method may return nil for foreign
transaction types, hence the `Option` (never `none` on the four
variants). -/
def Transaction.call : Transaction → Option CallV
  | .legacy t => some (.legacy t.cd t.lp)
  | .accessList t => some (.accessList t.cd t.lp t.al)
  | .dynamicFee t => some (.dynamicFee t.cd t.al t.df)
  | .blob t => some (.blob t.cd t.al t.df t.bd)

def CallV.callData : CallV → EmbedCallData
  | .legacy cd _ => cd
  | .accessList cd _ _ => cd
  | .dynamicFee cd _ _ => cd
  | .blob cd _ _ _ => cd

def CallV.setFrom (a : Address) : CallV → CallV
  | .legacy cd lp => .legacy { cd with fromAddr := some a } lp
  | .accessList cd lp al => .accessList { cd with fromAddr := some a } lp al
  | .dynamicFee cd al df => .dynamicFee { cd with fromAddr := some a } al df
  | .blob cd al df bd => .blob { cd with fromAddr := some a } al df bd

/-! ## Transaction type upgrade (`rpc/hijack_util.go`) -/

/-- `convertTX`: build a fresh variant of the requested type and copy in
every fragment the source transaction exposes that the target carries. -/
def convertTX (tx : Transaction) : TxType → Transaction
  | .legacy =>
    .legacy
      { td := tx.transactionData
        cd := tx.callData
        lp := tx.legacyPriceData?.getD {} }
  | .accessList =>
    .accessList
      { td := tx.transactionData
        cd := tx.callData
        lp := tx.legacyPriceData?.getD {}
        al := tx.accessListData?.getD {} }
  | .dynamicFee =>
    .dynamicFee
      { td := tx.transactionData
        cd := tx.callData
        al := tx.accessListData?.getD {}
        df := tx.dynamicFeeData?.getD {} }
  | .blob =>
    .blob
      { td := tx.transactionData
        cd := tx.callData
        al := tx.accessListData?.getD {}
        df := tx.dynamicFeeData?.getD {}
        bd := tx.blobData?.getD {} }

/-- `convertTXToLegacyPrice`: a no-op when the transaction already has the
legacy price fragment; otherwise convert to Legacy, or to AccessList when
the source carries an access list. -/
def convertTXToLegacyPrice (tx : Transaction) : Transaction :=
  if tx.legacyPriceData? ≠ none then tx
  else
    let typ := if tx.accessListData? ≠ none then TxType.accessList else TxType.legacy
    convertTX tx typ

/-- `convertTXToDynamicFee`: a no-op when the transaction already has the
dynamic fee fragment; otherwise convert to DynamicFee. -/
def convertTXToDynamicFee (tx : Transaction) : Transaction :=
  if tx.dynamicFeeData? ≠ none then tx
  else convertTX tx .dynamicFee

/-- The fragment kinds of the variant → fragment matrix. -/
inductive Fragment where
  | callData | transactionData | legacyPrice | accessList | dynamicFee | blobData
deriving DecidableEq

inductive FragVal where
  | callData : EmbedCallData → FragVal
  | transactionData : EmbedTransactionData → FragVal
  | legacyPrice : EmbedLegacyPriceData → FragVal
  | accessList : EmbedAccessListData → FragVal
  | dynamicFee : EmbedDynamicFeeData → FragVal
  | blobData : EmbedBlobData → FragVal
deriving DecidableEq

/-- The fragment of the given kind carried by a transaction, `none` when
the variant does not support that kind. -/
def Transaction.frag? (tx : Transaction) : Fragment → Option FragVal
  | .callData => some (.callData tx.callData)
  | .transactionData => some (.transactionData tx.transactionData)
  | .legacyPrice => tx.legacyPriceData?.map .legacyPrice
  | .accessList => tx.accessListData?.map .accessList
  | .dynamicFee => tx.dynamicFeeData?.map .dynamicFee
  | .blobData => tx.blobData?.map .blobData

/-! ## Hijackers

JSON-RPC methods relevant to the pipeline, and the single positional
argument the built-in hijackers inspect (`args[0]`). -/

inductive Method where
  | sendTransaction | sendRawTransaction | sendPrivateTransaction
  | ethCall | estimateGas | chainId | gasPrice | maxPriorityFeePerGas
  | getTransactionCount | accounts | ethSign | signTransaction | other
deriving DecidableEq

inductive Arg where
  | tx : Transaction → Arg
  | call : CallV → Arg
  | raw : List Nat → Arg
deriving DecidableEq

/-- Outcome of one hijacker body: either the call proceeds to the next
stage with the (possibly mutated) argument, or the hijacker fails with a
stage-named error without invoking the next stage.  The body takes no
transport: a `.next` outcome whose argument equals the input certifies
both "field untouched" and "no network call issued". -/
inductive HijackResult (α : Type) where
  | next : α → HijackResult α
  | fail : String → HijackResult α
deriving DecidableEq

/-! ### Address hijacker (`hijackAddress.Call`, `src/unnamed/part_001`)

Mirrors the source condition verbatim:
`if cd == nil || (h.replace && cd.From != nil) { return next(...) }`,
then `cd.From = &h.address`. -/

structure AddressCfg where
  address : Address
  replace : Bool

def hijackAddressCall (h : AddressCfg) (method : Method) (arg : Option Arg) :
    HijackResult (Option Arg) :=
  match arg with
  | none => .next none
  | some a =>
    match method with
    | .sendTransaction =>
      match a with
      | .tx tx =>
        -- every variant implements HasCallData, so cd is never nil here
        if h.replace ∧ tx.callData.fromAddr ≠ none then .next (some a)
        else .next (some (.tx (tx.setFrom h.address)))
      | _ => .fail "address: invalid transaction type"
    | .ethCall | .estimateGas =>
      match a with
      | .call c =>
        if h.replace ∧ c.callData.fromAddr ≠ none then .next (some a)
        else .next (some (.call (c.setFrom h.address)))
      | _ => .fail "address: invalid call type"
    | _ => .next (some a)

/-! ### Simulate hijacker (`rpc/hijack_simulate.go`)

The decoder, the signature recoverer and the node's `eth_call` (performed
at the latest block against the underlying transport, bypassing the rest
of the chain) are external dependencies passed in as functions. -/

structure SimDeps where
  decodeTx : List Nat → Except String Transaction
  recoverTx : Transaction → Except String Address
  ethCall : CallV → Except String (List Nat)

structure HijackErr where
  name : String
  err : String
deriving DecidableEq

/-- `hijackSimulate.simulate`: recover the sender when a signature is
present but `from` is not, project the transaction to a `Call`, and
execute it (`MethodsCommon.Call` at the latest block, abstracted as
`SimDeps.ethCall`).  Go writes the recovered sender in place through the
`HasCallData` pointer (`txc.CallData().From = from`), so the caller's
transaction carries it afterwards; the pure embedding returns the
sender-completed transaction explicitly. -/
def simulateTx (d : SimDeps) (tx : Transaction) : Except String Transaction :=
  let afterRecover : Except String Transaction :=
    if tx.transactionData.signature ≠ none ∧ tx.callData.fromAddr = none then
      match d.recoverTx tx with
      | .error e => .error ("unable to recover transaction sender: " ++ e)
      | .ok a => .ok (tx.setFrom a)
    else .ok tx
  match afterRecover with
  | .error e => .error e
  | .ok tx' =>
    match tx'.call with
    | none => .error "unable to create call data from transaction"
    | some c =>
      match d.ethCall c with
      | .error e => .error e
      | .ok _ => .ok tx'

/-- `hijackSimulate.Call`: intercept the three send-shaped methods,
simulate first, and only on success forward to `next`; every failure is
returned wrapped with the stage name `simulate` without invoking `next`.
Go forwards the original `args` — for `eth_sendTransaction` the argument
object was updated in place by `simulate`, which the embedding renders by
forwarding the returned transaction; for the raw methods the original
bytes are forwarded and the decoded transaction is discarded. -/
def hijackSimulateCall {α : Type} (d : SimDeps)
    (next : Method → Option Arg → Except HijackErr α)
    (method : Method) (arg : Option Arg) : Except HijackErr α :=
  match method with
  | .sendTransaction =>
    match arg with
    | none => .error ⟨"simulate", "missing transaction data"⟩
    | some (.tx tx) =>
      match simulateTx d tx with
      | .error e => .error ⟨"simulate", e⟩
      | .ok tx' => next method (some (.tx tx'))
    | some _ => .error ⟨"simulate", "invalid transaction type"⟩
  | .sendRawTransaction | .sendPrivateTransaction =>
    match arg with
    | none => .error ⟨"simulate", "missing transaction data"⟩
    | some (.raw bs) =>
      match d.decodeTx bs with
      | .error e => .error ⟨"simulate", "failed to decode transaction: " ++ e⟩
      | .ok tx =>
        match simulateTx d tx with
        | .error e => .error ⟨"simulate", e⟩
        | .ok _ => next method arg
    | some _ => .error ⟨"simulate", "invalid transaction data type"⟩
  | _ => next method arg

/-! ### Dynamic gas fee hijacker (`rpc/hijack_gasfee.go`)

The two `big.Float` multiplier applications
(`new(big.Float).Mul(·, big.NewFloat(m)).Int(nil)`) are floating-point
computations treated as opaque integer-valued functions `mulFee` /
`mulPrio`; everything after them is exact `big.Int` comparison. -/

structure DynFeeCfg where
  minGasPrice : Option Nat
  maxGasPrice : Option Nat
  minPriorityFeePerGas : Option Nat
  maxPriorityFeePerGas : Option Nat
  replace : Bool
  allowChangeType : Bool

/-- Node answers for `eth_gasPrice` and `eth_maxPriorityFeePerGas`
(hex quantities, hence non-negative, as everywhere in this model). -/
structure FeeNode where
  gasPrice : Except String Nat
  maxPriorityFeePerGas : Except String Nat

/-- The clamp-and-cap block of `hijackDynamicGasFee.Call`, applied to the
multiplied fee and priority fee. -/
def clampDynFees (h : DynFeeCfg) (fee0 prio0 : Nat) : Nat × Nat :=
  let fee1 := match h.minGasPrice with
    | some m => if fee0 < m then m else fee0
    | none => fee0
  let fee2 := match h.maxGasPrice with
    | some m => if fee1 > m then m else fee1
    | none => fee1
  let prio1 := match h.minPriorityFeePerGas with
    | some m => if prio0 < m then m else prio0
    | none => prio0
  let prio2 := match h.maxPriorityFeePerGas with
    | some m => if prio1 > m then m else prio1
    | none => prio1
  let prio3 := if fee2 < prio2 then fee2 else prio2
  (fee2, prio3)

def hijackDynamicGasFeeCall (h : DynFeeCfg) (mulFee mulPrio : Nat → Nat)
    (node : FeeNode) (method : Method) (arg : Option Arg) :
    HijackResult (Option Arg) :=
  match arg with
  | none => .next none
  | some a =>
    if method ≠ .sendTransaction then .next (some a)
    else
      match a with
      | .tx tx0 =>
        let tx := if h.allowChangeType then convertTXToDynamicFee tx0 else tx0
        match tx.dynamicFeeData? with
        | none => .next (some (.tx tx))
        | some dfd =>
          if ¬h.replace ∧ dfd.maxFeePerGas ≠ none ∧ dfd.maxPriorityFeePerGas ≠ none then
            .next (some (.tx tx))
          else
            match node.gasPrice with
            | .error e => .fail ("dynamic gas fee: failed to get gas price: " ++ e)
            | .ok gp =>
              match node.maxPriorityFeePerGas with
              | .error e =>
                .fail ("dynamic gas fee: failed to get priority fee per gas: " ++ e)
              | .ok pf =>
                let fees := clampDynFees h (mulFee gp) (mulPrio pf)
                .next (some (.tx (tx.setDynamicFeeData ⟨some fees.1, some fees.2⟩)))
      | _ => .fail "dynamic gas fee: invalid transaction type"

/-! ## The hijack pipeline (`Hijack.Use`, `applyOptions`)

`Hijack.Use` folds each hijacker's `Call()` wrapper around the current
chain (`h.callFunc = call(h.callFunc)`), so the last hijacker added runs
first.  `applyOptions` (`src/unnamed/part_002`) sorts the client options
ascending by their fixed `order` constant and applies them in that order,
each adding its hijacker via `Use`.  Every built-in hijacker's wrapper
performs its own work and then invokes `next` exactly once on its
non-error path, so a chain is faithfully abstracted by its execution
trace: the list of stages that run, in order, ending at the transport;
wrapping prepends the hijacker's stage. -/

inductive Stage where
  | address | chainID | nonce | legacyGasFee | dynamicGasFee | gasLimit
  | sign | simulate | transport
deriving DecidableEq

/-- The hijacker-registering client options with their fixed `order`
constants from `src/unnamed/part_002`. -/
inductive BuiltinOpt where
  | withKeys | withSimulate | withNonce | withLegacyGasFee
  | withDynamicGasFee | withGasLimit | withDefaultAddress | withChainID
deriving DecidableEq

def BuiltinOpt.order : BuiltinOpt → Nat
  | .withKeys => 200
  | .withSimulate => 300
  | .withNonce => 400
  | .withLegacyGasFee => 500
  | .withDynamicGasFee => 600
  | .withGasLimit => 700
  | .withDefaultAddress => 800
  | .withChainID => 900

def BuiltinOpt.stage : BuiltinOpt → Stage
  | .withKeys => .sign
  | .withSimulate => .simulate
  | .withNonce => .nonce
  | .withLegacyGasFee => .legacyGasFee
  | .withDynamicGasFee => .dynamicGasFee
  | .withGasLimit => .gasLimit
  | .withDefaultAddress => .address
  | .withChainID => .chainID

/-- One `Hijack.Use` step: `h.callFunc = call(h.callFunc)` — the new
wrapper runs before the existing chain. -/
def hijackUseOne (callFunc : List Stage) (o : BuiltinOpt) : List Stage :=
  o.stage :: callFunc

/-- `applyOptions` then `NewClient`: sort the options ascending by
`Order()` (the orders of the built-in options are pairwise distinct, so
any correct sort — Go uses `sort.Slice` — yields the same list) and apply
each in turn to the transport chain, which starts at the plain transport
(`defCall`). -/
def applyOptions (opts : List BuiltinOpt) : List Stage :=
  (opts.insertionSort fun a b => a.order ≤ b.order).foldl hijackUseOne [Stage.transport]

/-! ## Heap model for `Call()` copying (claim about aliasing)

Go's fragments hold pointers (`*Address`, `*uint64`, `*big.Int`), slices
(`[]byte`, `AccessList`, `[]Blob`) and nested slices (`StorageKeys`,
sidecar pointers).  To state "mutating the returned `Call` never mutates
the source transaction" we model the pointed-to values as cells of an
explicit store; a pointer is a cell index.  `Copy` allocates fresh cells
holding equal values: `copyPtr`, `copyBytes`, `copyBigInt` are in
`types/util.go`, the fragment `Copy` methods in `src/unnamed/part_012`,
the per-variant call `Copy` delegation in `types/call_blob.go`, and
`AccessList.Copy` / `AccessTuple.Copy` in `types/tx_test.go` (lines
60/99); only `EmbedBlobData.Copy`, whose fragment source is absent from
`src/`, is modelled from the spec. -/

namespace HeapModel

abbrev Ref := Nat

/-- Heap cell contents: one constructor per pointed-to Go value. -/
inductive HVal where
  | addr : Address → HVal
  | num : Nat → HVal
  | big : Nat → HVal
  | bytes : List Nat → HVal
  | sig : Sig → HVal
  | hashes : List Hash256 → HVal
  | alist : List (Address × Ref) → HVal
  | blobs : List (Hash256 × Option Ref) → HVal
  | sidecar : BlobSidecar → HVal
deriving DecidableEq

abbrev Store := List HVal

def readCell (st : Store) (r : Ref) : HVal := st.getD r (.num 0)

def alloc (st : Store) (v : HVal) : Store × Ref := (st ++ [v], st.length)

/-- `copyPtr` / `copyBytes` / `copyBigInt` (`types/util.go`): a nil
pointer stays nil; otherwise allocate a fresh cell holding the same
value. -/
def copyCell (st : Store) : Option Ref → Store × Option Ref
  | none => (st, none)
  | some r => ((alloc st (readCell st r)).1, some (alloc st (readCell st r)).2)

/-- Heap-level `EmbedCallData`: `From`, `To`, `GasLimit`, `Value` are
pointers, `Input` a byte slice (`none` = nil slice). -/
structure HCallData where
  fromR : Option Ref := none
  toR : Option Ref := none
  gasLimitR : Option Ref := none
  valueR : Option Ref := none
  inputR : Option Ref := none
deriving DecidableEq

structure HTxData where
  chainIDR : Option Ref := none
  nonceR : Option Ref := none
  sigR : Option Ref := none
deriving DecidableEq

structure HLegacyPrice where
  gasPriceR : Option Ref := none
deriving DecidableEq

structure HAccessListData where
  alR : Option Ref := none
deriving DecidableEq

structure HDynamicFee where
  maxFeeR : Option Ref := none
  maxPrioR : Option Ref := none
deriving DecidableEq

structure HBlobData where
  maxFeePerBlobGasR : Option Ref := none
  blobsR : Option Ref := none
deriving DecidableEq

/-- `EmbedCallData.Copy`. -/
def copyCallData (st : Store) (cd : HCallData) : Store × HCallData :=
  let a := copyCell st cd.fromR
  let b := copyCell a.1 cd.toR
  let c := copyCell b.1 cd.gasLimitR
  let d := copyCell c.1 cd.valueR
  let e := copyCell d.1 cd.inputR
  (e.1, { fromR := a.2, toR := b.2, gasLimitR := c.2, valueR := d.2, inputR := e.2 })

/-- `EmbedLegacyPriceData.Copy`. -/
def copyLegacyPrice (st : Store) (lp : HLegacyPrice) : Store × HLegacyPrice :=
  ((copyCell st lp.gasPriceR).1, { gasPriceR := (copyCell st lp.gasPriceR).2 })

/-- `EmbedDynamicFeeData.Copy`. -/
def copyDynamicFee (st : Store) (df : HDynamicFee) : Store × HDynamicFee :=
  let a := copyCell st df.maxFeeR
  let b := copyCell a.1 df.maxPrioR
  (b.1, { maxFeeR := a.2, maxPrioR := b.2 })

/-- `AccessList.Copy` / `AccessTuple.Copy` (`types/tx_test.go`, lines
60/99) — a deep copy: each tuple keeps its address and gets a fresh
`StorageKeys` slice with equal contents (the fresh outer slice is the
`alist` cell allocated by `copyAccessListData` below). -/
def copyTuples (st : Store) : List (Address × Ref) → Store × List (Address × Ref)
  | [] => (st, [])
  | (a, kr) :: rest =>
    let s1 := (alloc st (readCell st kr)).1
    let kr' := (alloc st (readCell st kr)).2
    let rec' := copyTuples s1 rest
    (rec'.1, (a, kr') :: rec'.2)

/-- `EmbedAccessListData.Copy` (`src/unnamed/part_012`, via
`AccessList.Copy`, `types/tx_test.go`). -/
def copyAccessListData (st : Store) (al : HAccessListData) : Store × HAccessListData :=
  match al.alR with
  | none => (st, { alR := none })
  | some r =>
    match readCell st r with
    | .alist tuples =>
      let a := copyTuples st tuples
      let b := alloc a.1 (.alist a.2)
      (b.1, { alR := some b.2 })
    | v => ((alloc st v).1, { alR := some (alloc st v).2 })

/-- Modelled from the spec: the deep copy of the blob list inside
`EmbedBlobData.Copy` (the fragment source is absent from `src/`; its
`Copy` is invoked by `CallBlob.Copy`, `types/call_blob.go`) — a fresh
slice whose entries carry fresh sidecar cells with equal contents. -/
def copyBlobEntries (st : Store) : List (Hash256 × Option Ref) →
    Store × List (Hash256 × Option Ref)
  | [] => (st, [])
  | (h, scr) :: rest =>
    let a := copyCell st scr
    let rec' := copyBlobEntries a.1 rest
    (rec'.1, (h, a.2) :: rec'.2)

/-- Modelled from the spec: `EmbedBlobData.Copy` (the fragment source is
absent from `src/`; invoked by `CallBlob.Copy`, `types/call_blob.go`). -/
def copyBlobData (st : Store) (bd : HBlobData) : Store × HBlobData :=
  let a := copyCell st bd.maxFeePerBlobGasR
  match bd.blobsR with
  | none => (a.1, { maxFeePerBlobGasR := a.2, blobsR := none })
  | some r =>
    match readCell a.1 r with
    | .blobs entries =>
      let b := copyBlobEntries a.1 entries
      let c := alloc b.1 (.blobs b.2)
      (c.1, { maxFeePerBlobGasR := a.2, blobsR := some c.2 })
    | v =>
      ((alloc a.1 v).1, { maxFeePerBlobGasR := a.2, blobsR := some (alloc a.1 v).2 })

/-- Heap-level transactions (the per-variant embedded fragments). -/
inductive HTx where
  | legacy : HCallData → HTxData → HLegacyPrice → HTx
  | accessList : HCallData → HTxData → HLegacyPrice → HAccessListData → HTx
  | dynamicFee : HCallData → HTxData → HAccessListData → HDynamicFee → HTx
  | blob : HCallData → HTxData → HAccessListData → HDynamicFee → HBlobData → HTx
deriving DecidableEq

/-- Heap-level calls, as produced by the per-variant `Call()` — the
fragment sets of `CallLegacy`, `CallAccessList`, `CallDynamicFee` and
`CallBlob` (`types/call_blob.go`, `types/tx_dynamicfee.go`). -/
inductive HCall where
  | legacy : HCallData → HLegacyPrice → HCall
  | accessList : HCallData → HLegacyPrice → HAccessListData → HCall
  | dynamicFee : HCallData → HAccessListData → HDynamicFee → HCall
  | blob : HCallData → HAccessListData → HDynamicFee → HBlobData → HCall
deriving DecidableEq

/-- The per-variant `Call()` methods (`types/tx_legacy.go:27`,
`types/tx_accesslist.go:28`, `types/tx_dynamicfee.go:28`,
`types/tx_blob.go:30`): copy each projected fragment, in source order,
into the new call value (`CallLegacy`, `CallAccessList`,
`CallDynamicFee`, `CallBlob` — `types/call_blob.go` and
`types/tx_dynamicfee.go`). -/
def txCall (st : Store) : HTx → Store × HCall
  | .legacy cd _ lp =>
    let a := copyCallData st cd
    let b := copyLegacyPrice a.1 lp
    (b.1, .legacy a.2 b.2)
  | .accessList cd _ lp al =>
    let a := copyCallData st cd
    let b := copyLegacyPrice a.1 lp
    let c := copyAccessListData b.1 al
    (c.1, .accessList a.2 b.2 c.2)
  | .dynamicFee cd _ al df =>
    let a := copyCallData st cd
    let b := copyAccessListData a.1 al
    let c := copyDynamicFee b.1 df
    (c.1, .dynamicFee a.2 b.2 c.2)
  | .blob cd _ al df bd =>
    let a := copyCallData st cd
    let b := copyAccessListData a.1 al
    let c := copyDynamicFee b.1 df
    let d := copyBlobData c.1 bd
    (d.1, .blob a.2 b.2 c.2 d.2)

end HeapModel

namespace HeapModel

/-! ### Snapshots: dereference a heap transaction/call into the pure model -/

def readOpt (st : Store) (r? : Option Ref) : Option HVal := r?.map (readCell st)

def asAddr : Option HVal → Option Address
  | some (.addr a) => some a
  | _ => none

def asNum : Option HVal → Option Nat
  | some (.num n) => some n
  | _ => none

def asBig : Option HVal → Option Nat
  | some (.big n) => some n
  | _ => none

def asBytes : Option HVal → List Nat
  | some (.bytes bs) => bs
  | _ => []

def asSig : Option HVal → Option Sig
  | some (.sig s) => some s
  | _ => none

def asHashes : Option HVal → List Hash256
  | some (.hashes hs) => hs
  | _ => []

def asSidecar : Option HVal → Option BlobSidecar
  | some (.sidecar sc) => some sc
  | _ => none

def snapCallData (st : Store) (cd : HCallData) : EmbedCallData :=
  { fromAddr := asAddr (readOpt st cd.fromR)
    toAddr := asAddr (readOpt st cd.toR)
    gasLimit := asNum (readOpt st cd.gasLimitR)
    value := asBig (readOpt st cd.valueR)
    input := asBytes (readOpt st cd.inputR) }

def snapTxData (st : Store) (td : HTxData) : EmbedTransactionData :=
  { chainID := asNum (readOpt st td.chainIDR)
    nonce := asNum (readOpt st td.nonceR)
    signature := asSig (readOpt st td.sigR) }

def snapLegacyPrice (st : Store) (lp : HLegacyPrice) : EmbedLegacyPriceData :=
  { gasPrice := asBig (readOpt st lp.gasPriceR) }

def snapDynamicFee (st : Store) (df : HDynamicFee) : EmbedDynamicFeeData :=
  { maxFeePerGas := asBig (readOpt st df.maxFeeR)
    maxPriorityFeePerGas := asBig (readOpt st df.maxPrioR) }

def snapTuples (st : Store) (ts : List (Address × Ref)) : List AccessTuple :=
  ts.map fun p => ⟨p.1, asHashes (readOpt st (some p.2))⟩

def snapAccessListData (st : Store) (al : HAccessListData) : EmbedAccessListData :=
  match readOpt st al.alR with
  | some (.alist ts) => ⟨snapTuples st ts⟩
  | _ => ⟨[]⟩

def snapBlobEntries (st : Store) (es : List (Hash256 × Option Ref)) : List Blob :=
  es.map fun p => ⟨p.1, asSidecar (readOpt st p.2)⟩

def snapBlobData (st : Store) (bd : HBlobData) : EmbedBlobData :=
  { maxFeePerBlobGas := asBig (readOpt st bd.maxFeePerBlobGasR)
    blobs :=
      match readOpt st bd.blobsR with
      | some (.blobs es) => snapBlobEntries st es
      | _ => [] }

def snapTx (st : Store) : HTx → Transaction
  | .legacy cd td lp => .legacy ⟨snapCallData st cd, snapTxData st td, snapLegacyPrice st lp⟩
  | .accessList cd td lp al =>
    .accessList ⟨snapCallData st cd, snapTxData st td, snapLegacyPrice st lp,
      snapAccessListData st al⟩
  | .dynamicFee cd td al df =>
    .dynamicFee ⟨snapCallData st cd, snapTxData st td, snapAccessListData st al,
      snapDynamicFee st df⟩
  | .blob cd td al df bd =>
    .blob ⟨snapCallData st cd, snapTxData st td, snapAccessListData st al,
      snapDynamicFee st df, snapBlobData st bd⟩

def snapCall (st : Store) : HCall → CallV
  | .legacy cd lp => .legacy (snapCallData st cd) (snapLegacyPrice st lp)
  | .accessList cd lp al =>
    .accessList (snapCallData st cd) (snapLegacyPrice st lp) (snapAccessListData st al)
  | .dynamicFee cd al df =>
    .dynamicFee (snapCallData st cd) (snapAccessListData st al) (snapDynamicFee st df)
  | .blob cd al df bd =>
    .blob (snapCallData st cd) (snapAccessListData st al) (snapDynamicFee st df)
      (snapBlobData st bd)

/-! ### Reference sets -/

def HCallData.refs (cd : HCallData) : List Ref :=
  cd.fromR.toList ++ cd.toR.toList ++ cd.gasLimitR.toList ++ cd.valueR.toList ++
    cd.inputR.toList

def HTxData.refs (td : HTxData) : List Ref :=
  td.chainIDR.toList ++ td.nonceR.toList ++ td.sigR.toList

def HLegacyPrice.refs (lp : HLegacyPrice) : List Ref := lp.gasPriceR.toList

def HDynamicFee.refs (df : HDynamicFee) : List Ref :=
  df.maxFeeR.toList ++ df.maxPrioR.toList

/-- Refs of the access list fragment: the outer slice cell and, through
it, every `StorageKeys` slice cell. -/
def alRefs (st : Store) (al : HAccessListData) : List Ref :=
  al.alR.toList ++
    (match readOpt st al.alR with
     | some (.alist ts) => ts.map Prod.snd
     | _ => [])

/-- Refs of the blob fragment: the fee cell, the blob slice cell and,
through it, every sidecar cell. -/
def bdRefs (st : Store) (bd : HBlobData) : List Ref :=
  bd.maxFeePerBlobGasR.toList ++ bd.blobsR.toList ++
    (match readOpt st bd.blobsR with
     | some (.blobs es) => es.filterMap Prod.snd
     | _ => [])

def txRefs (st : Store) : HTx → List Ref
  | .legacy cd td lp => cd.refs ++ td.refs ++ lp.refs
  | .accessList cd td lp al => cd.refs ++ td.refs ++ lp.refs ++ alRefs st al
  | .dynamicFee cd td al df => cd.refs ++ td.refs ++ alRefs st al ++ df.refs
  | .blob cd td al df bd => cd.refs ++ td.refs ++ alRefs st al ++ df.refs ++ bdRefs st bd

def callRefs (st : Store) : HCall → List Ref
  | .legacy cd lp => cd.refs ++ lp.refs
  | .accessList cd lp al => cd.refs ++ lp.refs ++ alRefs st al
  | .dynamicFee cd al df => cd.refs ++ alRefs st al ++ df.refs
  | .blob cd al df bd => cd.refs ++ alRefs st al ++ df.refs ++ bdRefs st bd

/-- Well-formed heap transaction: every reachable reference points into
the store. -/
def WFTx (st : Store) (tx : HTx) : Prop := ∀ r ∈ txRefs st tx, r < st.length

end HeapModel

namespace HeapModel

/-! ### Store lemmas -/

theorem readCell_append (st Δ : Store) (r : Ref) (h : r < st.length) :
    readCell (st ++ Δ) r = readCell st r := by
  simp [readCell, List.getD, List.getElem?_append_left h]

theorem readCell_alloc (st : Store) (v : HVal) :
    readCell (st ++ [v]) st.length = v := by
  simp [readCell, List.getD, List.getElem?_append_right (le_refl st.length)]

theorem readCell_set_ne (st : Store) (j : Ref) (v : HVal) (r : Ref) (h : r ≠ j) :
    readCell (st.set j v) r = readCell st r := by
  simp [readCell, List.getD, List.getElem?_set_ne (fun hc => h hc.symm)]

theorem readOpt_append (st Δ : Store) (r? : Option Ref)
    (h : ∀ r ∈ r?.toList, r < st.length) :
    readOpt (st ++ Δ) r? = readOpt st r? := by
  cases r? with
  | none => rfl
  | some r => simp [readOpt, readCell_append st Δ r (h r (by simp))]

theorem readOpt_set_ne (st : Store) (j : Ref) (v : HVal) (r? : Option Ref)
    (h : ∀ r ∈ r?.toList, r ≠ j) :
    readOpt (st.set j v) r? = readOpt st r? := by
  cases r? with
  | none => rfl
  | some r => simp [readOpt, readCell_set_ne st j v r (h r (by simp))]

theorem length_set (st : Store) (j : Ref) (v : HVal) :
    (st.set j v).length = st.length := by simp

/-! ### Copy specifications -/

theorem copyCell_spec (st : Store) (r? : Option Ref) :
    ∃ Δ, (copyCell st r?).1 = st ++ Δ ∧
      (∀ r' ∈ (copyCell st r?).2.toList,
        st.length ≤ r' ∧ r' < (copyCell st r?).1.length) ∧
      readOpt (copyCell st r?).1 (copyCell st r?).2 = readOpt st r? := by
  cases r? with
  | none => exact ⟨[], by simp [copyCell], by simp [copyCell], by simp [copyCell]⟩
  | some r =>
    have h1 : (copyCell st (some r)).1 = st ++ [readCell st r] := rfl
    have h2 : (copyCell st (some r)).2 = some st.length := rfl
    refine ⟨[readCell st r], h1, ?_, ?_⟩
    · intro r' hr'
      rw [h2] at hr'
      simp at hr'
      subst hr'
      rw [h1]
      simp
    · rw [h1, h2]
      simp [readOpt, readCell_alloc]

end HeapModel

namespace HeapModel

/-! ### Extension order and snapshot congruence -/

/-- `s'` extends `s`: stores only grow by allocation. -/
def Ext (s s' : Store) : Prop := ∃ Δ, s' = s ++ Δ

theorem Ext.refl (s : Store) : Ext s s := ⟨[], by simp⟩

theorem Ext.trans {s0 s1 s2 : Store} (h1 : Ext s0 s1) (h2 : Ext s1 s2) :
    Ext s0 s2 := by
  obtain ⟨Δ1, rfl⟩ := h1
  obtain ⟨Δ2, rfl⟩ := h2
  exact ⟨Δ1 ++ Δ2, by simp⟩

theorem Ext.len {s s' : Store} (h : Ext s s') : s.length ≤ s'.length := by
  obtain ⟨Δ, rfl⟩ := h; simp

theorem Ext.readCell {s s' : Store} (h : Ext s s') (r : Ref) (hr : r < s.length) :
    readCell s' r = readCell s r := by
  obtain ⟨Δ, rfl⟩ := h; exact readCell_append s Δ r hr

theorem Ext.readOpt {s s' : Store} (h : Ext s s') (r? : Option Ref)
    (hr : ∀ r ∈ r?.toList, r < s.length) :
    readOpt s' r? = readOpt s r? := by
  obtain ⟨Δ, rfl⟩ := h; exact readOpt_append s Δ r? hr

theorem readOpt_congr {s s' : Store} (r? : Option Ref)
    (h : ∀ r ∈ r?.toList, readCell s' r = readCell s r) :
    readOpt s' r? = readOpt s r? := by
  cases r? with
  | none => rfl
  | some r => simp [readOpt, h r (by simp)]

theorem snapCallData_congr {s s' : Store} (cd : HCallData)
    (h : ∀ r ∈ cd.refs, readCell s' r = readCell s r) :
    snapCallData s' cd = snapCallData s cd := by
  simp only [HCallData.refs, List.mem_append] at h
  rw [snapCallData, snapCallData,
    readOpt_congr cd.fromR (fun r hr => h r (by tauto)),
    readOpt_congr cd.toR (fun r hr => h r (by tauto)),
    readOpt_congr cd.gasLimitR (fun r hr => h r (by tauto)),
    readOpt_congr cd.valueR (fun r hr => h r (by tauto)),
    readOpt_congr cd.inputR (fun r hr => h r (by tauto))]

theorem snapTxData_congr {s s' : Store} (td : HTxData)
    (h : ∀ r ∈ td.refs, readCell s' r = readCell s r) :
    snapTxData s' td = snapTxData s td := by
  simp only [HTxData.refs, List.mem_append] at h
  rw [snapTxData, snapTxData,
    readOpt_congr td.chainIDR (fun r hr => h r (by tauto)),
    readOpt_congr td.nonceR (fun r hr => h r (by tauto)),
    readOpt_congr td.sigR (fun r hr => h r (by tauto))]

theorem snapLegacyPrice_congr {s s' : Store} (lp : HLegacyPrice)
    (h : ∀ r ∈ lp.refs, readCell s' r = readCell s r) :
    snapLegacyPrice s' lp = snapLegacyPrice s lp := by
  simp only [HLegacyPrice.refs] at h
  rw [snapLegacyPrice, snapLegacyPrice, readOpt_congr lp.gasPriceR h]

theorem snapDynamicFee_congr {s s' : Store} (df : HDynamicFee)
    (h : ∀ r ∈ df.refs, readCell s' r = readCell s r) :
    snapDynamicFee s' df = snapDynamicFee s df := by
  simp only [HDynamicFee.refs, List.mem_append] at h
  rw [snapDynamicFee, snapDynamicFee,
    readOpt_congr df.maxFeeR (fun r hr => h r (by tauto)),
    readOpt_congr df.maxPrioR (fun r hr => h r (by tauto))]

theorem snapTuples_congr {s s' : Store} (ts : List (Address × Ref))
    (h : ∀ p ∈ ts, readCell s' p.2 = readCell s p.2) :
    snapTuples s' ts = snapTuples s ts := by
  rw [snapTuples, snapTuples]
  apply List.map_congr_left
  intro p hp
  rw [readOpt_congr (some p.2) (by simpa using h p hp)]

theorem snapAccessListData_congr {s s' : Store} (al : HAccessListData)
    (h : ∀ r ∈ alRefs s al, readCell s' r = readCell s r) :
    snapAccessListData s' al = snapAccessListData s al := by
  have houter : readOpt s' al.alR = readOpt s al.alR := by
    apply readOpt_congr
    intro r hr
    exact h r (by simp [alRefs, hr])
  rw [snapAccessListData, snapAccessListData, houter]
  cases hv : readOpt s al.alR with
  | none => rfl
  | some v =>
    cases v with
    | alist ts =>
      have : snapTuples s' ts = snapTuples s ts := by
        apply snapTuples_congr
        intro p hp
        apply h
        simp only [alRefs, hv, List.mem_append]
        right
        exact List.mem_map_of_mem Prod.snd hp
      simp [this]
    | addr a => rfl
    | num n => rfl
    | big n => rfl
    | bytes bs => rfl
    | sig g => rfl
    | hashes hs => rfl
    | blobs es => rfl
    | sidecar sc => rfl

theorem snapBlobEntries_congr {s s' : Store} (es : List (Hash256 × Option Ref))
    (h : ∀ p ∈ es, ∀ r ∈ p.2.toList, readCell s' r = readCell s r) :
    snapBlobEntries s' es = snapBlobEntries s es := by
  rw [snapBlobEntries, snapBlobEntries]
  apply List.map_congr_left
  intro p hp
  rw [readOpt_congr p.2 (h p hp)]

theorem snapBlobData_congr {s s' : Store} (bd : HBlobData)
    (h : ∀ r ∈ bdRefs s bd, readCell s' r = readCell s r) :
    snapBlobData s' bd = snapBlobData s bd := by
  have hfee : readOpt s' bd.maxFeePerBlobGasR = readOpt s bd.maxFeePerBlobGasR := by
    apply readOpt_congr
    intro r hr
    exact h r (by simp [bdRefs, hr])
  have houter : readOpt s' bd.blobsR = readOpt s bd.blobsR := by
    apply readOpt_congr
    intro r hr
    exact h r (by simp [bdRefs, hr])
  rw [snapBlobData, snapBlobData, hfee, houter]
  cases hv : readOpt s bd.blobsR with
  | none => rfl
  | some v =>
    cases v with
    | blobs es =>
      have : snapBlobEntries s' es = snapBlobEntries s es := by
        apply snapBlobEntries_congr
        intro p hp r hr
        apply h
        simp only [bdRefs, hv, List.mem_append]
        right
        rw [List.mem_filterMap]
        refine ⟨p, hp, ?_⟩
        cases hps : p.2 with
        | none => simp [hps] at hr
        | some r2 =>
          simp [hps] at hr
          simp [hps, hr]
      simp [this]
    | addr a => rfl
    | num n => rfl
    | big n => rfl
    | bytes bs => rfl
    | sig g => rfl
    | hashes hs => rfl
    | alist ts => rfl
    | sidecar sc => rfl

theorem snapTx_congr {s s' : Store} (tx : HTx)
    (h : ∀ r ∈ txRefs s tx, readCell s' r = readCell s r) :
    snapTx s' tx = snapTx s tx := by
  cases tx with
  | legacy cd td lp =>
    simp only [txRefs, List.mem_append] at h
    rw [snapTx, snapTx,
      snapCallData_congr cd (fun r hr => h r (by tauto)),
      snapTxData_congr td (fun r hr => h r (by tauto)),
      snapLegacyPrice_congr lp (fun r hr => h r (by tauto))]
  | accessList cd td lp al =>
    simp only [txRefs, List.mem_append] at h
    rw [snapTx, snapTx,
      snapCallData_congr cd (fun r hr => h r (by tauto)),
      snapTxData_congr td (fun r hr => h r (by tauto)),
      snapLegacyPrice_congr lp (fun r hr => h r (by tauto)),
      snapAccessListData_congr al (fun r hr => h r (by tauto))]
  | dynamicFee cd td al df =>
    simp only [txRefs, List.mem_append] at h
    rw [snapTx, snapTx,
      snapCallData_congr cd (fun r hr => h r (by tauto)),
      snapTxData_congr td (fun r hr => h r (by tauto)),
      snapAccessListData_congr al (fun r hr => h r (by tauto)),
      snapDynamicFee_congr df (fun r hr => h r (by tauto))]
  | blob cd td al df bd =>
    simp only [txRefs, List.mem_append] at h
    rw [snapTx, snapTx,
      snapCallData_congr cd (fun r hr => h r (by tauto)),
      snapTxData_congr td (fun r hr => h r (by tauto)),
      snapAccessListData_congr al (fun r hr => h r (by tauto)),
      snapDynamicFee_congr df (fun r hr => h r (by tauto)),
      snapBlobData_congr bd (fun r hr => h r (by tauto))]

end HeapModel

namespace HeapModel

theorem copyCell_ext (st : Store) (r? : Option Ref) : Ext st (copyCell st r?).1 :=
  (copyCell_spec st r?).elim fun Δ h => ⟨Δ, h.1⟩

theorem copyCell_fresh (st : Store) (r? : Option Ref) :
    ∀ r' ∈ (copyCell st r?).2.toList,
      st.length ≤ r' ∧ r' < (copyCell st r?).1.length :=
  (copyCell_spec st r?).elim fun _ h => h.2.1

theorem copyCell_read (st : Store) (r? : Option Ref) :
    readOpt (copyCell st r?).1 (copyCell st r?).2 = readOpt st r? :=
  (copyCell_spec st r?).elim fun _ h => h.2.2

theorem copyCallData_spec (st : Store) (cd : HCallData)
    (h : ∀ r ∈ cd.refs, r < st.length) :
    Ext st (copyCallData st cd).1 ∧
      (∀ r' ∈ (copyCallData st cd).2.refs,
        st.length ≤ r' ∧ r' < (copyCallData st cd).1.length) ∧
      snapCallData (copyCallData st cd).1 (copyCallData st cd).2 = snapCallData st cd := by
  simp only [copyCallData]
  set s1 := (copyCell st cd.fromR).1 with hs1
  set s2 := (copyCell s1 cd.toR).1 with hs2
  set s3 := (copyCell s2 cd.gasLimitR).1 with hs3
  set s4 := (copyCell s3 cd.valueR).1 with hs4
  set s5 := (copyCell s4 cd.inputR).1 with hs5
  have e1 : Ext st s1 := copyCell_ext st cd.fromR
  have e2 : Ext s1 s2 := copyCell_ext s1 cd.toR
  have e3 : Ext s2 s3 := copyCell_ext s2 cd.gasLimitR
  have e4 : Ext s3 s4 := copyCell_ext s3 cd.valueR
  have e5 : Ext s4 s5 := copyCell_ext s4 cd.inputR
  have e15 : Ext s1 s5 := (e2.trans e3).trans (e4.trans e5)
  have e25 : Ext s2 s5 := e3.trans (e4.trans e5)
  have e35 : Ext s3 s5 := e4.trans e5
  have eall : Ext st s5 := e1.trans e15
  refine ⟨eall, ?_, ?_⟩
  · intro r' hr'
    simp only [HCallData.refs, List.mem_append, Option.mem_toList] at hr'
    rcases hr' with ((((hr' | hr') | hr') | hr') | hr')
    · have := copyCell_fresh st cd.fromR r' (by simpa using hr')
      exact ⟨this.1, lt_of_lt_of_le this.2 e15.len⟩
    · have := copyCell_fresh s1 cd.toR r' (by simpa using hr')
      exact ⟨le_trans e1.len this.1, lt_of_lt_of_le this.2 e25.len⟩
    · have := copyCell_fresh s2 cd.gasLimitR r' (by simpa using hr')
      exact ⟨le_trans (e1.trans e2).len this.1, lt_of_lt_of_le this.2 e35.len⟩
    · have := copyCell_fresh s3 cd.valueR r' (by simpa using hr')
      exact ⟨le_trans ((e1.trans e2).trans e3).len this.1,
        lt_of_lt_of_le this.2 e5.len⟩
    · have := copyCell_fresh s4 cd.inputR r' (by simpa using hr')
      exact ⟨le_trans (((e1.trans e2).trans e3).trans e4).len this.1, this.2⟩
  · have r1 : readOpt s5 (copyCell st cd.fromR).2 = readOpt st cd.fromR := by
      rw [e15.readOpt _ fun r hr => (copyCell_fresh st cd.fromR r hr).2]
      exact copyCell_read st cd.fromR
    have r2 : readOpt s5 (copyCell s1 cd.toR).2 = readOpt s1 cd.toR := by
      rw [e25.readOpt _ fun r hr => (copyCell_fresh s1 cd.toR r hr).2]
      exact copyCell_read s1 cd.toR
    have r3 : readOpt s5 (copyCell s2 cd.gasLimitR).2 = readOpt s2 cd.gasLimitR := by
      rw [e35.readOpt _ fun r hr => (copyCell_fresh s2 cd.gasLimitR r hr).2]
      exact copyCell_read s2 cd.gasLimitR
    have r4 : readOpt s5 (copyCell s3 cd.valueR).2 = readOpt s3 cd.valueR := by
      rw [e5.readOpt _ fun r hr => (copyCell_fresh s3 cd.valueR r hr).2]
      exact copyCell_read s3 cd.valueR
    have r5 : readOpt s5 (copyCell s4 cd.inputR).2 = readOpt s4 cd.inputR := by
      exact copyCell_read s4 cd.inputR
    simp only [HCallData.refs, List.mem_append, Option.mem_toList] at h
    have q2 : readOpt s1 cd.toR = readOpt st cd.toR :=
      e1.readOpt _ fun r hr => h r (by simp at hr; tauto)
    have q3 : readOpt s2 cd.gasLimitR = readOpt st cd.gasLimitR :=
      (e1.trans e2).readOpt _ fun r hr => h r (by simp at hr; tauto)
    have q4 : readOpt s3 cd.valueR = readOpt st cd.valueR :=
      ((e1.trans e2).trans e3).readOpt _ fun r hr => h r (by simp at hr; tauto)
    have q5 : readOpt s4 cd.inputR = readOpt st cd.inputR :=
      (((e1.trans e2).trans e3).trans e4).readOpt _ fun r hr => h r (by simp at hr; tauto)
    simp only [snapCallData, r1, r2, r3, r4, r5, q2, q3, q4, q5]

theorem copyLegacyPrice_spec (st : Store) (lp : HLegacyPrice)
    (h : ∀ r ∈ lp.refs, r < st.length) :
    Ext st (copyLegacyPrice st lp).1 ∧
      (∀ r' ∈ (copyLegacyPrice st lp).2.refs,
        st.length ≤ r' ∧ r' < (copyLegacyPrice st lp).1.length) ∧
      snapLegacyPrice (copyLegacyPrice st lp).1 (copyLegacyPrice st lp).2 =
        snapLegacyPrice st lp := by
  refine ⟨copyCell_ext st lp.gasPriceR, ?_, ?_⟩
  · intro r' hr'
    exact copyCell_fresh st lp.gasPriceR r' (by simpa [HLegacyPrice.refs] using hr')
  · simp only [copyLegacyPrice, snapLegacyPrice, copyCell_read st lp.gasPriceR]

theorem copyDynamicFee_spec (st : Store) (df : HDynamicFee)
    (h : ∀ r ∈ df.refs, r < st.length) :
    Ext st (copyDynamicFee st df).1 ∧
      (∀ r' ∈ (copyDynamicFee st df).2.refs,
        st.length ≤ r' ∧ r' < (copyDynamicFee st df).1.length) ∧
      snapDynamicFee (copyDynamicFee st df).1 (copyDynamicFee st df).2 =
        snapDynamicFee st df := by
  simp only [copyDynamicFee]
  set s1 := (copyCell st df.maxFeeR).1 with hs1
  set s2 := (copyCell s1 df.maxPrioR).1 with hs2
  have e1 : Ext st s1 := copyCell_ext st df.maxFeeR
  have e2 : Ext s1 s2 := copyCell_ext s1 df.maxPrioR
  refine ⟨e1.trans e2, ?_, ?_⟩
  · intro r' hr'
    simp only [HDynamicFee.refs, List.mem_append, Option.mem_toList] at hr'
    rcases hr' with hr' | hr'
    · have := copyCell_fresh st df.maxFeeR r' (by simpa using hr')
      exact ⟨this.1, lt_of_lt_of_le this.2 e2.len⟩
    · have := copyCell_fresh s1 df.maxPrioR r' (by simpa using hr')
      exact ⟨le_trans e1.len this.1, this.2⟩
  · have r1 : readOpt s2 (copyCell st df.maxFeeR).2 = readOpt st df.maxFeeR := by
      rw [e2.readOpt _ fun r hr => (copyCell_fresh st df.maxFeeR r hr).2]
      exact copyCell_read st df.maxFeeR
    have r2 : readOpt s2 (copyCell s1 df.maxPrioR).2 = readOpt s1 df.maxPrioR :=
      copyCell_read s1 df.maxPrioR
    simp only [HDynamicFee.refs, List.mem_append, Option.mem_toList] at h
    have q2 : readOpt s1 df.maxPrioR = readOpt st df.maxPrioR :=
      e1.readOpt _ fun r hr => h r (by simp at hr; tauto)
    simp only [snapDynamicFee, r1, r2, q2]

end HeapModel

namespace HeapModel

theorem copyTuples_spec (st : Store) (ts : List (Address × Ref))
    (h : ∀ p ∈ ts, p.2 < st.length) :
    Ext st (copyTuples st ts).1 ∧
      (∀ p' ∈ (copyTuples st ts).2,
        st.length ≤ p'.2 ∧ p'.2 < (copyTuples st ts).1.length) ∧
      (copyTuples st ts).2.map Prod.fst = ts.map Prod.fst ∧
      snapTuples (copyTuples st ts).1 (copyTuples st ts).2 = snapTuples st ts := by
  induction ts generalizing st with
  | nil =>
    exact ⟨Ext.refl st, by simp [copyTuples], by simp [copyTuples],
      by simp [copyTuples]⟩
  | cons p rest ih =>
    obtain ⟨a, kr⟩ := p
    simp only [copyTuples]
    set s1 := (alloc st (readCell st kr)).1 with hs1
    have e1 : Ext st s1 := ⟨[readCell st kr], rfl⟩
    have hrest : ∀ p ∈ rest, p.2 < s1.length := fun p hp =>
      lt_of_lt_of_le (h p (by simp [hp])) e1.len
    obtain ⟨e2, fr, names, sn⟩ := ih s1 hrest
    refine ⟨e1.trans e2, ?_, ?_, ?_⟩
    · intro p' hp'
      rcases List.mem_cons.mp hp' with hp' | hp'
      · subst hp'
        simp only [alloc]
        constructor
        · exact le_refl _
        · calc st.length < s1.length := by rw [hs1]; simp [alloc]
            _ ≤ (copyTuples s1 rest).1.length := e2.len
      · have := fr p' hp'
        exact ⟨le_trans e1.len this.1, this.2⟩
    · simp [names]
    · simp only [snapTuples, List.map_cons]
      have hkr : readOpt (copyTuples s1 rest).1 (some (alloc st (readCell st kr)).2) =
          some (readCell st kr) := by
        rw [e2.readOpt]
        · simp [readOpt, hs1, alloc, readCell_alloc]
        · intro r hrr
          simp [alloc] at hrr
          subst hrr
          rw [hs1]
          simp [alloc]
      rw [hkr]
      have tail : List.map (fun p =>
          ({ address := p.1,
             storageKeys := asHashes (readOpt (copyTuples s1 rest).1 (some p.2)) } :
            AccessTuple)) (copyTuples s1 rest).2 =
          List.map (fun p =>
          ({ address := p.1, storageKeys := asHashes (readOpt st (some p.2)) } :
            AccessTuple)) rest := by
        have h1 : snapTuples (copyTuples s1 rest).1 (copyTuples s1 rest).2 =
            snapTuples st rest := by
          rw [sn]
          exact snapTuples_congr rest fun p hp => e1.readCell _ (h p (by simp [hp]))
        simpa [snapTuples] using h1
      rw [tail]
      simp [readOpt]

theorem copyAccessListData_spec (st : Store) (al : HAccessListData)
    (h : ∀ r ∈ alRefs st al, r < st.length) :
    Ext st (copyAccessListData st al).1 ∧
      (∀ r' ∈ alRefs (copyAccessListData st al).1 (copyAccessListData st al).2,
        st.length ≤ r' ∧ r' < (copyAccessListData st al).1.length) ∧
      snapAccessListData (copyAccessListData st al).1 (copyAccessListData st al).2 =
        snapAccessListData st al := by
  cases hr : al.alR with
  | none =>
    have hres1 : (copyAccessListData st al).1 = st := by
      simp only [copyAccessListData, hr]
    have hres2 : (copyAccessListData st al).2 = { alR := none } := by
      simp only [copyAccessListData, hr]
    refine ⟨by rw [hres1]; exact Ext.refl st, ?_, ?_⟩
    · intro r' hr'
      rw [hres1, hres2] at hr'
      simp [alRefs, readOpt] at hr'
    · rw [hres1, hres2]
      simp [snapAccessListData, hr, readOpt]
  | some r =>
    cases hv : readCell st r with
    | alist ts =>
      have hts : ∀ p ∈ ts, p.2 < st.length := by
        intro p hp
        apply h
        simp [alRefs, hr, readOpt, hv]
        right
        exact ⟨p.1, by simpa using hp⟩
      obtain ⟨e1, fr, _, sn⟩ := copyTuples_spec st ts hts
      have hres1 : (copyAccessListData st al).1 =
          (copyTuples st ts).1 ++ [.alist (copyTuples st ts).2] := by
        simp only [copyAccessListData, hr, hv, alloc]
      have hres2 : (copyAccessListData st al).2 =
          { alR := some (copyTuples st ts).1.length } := by
        simp only [copyAccessListData, hr, hv, alloc]
      have hal : alRefs ((copyTuples st ts).1 ++ [HVal.alist (copyTuples st ts).2])
          { alR := some (copyTuples st ts).1.length } =
          (copyTuples st ts).1.length :: (copyTuples st ts).2.map Prod.snd := by
        simp [alRefs, readOpt, readCell_alloc]
      refine ⟨by rw [hres1]; exact e1.trans ⟨[.alist (copyTuples st ts).2], rfl⟩, ?_, ?_⟩
      · intro r' hr'
        rw [hres1, hres2, hal] at hr'
        rcases List.mem_cons.mp hr' with hr' | hr'
        · subst hr'
          rw [hres1]
          exact ⟨e1.len, by simp⟩
        · obtain ⟨p, hp, rfl⟩ := List.mem_map.mp hr'
          have := fr p hp
          rw [hres1]
          exact ⟨this.1, lt_of_lt_of_le this.2 (by simp)⟩
      · rw [hres1, hres2]
        have houter : readOpt ((copyTuples st ts).1 ++ [HVal.alist (copyTuples st ts).2])
            (some (copyTuples st ts).1.length) = some (.alist (copyTuples st ts).2) := by
          simp [readOpt, readCell_alloc]
        have hst : snapTuples ((copyTuples st ts).1 ++ [HVal.alist (copyTuples st ts).2])
            (copyTuples st ts).2 = snapTuples (copyTuples st ts).1 (copyTuples st ts).2 :=
          snapTuples_congr _ fun p hp => readCell_append _ _ p.2 (fr p hp).2
        rw [snapAccessListData, snapAccessListData, houter, hr,
          show readOpt st (some r) = some (.alist ts) from by simp [readOpt, hv]]
        simp only [hst, sn]
    | addr a =>
      have hres1 : (copyAccessListData st al).1 = st ++ [.addr a] := by
        simp only [copyAccessListData, hr, hv, alloc]
      have hres2 : (copyAccessListData st al).2 = { alR := some st.length } := by
        simp only [copyAccessListData, hr, hv, alloc]
      refine ⟨by rw [hres1]; exact ⟨[.addr a], rfl⟩, ?_, ?_⟩
      · intro r' hr'
        rw [hres1, hres2] at hr'
        simp [alRefs, readOpt, readCell_alloc] at hr'
        subst hr'
        rw [hres1]
        exact ⟨le_refl _, by simp⟩
      · rw [hres1, hres2]
        simp [snapAccessListData, readOpt, readCell_alloc, hr, hv]
    | num n =>
      have hres1 : (copyAccessListData st al).1 = st ++ [.num n] := by
        simp only [copyAccessListData, hr, hv, alloc]
      have hres2 : (copyAccessListData st al).2 = { alR := some st.length } := by
        simp only [copyAccessListData, hr, hv, alloc]
      refine ⟨by rw [hres1]; exact ⟨[.num n], rfl⟩, ?_, ?_⟩
      · intro r' hr'
        rw [hres1, hres2] at hr'
        simp [alRefs, readOpt, readCell_alloc] at hr'
        subst hr'
        rw [hres1]
        exact ⟨le_refl _, by simp⟩
      · rw [hres1, hres2]
        simp [snapAccessListData, readOpt, readCell_alloc, hr, hv]
    | big n =>
      have hres1 : (copyAccessListData st al).1 = st ++ [.big n] := by
        simp only [copyAccessListData, hr, hv, alloc]
      have hres2 : (copyAccessListData st al).2 = { alR := some st.length } := by
        simp only [copyAccessListData, hr, hv, alloc]
      refine ⟨by rw [hres1]; exact ⟨[.big n], rfl⟩, ?_, ?_⟩
      · intro r' hr'
        rw [hres1, hres2] at hr'
        simp [alRefs, readOpt, readCell_alloc] at hr'
        subst hr'
        rw [hres1]
        exact ⟨le_refl _, by simp⟩
      · rw [hres1, hres2]
        simp [snapAccessListData, readOpt, readCell_alloc, hr, hv]
    | bytes bs =>
      have hres1 : (copyAccessListData st al).1 = st ++ [.bytes bs] := by
        simp only [copyAccessListData, hr, hv, alloc]
      have hres2 : (copyAccessListData st al).2 = { alR := some st.length } := by
        simp only [copyAccessListData, hr, hv, alloc]
      refine ⟨by rw [hres1]; exact ⟨[.bytes bs], rfl⟩, ?_, ?_⟩
      · intro r' hr'
        rw [hres1, hres2] at hr'
        simp [alRefs, readOpt, readCell_alloc] at hr'
        subst hr'
        rw [hres1]
        exact ⟨le_refl _, by simp⟩
      · rw [hres1, hres2]
        simp [snapAccessListData, readOpt, readCell_alloc, hr, hv]
    | sig g =>
      have hres1 : (copyAccessListData st al).1 = st ++ [.sig g] := by
        simp only [copyAccessListData, hr, hv, alloc]
      have hres2 : (copyAccessListData st al).2 = { alR := some st.length } := by
        simp only [copyAccessListData, hr, hv, alloc]
      refine ⟨by rw [hres1]; exact ⟨[.sig g], rfl⟩, ?_, ?_⟩
      · intro r' hr'
        rw [hres1, hres2] at hr'
        simp [alRefs, readOpt, readCell_alloc] at hr'
        subst hr'
        rw [hres1]
        exact ⟨le_refl _, by simp⟩
      · rw [hres1, hres2]
        simp [snapAccessListData, readOpt, readCell_alloc, hr, hv]
    | hashes hs =>
      have hres1 : (copyAccessListData st al).1 = st ++ [.hashes hs] := by
        simp only [copyAccessListData, hr, hv, alloc]
      have hres2 : (copyAccessListData st al).2 = { alR := some st.length } := by
        simp only [copyAccessListData, hr, hv, alloc]
      refine ⟨by rw [hres1]; exact ⟨[.hashes hs], rfl⟩, ?_, ?_⟩
      · intro r' hr'
        rw [hres1, hres2] at hr'
        simp [alRefs, readOpt, readCell_alloc] at hr'
        subst hr'
        rw [hres1]
        exact ⟨le_refl _, by simp⟩
      · rw [hres1, hres2]
        simp [snapAccessListData, readOpt, readCell_alloc, hr, hv]
    | blobs es =>
      have hres1 : (copyAccessListData st al).1 = st ++ [.blobs es] := by
        simp only [copyAccessListData, hr, hv, alloc]
      have hres2 : (copyAccessListData st al).2 = { alR := some st.length } := by
        simp only [copyAccessListData, hr, hv, alloc]
      refine ⟨by rw [hres1]; exact ⟨[.blobs es], rfl⟩, ?_, ?_⟩
      · intro r' hr'
        rw [hres1, hres2] at hr'
        simp [alRefs, readOpt, readCell_alloc] at hr'
        subst hr'
        rw [hres1]
        exact ⟨le_refl _, by simp⟩
      · rw [hres1, hres2]
        simp [snapAccessListData, readOpt, readCell_alloc, hr, hv]
    | sidecar sc =>
      have hres1 : (copyAccessListData st al).1 = st ++ [.sidecar sc] := by
        simp only [copyAccessListData, hr, hv, alloc]
      have hres2 : (copyAccessListData st al).2 = { alR := some st.length } := by
        simp only [copyAccessListData, hr, hv, alloc]
      refine ⟨by rw [hres1]; exact ⟨[.sidecar sc], rfl⟩, ?_, ?_⟩
      · intro r' hr'
        rw [hres1, hres2] at hr'
        simp [alRefs, readOpt, readCell_alloc] at hr'
        subst hr'
        rw [hres1]
        exact ⟨le_refl _, by simp⟩
      · rw [hres1, hres2]
        simp [snapAccessListData, readOpt, readCell_alloc, hr, hv]

theorem copyBlobEntries_spec (st : Store) (es : List (Hash256 × Option Ref))
    (h : ∀ p ∈ es, ∀ r ∈ p.2.toList, r < st.length) :
    Ext st (copyBlobEntries st es).1 ∧
      (∀ p' ∈ (copyBlobEntries st es).2, ∀ r' ∈ p'.2.toList,
        st.length ≤ r' ∧ r' < (copyBlobEntries st es).1.length) ∧
      snapBlobEntries (copyBlobEntries st es).1 (copyBlobEntries st es).2 =
        snapBlobEntries st es := by
  induction es generalizing st with
  | nil =>
    exact ⟨Ext.refl st, by simp [copyBlobEntries], by simp [copyBlobEntries]⟩
  | cons p rest ih =>
    obtain ⟨h0, scr⟩ := p
    simp only [copyBlobEntries]
    set s1 := (copyCell st scr).1 with hs1
    have e1 : Ext st s1 := copyCell_ext st scr
    have hrest : ∀ p ∈ rest, ∀ r ∈ p.2.toList, r < s1.length := fun p hp r hrr =>
      lt_of_lt_of_le (h p (by simp [hp]) r hrr) e1.len
    obtain ⟨e2, fr, sn⟩ := ih s1 hrest
    refine ⟨e1.trans e2, ?_, ?_⟩
    · intro p' hp' r' hr'
      rcases List.mem_cons.mp hp' with hp' | hp'
      · subst hp'
        have := copyCell_fresh st scr r' (by simpa using hr')
        exact ⟨this.1, lt_of_lt_of_le this.2 e2.len⟩
      · have := fr p' hp' r' hr'
        exact ⟨le_trans e1.len this.1, this.2⟩
    · simp only [snapBlobEntries, List.map_cons]
      have hread : readOpt (copyBlobEntries s1 rest).1 (copyCell st scr).2 =
          readOpt st scr := by
        rw [e2.readOpt _ fun r hrr => (copyCell_fresh st scr r hrr).2]
        exact copyCell_read st scr
      rw [hread]
      have tail : List.map (fun p =>
          ({ hash := p.1,
             sidecar := asSidecar (readOpt (copyBlobEntries s1 rest).1 p.2) } : Blob))
          (copyBlobEntries s1 rest).2 =
          List.map (fun p =>
          ({ hash := p.1, sidecar := asSidecar (readOpt st p.2) } : Blob)) rest := by
        have h1 : snapBlobEntries (copyBlobEntries s1 rest).1 (copyBlobEntries s1 rest).2 =
            snapBlobEntries st rest := by
          rw [sn]
          exact snapBlobEntries_congr rest fun p hp r hrr =>
            e1.readCell _ (h p (by simp [hp]) r hrr)
        simpa [snapBlobEntries] using h1
      rw [tail]

theorem copyBlobData_spec (st : Store) (bd : HBlobData)
    (h : ∀ r ∈ bdRefs st bd, r < st.length) :
    Ext st (copyBlobData st bd).1 ∧
      (∀ r' ∈ bdRefs (copyBlobData st bd).1 (copyBlobData st bd).2,
        st.length ≤ r' ∧ r' < (copyBlobData st bd).1.length) ∧
      snapBlobData (copyBlobData st bd).1 (copyBlobData st bd).2 =
        snapBlobData st bd := by
  have e0 : Ext st (copyCell st bd.maxFeePerBlobGasR).1 := copyCell_ext st bd.maxFeePerBlobGasR
  cases hrB : bd.blobsR with
  | none =>
    have hres1 : (copyBlobData st bd).1 = (copyCell st bd.maxFeePerBlobGasR).1 := by
      simp only [copyBlobData, hrB]
    have hres2 : (copyBlobData st bd).2 =
        { maxFeePerBlobGasR := (copyCell st bd.maxFeePerBlobGasR).2, blobsR := none } := by
      simp only [copyBlobData, hrB]
    have hbd : bdRefs (copyCell st bd.maxFeePerBlobGasR).1
        { maxFeePerBlobGasR := (copyCell st bd.maxFeePerBlobGasR).2, blobsR := none } =
        (copyCell st bd.maxFeePerBlobGasR).2.toList := by
      simp [bdRefs, readOpt]
    refine ⟨by rw [hres1]; exact e0, ?_, ?_⟩
    · intro r' hr'
      rw [hres1, hres2, hbd] at hr'
      rw [hres1]
      exact copyCell_fresh st bd.maxFeePerBlobGasR r' hr'
    · rw [hres1, hres2]
      rw [snapBlobData, snapBlobData, copyCell_read st bd.maxFeePerBlobGasR, hrB]
      rfl
  | some r =>
    have hrlt : r < st.length := h r (by simp [bdRefs, hrB])
    cases hv : readCell st r with
    | blobs entries =>
      have hva : readCell (copyCell st bd.maxFeePerBlobGasR).1 r = .blobs entries := by
        rw [e0.readCell r hrlt, hv]
      have hts : ∀ p ∈ entries, ∀ q ∈ p.2.toList, q < st.length := by
        intro p hp q hq
        apply h
        have hmem : q ∈ entries.filterMap Prod.snd := by
          rw [List.mem_filterMap]
          refine ⟨p, hp, ?_⟩
          cases hps : p.2 with
          | none => simp [hps] at hq
          | some q2 =>
            simp [hps] at hq
            simp [hps, hq]
        simp [bdRefs, hrB, readOpt, hv, hmem]
      have hts1 : ∀ p ∈ entries, ∀ q ∈ p.2.toList, q < List.length (copyCell st bd.maxFeePerBlobGasR).1 :=
        fun p hp q hq => lt_of_lt_of_le (hts p hp q hq) e0.len
      obtain ⟨e2, fr, sn⟩ := copyBlobEntries_spec (copyCell st bd.maxFeePerBlobGasR).1 entries hts1
      have hres1 : (copyBlobData st bd).1 = (copyBlobEntries (copyCell st bd.maxFeePerBlobGasR).1 entries).1 ++ [HVal.blobs (copyBlobEntries (copyCell st bd.maxFeePerBlobGasR).1 entries).2] := by
        simp only [copyBlobData, hrB, hva, alloc]
      have hres2 : (copyBlobData st bd).2 =
          { maxFeePerBlobGasR := (copyCell st bd.maxFeePerBlobGasR).2, blobsR := some (List.length (copyBlobEntries (copyCell st bd.maxFeePerBlobGasR).1 entries).1) } := by
        simp only [copyBlobData, hrB, hva, alloc]
      have hbd : bdRefs ((copyBlobEntries (copyCell st bd.maxFeePerBlobGasR).1 entries).1 ++ [HVal.blobs (copyBlobEntries (copyCell st bd.maxFeePerBlobGasR).1 entries).2])
          { maxFeePerBlobGasR := (copyCell st bd.maxFeePerBlobGasR).2, blobsR := some (List.length (copyBlobEntries (copyCell st bd.maxFeePerBlobGasR).1 entries).1) } =
          (copyCell st bd.maxFeePerBlobGasR).2.toList ++ List.length (copyBlobEntries (copyCell st bd.maxFeePerBlobGasR).1 entries).1 :: ((copyBlobEntries (copyCell st bd.maxFeePerBlobGasR).1 entries).2.filterMap Prod.snd) := by
        simp [bdRefs, readOpt, readCell_alloc]
      refine ⟨by rw [hres1]; exact (e0.trans e2).trans ⟨[HVal.blobs (copyBlobEntries (copyCell st bd.maxFeePerBlobGasR).1 entries).2], rfl⟩, ?_, ?_⟩
      · intro r' hr'
        rw [hres1, hres2, hbd] at hr'
        rcases List.mem_append.mp hr' with hr' | hr'
        · have := copyCell_fresh st bd.maxFeePerBlobGasR r' hr'
          rw [hres1]
          exact ⟨this.1, lt_of_lt_of_le (lt_of_lt_of_le this.2 e2.len) (by simp)⟩
        · rcases List.mem_cons.mp hr' with hr' | hr'
          · subst hr'
            rw [hres1]
            exact ⟨(e0.trans e2).len, by simp⟩
          · obtain ⟨p, hp, hp2⟩ := List.mem_filterMap.mp hr'
            have := fr p hp r' (by simp [hp2])
            rw [hres1]
            exact ⟨le_trans e0.len this.1, lt_of_lt_of_le this.2 (by simp)⟩
      · rw [hres1, hres2]
        have hfee : readOpt ((copyBlobEntries (copyCell st bd.maxFeePerBlobGasR).1 entries).1 ++ [HVal.blobs (copyBlobEntries (copyCell st bd.maxFeePerBlobGasR).1 entries).2]) (copyCell st bd.maxFeePerBlobGasR).2 =
            readOpt st bd.maxFeePerBlobGasR := by
          rw [readOpt_append _ _ _ fun q hq =>
            lt_of_lt_of_le (copyCell_fresh st bd.maxFeePerBlobGasR q hq).2 e2.len]
          rw [e2.readOpt _ fun q hq => (copyCell_fresh st bd.maxFeePerBlobGasR q hq).2]
          exact copyCell_read st bd.maxFeePerBlobGasR
        have hchain : snapBlobEntries ((copyBlobEntries (copyCell st bd.maxFeePerBlobGasR).1 entries).1 ++ [HVal.blobs (copyBlobEntries (copyCell st bd.maxFeePerBlobGasR).1 entries).2]) (copyBlobEntries (copyCell st bd.maxFeePerBlobGasR).1 entries).2 =
            snapBlobEntries st entries := by
          rw [snapBlobEntries_congr (copyBlobEntries (copyCell st bd.maxFeePerBlobGasR).1 entries).2
            (fun p hp q hq => readCell_append _ _ q (fr p hp q hq).2), sn]
          exact snapBlobEntries_congr entries fun p hp q hq =>
            e0.readCell q (hts p hp q hq)
        rw [snapBlobData, snapBlobData, hfee,
          show readOpt ((copyBlobEntries (copyCell st bd.maxFeePerBlobGasR).1 entries).1 ++ [HVal.blobs (copyBlobEntries (copyCell st bd.maxFeePerBlobGasR).1 entries).2]) (some (List.length (copyBlobEntries (copyCell st bd.maxFeePerBlobGasR).1 entries).1)) =
              some (HVal.blobs (copyBlobEntries (copyCell st bd.maxFeePerBlobGasR).1 entries).2) from by simp [readOpt, readCell_alloc],
          show readOpt st bd.blobsR = some (HVal.blobs entries) from by
            rw [hrB]; simp [readOpt, hv]]
        simp only [hchain]
    | addr x =>
      have hva : readCell (copyCell st bd.maxFeePerBlobGasR).1 r = .addr x := by
        rw [e0.readCell r hrlt, hv]
      have hres1 : (copyBlobData st bd).1 = (copyCell st bd.maxFeePerBlobGasR).1 ++ [.addr x] := by
        simp only [copyBlobData, hrB, hva, alloc]
      have hres2 : (copyBlobData st bd).2 =
          { maxFeePerBlobGasR := (copyCell st bd.maxFeePerBlobGasR).2, blobsR := some (copyCell st bd.maxFeePerBlobGasR).1.length } := by
        simp only [copyBlobData, hrB, hva, alloc]
      have hbd : bdRefs ((copyCell st bd.maxFeePerBlobGasR).1 ++ [.addr x])
          { maxFeePerBlobGasR := (copyCell st bd.maxFeePerBlobGasR).2, blobsR := some (copyCell st bd.maxFeePerBlobGasR).1.length } =
          (copyCell st bd.maxFeePerBlobGasR).2.toList ++ [(copyCell st bd.maxFeePerBlobGasR).1.length] := by
        simp [bdRefs, readOpt, readCell_alloc]
      refine ⟨by rw [hres1]; exact e0.trans ⟨[.addr x], rfl⟩, ?_, ?_⟩
      · intro r' hr'
        rw [hres1, hres2, hbd] at hr'
        rcases List.mem_append.mp hr' with hr' | hr'
        · have := copyCell_fresh st bd.maxFeePerBlobGasR r' hr'
          rw [hres1]
          exact ⟨this.1, lt_of_lt_of_le this.2 (by simp)⟩
        · rw [hres1]
          simp only [List.mem_singleton] at hr'
          subst hr'
          exact ⟨e0.len, by simp⟩
      · rw [hres1, hres2]
        have hfee : readOpt ((copyCell st bd.maxFeePerBlobGasR).1 ++ [.addr x]) (copyCell st bd.maxFeePerBlobGasR).2 =
            readOpt st bd.maxFeePerBlobGasR := by
          rw [readOpt_append _ _ _ fun q hq =>
            (copyCell_fresh st bd.maxFeePerBlobGasR q hq).2]
          exact copyCell_read st bd.maxFeePerBlobGasR
        rw [snapBlobData, snapBlobData, hfee,
          show readOpt ((copyCell st bd.maxFeePerBlobGasR).1 ++ [.addr x]) (some (copyCell st bd.maxFeePerBlobGasR).1.length) = some (.addr x) from by
            simp [readOpt, readCell_alloc],
          show readOpt st bd.blobsR = some (.addr x) from by rw [hrB]; simp [readOpt, hv]]

    | num n =>
      have hva : readCell (copyCell st bd.maxFeePerBlobGasR).1 r = .num n := by
        rw [e0.readCell r hrlt, hv]
      have hres1 : (copyBlobData st bd).1 = (copyCell st bd.maxFeePerBlobGasR).1 ++ [.num n] := by
        simp only [copyBlobData, hrB, hva, alloc]
      have hres2 : (copyBlobData st bd).2 =
          { maxFeePerBlobGasR := (copyCell st bd.maxFeePerBlobGasR).2, blobsR := some (copyCell st bd.maxFeePerBlobGasR).1.length } := by
        simp only [copyBlobData, hrB, hva, alloc]
      have hbd : bdRefs ((copyCell st bd.maxFeePerBlobGasR).1 ++ [.num n])
          { maxFeePerBlobGasR := (copyCell st bd.maxFeePerBlobGasR).2, blobsR := some (copyCell st bd.maxFeePerBlobGasR).1.length } =
          (copyCell st bd.maxFeePerBlobGasR).2.toList ++ [(copyCell st bd.maxFeePerBlobGasR).1.length] := by
        simp [bdRefs, readOpt, readCell_alloc]
      refine ⟨by rw [hres1]; exact e0.trans ⟨[.num n], rfl⟩, ?_, ?_⟩
      · intro r' hr'
        rw [hres1, hres2, hbd] at hr'
        rcases List.mem_append.mp hr' with hr' | hr'
        · have := copyCell_fresh st bd.maxFeePerBlobGasR r' hr'
          rw [hres1]
          exact ⟨this.1, lt_of_lt_of_le this.2 (by simp)⟩
        · rw [hres1]
          simp only [List.mem_singleton] at hr'
          subst hr'
          exact ⟨e0.len, by simp⟩
      · rw [hres1, hres2]
        have hfee : readOpt ((copyCell st bd.maxFeePerBlobGasR).1 ++ [.num n]) (copyCell st bd.maxFeePerBlobGasR).2 =
            readOpt st bd.maxFeePerBlobGasR := by
          rw [readOpt_append _ _ _ fun q hq =>
            (copyCell_fresh st bd.maxFeePerBlobGasR q hq).2]
          exact copyCell_read st bd.maxFeePerBlobGasR
        rw [snapBlobData, snapBlobData, hfee,
          show readOpt ((copyCell st bd.maxFeePerBlobGasR).1 ++ [.num n]) (some (copyCell st bd.maxFeePerBlobGasR).1.length) = some (.num n) from by
            simp [readOpt, readCell_alloc],
          show readOpt st bd.blobsR = some (.num n) from by rw [hrB]; simp [readOpt, hv]]

    | big n =>
      have hva : readCell (copyCell st bd.maxFeePerBlobGasR).1 r = .big n := by
        rw [e0.readCell r hrlt, hv]
      have hres1 : (copyBlobData st bd).1 = (copyCell st bd.maxFeePerBlobGasR).1 ++ [.big n] := by
        simp only [copyBlobData, hrB, hva, alloc]
      have hres2 : (copyBlobData st bd).2 =
          { maxFeePerBlobGasR := (copyCell st bd.maxFeePerBlobGasR).2, blobsR := some (copyCell st bd.maxFeePerBlobGasR).1.length } := by
        simp only [copyBlobData, hrB, hva, alloc]
      have hbd : bdRefs ((copyCell st bd.maxFeePerBlobGasR).1 ++ [.big n])
          { maxFeePerBlobGasR := (copyCell st bd.maxFeePerBlobGasR).2, blobsR := some (copyCell st bd.maxFeePerBlobGasR).1.length } =
          (copyCell st bd.maxFeePerBlobGasR).2.toList ++ [(copyCell st bd.maxFeePerBlobGasR).1.length] := by
        simp [bdRefs, readOpt, readCell_alloc]
      refine ⟨by rw [hres1]; exact e0.trans ⟨[.big n], rfl⟩, ?_, ?_⟩
      · intro r' hr'
        rw [hres1, hres2, hbd] at hr'
        rcases List.mem_append.mp hr' with hr' | hr'
        · have := copyCell_fresh st bd.maxFeePerBlobGasR r' hr'
          rw [hres1]
          exact ⟨this.1, lt_of_lt_of_le this.2 (by simp)⟩
        · rw [hres1]
          simp only [List.mem_singleton] at hr'
          subst hr'
          exact ⟨e0.len, by simp⟩
      · rw [hres1, hres2]
        have hfee : readOpt ((copyCell st bd.maxFeePerBlobGasR).1 ++ [.big n]) (copyCell st bd.maxFeePerBlobGasR).2 =
            readOpt st bd.maxFeePerBlobGasR := by
          rw [readOpt_append _ _ _ fun q hq =>
            (copyCell_fresh st bd.maxFeePerBlobGasR q hq).2]
          exact copyCell_read st bd.maxFeePerBlobGasR
        rw [snapBlobData, snapBlobData, hfee,
          show readOpt ((copyCell st bd.maxFeePerBlobGasR).1 ++ [.big n]) (some (copyCell st bd.maxFeePerBlobGasR).1.length) = some (.big n) from by
            simp [readOpt, readCell_alloc],
          show readOpt st bd.blobsR = some (.big n) from by rw [hrB]; simp [readOpt, hv]]

    | bytes bs =>
      have hva : readCell (copyCell st bd.maxFeePerBlobGasR).1 r = .bytes bs := by
        rw [e0.readCell r hrlt, hv]
      have hres1 : (copyBlobData st bd).1 = (copyCell st bd.maxFeePerBlobGasR).1 ++ [.bytes bs] := by
        simp only [copyBlobData, hrB, hva, alloc]
      have hres2 : (copyBlobData st bd).2 =
          { maxFeePerBlobGasR := (copyCell st bd.maxFeePerBlobGasR).2, blobsR := some (copyCell st bd.maxFeePerBlobGasR).1.length } := by
        simp only [copyBlobData, hrB, hva, alloc]
      have hbd : bdRefs ((copyCell st bd.maxFeePerBlobGasR).1 ++ [.bytes bs])
          { maxFeePerBlobGasR := (copyCell st bd.maxFeePerBlobGasR).2, blobsR := some (copyCell st bd.maxFeePerBlobGasR).1.length } =
          (copyCell st bd.maxFeePerBlobGasR).2.toList ++ [(copyCell st bd.maxFeePerBlobGasR).1.length] := by
        simp [bdRefs, readOpt, readCell_alloc]
      refine ⟨by rw [hres1]; exact e0.trans ⟨[.bytes bs], rfl⟩, ?_, ?_⟩
      · intro r' hr'
        rw [hres1, hres2, hbd] at hr'
        rcases List.mem_append.mp hr' with hr' | hr'
        · have := copyCell_fresh st bd.maxFeePerBlobGasR r' hr'
          rw [hres1]
          exact ⟨this.1, lt_of_lt_of_le this.2 (by simp)⟩
        · rw [hres1]
          simp only [List.mem_singleton] at hr'
          subst hr'
          exact ⟨e0.len, by simp⟩
      · rw [hres1, hres2]
        have hfee : readOpt ((copyCell st bd.maxFeePerBlobGasR).1 ++ [.bytes bs]) (copyCell st bd.maxFeePerBlobGasR).2 =
            readOpt st bd.maxFeePerBlobGasR := by
          rw [readOpt_append _ _ _ fun q hq =>
            (copyCell_fresh st bd.maxFeePerBlobGasR q hq).2]
          exact copyCell_read st bd.maxFeePerBlobGasR
        rw [snapBlobData, snapBlobData, hfee,
          show readOpt ((copyCell st bd.maxFeePerBlobGasR).1 ++ [.bytes bs]) (some (copyCell st bd.maxFeePerBlobGasR).1.length) = some (.bytes bs) from by
            simp [readOpt, readCell_alloc],
          show readOpt st bd.blobsR = some (.bytes bs) from by rw [hrB]; simp [readOpt, hv]]

    | sig g =>
      have hva : readCell (copyCell st bd.maxFeePerBlobGasR).1 r = .sig g := by
        rw [e0.readCell r hrlt, hv]
      have hres1 : (copyBlobData st bd).1 = (copyCell st bd.maxFeePerBlobGasR).1 ++ [.sig g] := by
        simp only [copyBlobData, hrB, hva, alloc]
      have hres2 : (copyBlobData st bd).2 =
          { maxFeePerBlobGasR := (copyCell st bd.maxFeePerBlobGasR).2, blobsR := some (copyCell st bd.maxFeePerBlobGasR).1.length } := by
        simp only [copyBlobData, hrB, hva, alloc]
      have hbd : bdRefs ((copyCell st bd.maxFeePerBlobGasR).1 ++ [.sig g])
          { maxFeePerBlobGasR := (copyCell st bd.maxFeePerBlobGasR).2, blobsR := some (copyCell st bd.maxFeePerBlobGasR).1.length } =
          (copyCell st bd.maxFeePerBlobGasR).2.toList ++ [(copyCell st bd.maxFeePerBlobGasR).1.length] := by
        simp [bdRefs, readOpt, readCell_alloc]
      refine ⟨by rw [hres1]; exact e0.trans ⟨[.sig g], rfl⟩, ?_, ?_⟩
      · intro r' hr'
        rw [hres1, hres2, hbd] at hr'
        rcases List.mem_append.mp hr' with hr' | hr'
        · have := copyCell_fresh st bd.maxFeePerBlobGasR r' hr'
          rw [hres1]
          exact ⟨this.1, lt_of_lt_of_le this.2 (by simp)⟩
        · rw [hres1]
          simp only [List.mem_singleton] at hr'
          subst hr'
          exact ⟨e0.len, by simp⟩
      · rw [hres1, hres2]
        have hfee : readOpt ((copyCell st bd.maxFeePerBlobGasR).1 ++ [.sig g]) (copyCell st bd.maxFeePerBlobGasR).2 =
            readOpt st bd.maxFeePerBlobGasR := by
          rw [readOpt_append _ _ _ fun q hq =>
            (copyCell_fresh st bd.maxFeePerBlobGasR q hq).2]
          exact copyCell_read st bd.maxFeePerBlobGasR
        rw [snapBlobData, snapBlobData, hfee,
          show readOpt ((copyCell st bd.maxFeePerBlobGasR).1 ++ [.sig g]) (some (copyCell st bd.maxFeePerBlobGasR).1.length) = some (.sig g) from by
            simp [readOpt, readCell_alloc],
          show readOpt st bd.blobsR = some (.sig g) from by rw [hrB]; simp [readOpt, hv]]

    | hashes hs2 =>
      have hva : readCell (copyCell st bd.maxFeePerBlobGasR).1 r = .hashes hs2 := by
        rw [e0.readCell r hrlt, hv]
      have hres1 : (copyBlobData st bd).1 = (copyCell st bd.maxFeePerBlobGasR).1 ++ [.hashes hs2] := by
        simp only [copyBlobData, hrB, hva, alloc]
      have hres2 : (copyBlobData st bd).2 =
          { maxFeePerBlobGasR := (copyCell st bd.maxFeePerBlobGasR).2, blobsR := some (copyCell st bd.maxFeePerBlobGasR).1.length } := by
        simp only [copyBlobData, hrB, hva, alloc]
      have hbd : bdRefs ((copyCell st bd.maxFeePerBlobGasR).1 ++ [.hashes hs2])
          { maxFeePerBlobGasR := (copyCell st bd.maxFeePerBlobGasR).2, blobsR := some (copyCell st bd.maxFeePerBlobGasR).1.length } =
          (copyCell st bd.maxFeePerBlobGasR).2.toList ++ [(copyCell st bd.maxFeePerBlobGasR).1.length] := by
        simp [bdRefs, readOpt, readCell_alloc]
      refine ⟨by rw [hres1]; exact e0.trans ⟨[.hashes hs2], rfl⟩, ?_, ?_⟩
      · intro r' hr'
        rw [hres1, hres2, hbd] at hr'
        rcases List.mem_append.mp hr' with hr' | hr'
        · have := copyCell_fresh st bd.maxFeePerBlobGasR r' hr'
          rw [hres1]
          exact ⟨this.1, lt_of_lt_of_le this.2 (by simp)⟩
        · rw [hres1]
          simp only [List.mem_singleton] at hr'
          subst hr'
          exact ⟨e0.len, by simp⟩
      · rw [hres1, hres2]
        have hfee : readOpt ((copyCell st bd.maxFeePerBlobGasR).1 ++ [.hashes hs2]) (copyCell st bd.maxFeePerBlobGasR).2 =
            readOpt st bd.maxFeePerBlobGasR := by
          rw [readOpt_append _ _ _ fun q hq =>
            (copyCell_fresh st bd.maxFeePerBlobGasR q hq).2]
          exact copyCell_read st bd.maxFeePerBlobGasR
        rw [snapBlobData, snapBlobData, hfee,
          show readOpt ((copyCell st bd.maxFeePerBlobGasR).1 ++ [.hashes hs2]) (some (copyCell st bd.maxFeePerBlobGasR).1.length) = some (.hashes hs2) from by
            simp [readOpt, readCell_alloc],
          show readOpt st bd.blobsR = some (.hashes hs2) from by rw [hrB]; simp [readOpt, hv]]

    | alist ts =>
      have hva : readCell (copyCell st bd.maxFeePerBlobGasR).1 r = .alist ts := by
        rw [e0.readCell r hrlt, hv]
      have hres1 : (copyBlobData st bd).1 = (copyCell st bd.maxFeePerBlobGasR).1 ++ [.alist ts] := by
        simp only [copyBlobData, hrB, hva, alloc]
      have hres2 : (copyBlobData st bd).2 =
          { maxFeePerBlobGasR := (copyCell st bd.maxFeePerBlobGasR).2, blobsR := some (copyCell st bd.maxFeePerBlobGasR).1.length } := by
        simp only [copyBlobData, hrB, hva, alloc]
      have hbd : bdRefs ((copyCell st bd.maxFeePerBlobGasR).1 ++ [.alist ts])
          { maxFeePerBlobGasR := (copyCell st bd.maxFeePerBlobGasR).2, blobsR := some (copyCell st bd.maxFeePerBlobGasR).1.length } =
          (copyCell st bd.maxFeePerBlobGasR).2.toList ++ [(copyCell st bd.maxFeePerBlobGasR).1.length] := by
        simp [bdRefs, readOpt, readCell_alloc]
      refine ⟨by rw [hres1]; exact e0.trans ⟨[.alist ts], rfl⟩, ?_, ?_⟩
      · intro r' hr'
        rw [hres1, hres2, hbd] at hr'
        rcases List.mem_append.mp hr' with hr' | hr'
        · have := copyCell_fresh st bd.maxFeePerBlobGasR r' hr'
          rw [hres1]
          exact ⟨this.1, lt_of_lt_of_le this.2 (by simp)⟩
        · rw [hres1]
          simp only [List.mem_singleton] at hr'
          subst hr'
          exact ⟨e0.len, by simp⟩
      · rw [hres1, hres2]
        have hfee : readOpt ((copyCell st bd.maxFeePerBlobGasR).1 ++ [.alist ts]) (copyCell st bd.maxFeePerBlobGasR).2 =
            readOpt st bd.maxFeePerBlobGasR := by
          rw [readOpt_append _ _ _ fun q hq =>
            (copyCell_fresh st bd.maxFeePerBlobGasR q hq).2]
          exact copyCell_read st bd.maxFeePerBlobGasR
        rw [snapBlobData, snapBlobData, hfee,
          show readOpt ((copyCell st bd.maxFeePerBlobGasR).1 ++ [.alist ts]) (some (copyCell st bd.maxFeePerBlobGasR).1.length) = some (.alist ts) from by
            simp [readOpt, readCell_alloc],
          show readOpt st bd.blobsR = some (.alist ts) from by rw [hrB]; simp [readOpt, hv]]

    | sidecar sc =>
      have hva : readCell (copyCell st bd.maxFeePerBlobGasR).1 r = .sidecar sc := by
        rw [e0.readCell r hrlt, hv]
      have hres1 : (copyBlobData st bd).1 = (copyCell st bd.maxFeePerBlobGasR).1 ++ [.sidecar sc] := by
        simp only [copyBlobData, hrB, hva, alloc]
      have hres2 : (copyBlobData st bd).2 =
          { maxFeePerBlobGasR := (copyCell st bd.maxFeePerBlobGasR).2, blobsR := some (copyCell st bd.maxFeePerBlobGasR).1.length } := by
        simp only [copyBlobData, hrB, hva, alloc]
      have hbd : bdRefs ((copyCell st bd.maxFeePerBlobGasR).1 ++ [.sidecar sc])
          { maxFeePerBlobGasR := (copyCell st bd.maxFeePerBlobGasR).2, blobsR := some (copyCell st bd.maxFeePerBlobGasR).1.length } =
          (copyCell st bd.maxFeePerBlobGasR).2.toList ++ [(copyCell st bd.maxFeePerBlobGasR).1.length] := by
        simp [bdRefs, readOpt, readCell_alloc]
      refine ⟨by rw [hres1]; exact e0.trans ⟨[.sidecar sc], rfl⟩, ?_, ?_⟩
      · intro r' hr'
        rw [hres1, hres2, hbd] at hr'
        rcases List.mem_append.mp hr' with hr' | hr'
        · have := copyCell_fresh st bd.maxFeePerBlobGasR r' hr'
          rw [hres1]
          exact ⟨this.1, lt_of_lt_of_le this.2 (by simp)⟩
        · rw [hres1]
          simp only [List.mem_singleton] at hr'
          subst hr'
          exact ⟨e0.len, by simp⟩
      · rw [hres1, hres2]
        have hfee : readOpt ((copyCell st bd.maxFeePerBlobGasR).1 ++ [.sidecar sc]) (copyCell st bd.maxFeePerBlobGasR).2 =
            readOpt st bd.maxFeePerBlobGasR := by
          rw [readOpt_append _ _ _ fun q hq =>
            (copyCell_fresh st bd.maxFeePerBlobGasR q hq).2]
          exact copyCell_read st bd.maxFeePerBlobGasR
        rw [snapBlobData, snapBlobData, hfee,
          show readOpt ((copyCell st bd.maxFeePerBlobGasR).1 ++ [.sidecar sc]) (some (copyCell st bd.maxFeePerBlobGasR).1.length) = some (.sidecar sc) from by
            simp [readOpt, readCell_alloc],
          show readOpt st bd.blobsR = some (.sidecar sc) from by rw [hrB]; simp [readOpt, hv]]

theorem alRefs_ext {s s' : Store} (al : HAccessListData) (hext : Ext s s')
    (h : ∀ r ∈ al.alR.toList, r < s.length) : alRefs s' al = alRefs s al := by
  rw [alRefs, alRefs, hext.readOpt _ h]

theorem bdRefs_ext {s s' : Store} (bd : HBlobData) (hext : Ext s s')
    (h : ∀ r ∈ bd.blobsR.toList, r < s.length) : bdRefs s' bd = bdRefs s bd := by
  rw [bdRefs, bdRefs, hext.readOpt _ h]

/-- The per-variant `Call()` methods allocate only fresh cells, every
reference reachable from the produced call is fresh, and the produced
call dereferences to exactly the value-level `Call()` projection of the
source transaction. -/
theorem txCall_spec (st : Store) (tx : HTx) (h : WFTx st tx) :
    Ext st (txCall st tx).1 ∧
      (∀ r' ∈ callRefs (txCall st tx).1 (txCall st tx).2,
        st.length ≤ r' ∧ r' < (txCall st tx).1.length) ∧
      Transaction.call (snapTx st tx) =
        some (snapCall (txCall st tx).1 (txCall st tx).2) := by
  cases tx with
  | legacy cd td lp =>
    simp only [WFTx, txRefs, List.mem_append] at h
    obtain ⟨ea, fra, sna⟩ := copyCallData_spec st cd fun r hr => h r (by tauto)
    obtain ⟨eb, frb, snb⟩ := copyLegacyPrice_spec (copyCallData st cd).1 lp
      (fun r hr => lt_of_lt_of_le (h r (by tauto)) ea.len)
    have hres1 : (txCall st (.legacy cd td lp)).1 = (copyLegacyPrice (copyCallData st cd).1 lp).1 := by
      simp only [txCall]
    have hres2 : (txCall st (.legacy cd td lp)).2 = .legacy (copyCallData st cd).2 (copyLegacyPrice (copyCallData st cd).1 lp).2 := by
      simp only [txCall]
    refine ⟨by rw [hres1]; exact ea.trans eb, ?_, ?_⟩
    · intro r' hr'
      rw [hres1, hres2] at hr'
      simp only [callRefs, List.mem_append] at hr'
      rcases hr' with hr' | hr'
      · have := fra r' hr'
        rw [hres1]
        exact ⟨this.1, lt_of_lt_of_le this.2 eb.len⟩
      · have := frb r' hr'
        rw [hres1]
        exact ⟨le_trans ea.len this.1, this.2⟩
    · rw [hres1, hres2]
      have h1 : snapCallData (copyLegacyPrice (copyCallData st cd).1 lp).1 (copyCallData st cd).2 = snapCallData st cd := by
        rw [snapCallData_congr _ fun r hr => eb.readCell r (fra r hr).2, sna]
      have h2 : snapLegacyPrice (copyLegacyPrice (copyCallData st cd).1 lp).1 (copyLegacyPrice (copyCallData st cd).1 lp).2 = snapLegacyPrice st lp := by
        rw [snb]
        exact snapLegacyPrice_congr lp fun r hr => ea.readCell r (h r (by tauto))
      simp only [snapTx, Transaction.call, snapCall, h1, h2]
  | accessList cd td lp al =>
    simp only [WFTx, txRefs, List.mem_append] at h
    obtain ⟨ea, fra, sna⟩ := copyCallData_spec st cd fun r hr => h r (by tauto)
    obtain ⟨eb, frb, snb⟩ := copyLegacyPrice_spec (copyCallData st cd).1 lp
      (fun r hr => lt_of_lt_of_le (h r (by tauto)) ea.len)
    have hal0 : ∀ q ∈ alRefs st al, q < st.length := fun q hq => h q (by tauto)
    have hala : alRefs (copyLegacyPrice (copyCallData st cd).1 lp).1 al = alRefs st al :=
      alRefs_ext al (ea.trans eb) fun q hq =>
        hal0 q (by rw [alRefs]; exact List.mem_append_left _ hq)
    obtain ⟨ec, frc, snc⟩ := copyAccessListData_spec (copyLegacyPrice (copyCallData st cd).1 lp).1 al
      (fun r hr => by
        rw [hala] at hr
        exact lt_of_lt_of_le (hal0 r hr) (ea.trans eb).len)
    have hres1 : (txCall st (.accessList cd td lp al)).1 = (copyAccessListData (copyLegacyPrice (copyCallData st cd).1 lp).1 al).1 := by
      simp only [txCall]
    have hres2 : (txCall st (.accessList cd td lp al)).2 =
        .accessList (copyCallData st cd).2 (copyLegacyPrice (copyCallData st cd).1 lp).2 (copyAccessListData (copyLegacyPrice (copyCallData st cd).1 lp).1 al).2 := by
      simp only [txCall]
    refine ⟨by rw [hres1]; exact (ea.trans eb).trans ec, ?_, ?_⟩
    · intro r' hr'
      rw [hres1, hres2] at hr'
      simp only [callRefs, List.mem_append] at hr'
      rcases hr' with (hr' | hr') | hr'
      · have := fra r' hr'
        rw [hres1]
        exact ⟨this.1, lt_of_lt_of_le this.2 (eb.trans ec).len⟩
      · have := frb r' hr'
        rw [hres1]
        exact ⟨le_trans ea.len this.1, lt_of_lt_of_le this.2 ec.len⟩
      · have := frc r' hr'
        rw [hres1]
        exact ⟨le_trans (ea.trans eb).len this.1, this.2⟩
    · rw [hres1, hres2]
      have h1 : snapCallData (copyAccessListData (copyLegacyPrice (copyCallData st cd).1 lp).1 al).1 (copyCallData st cd).2 = snapCallData st cd := by
        rw [snapCallData_congr _ fun r hr => (eb.trans ec).readCell r (fra r hr).2, sna]
      have h2 : snapLegacyPrice (copyAccessListData (copyLegacyPrice (copyCallData st cd).1 lp).1 al).1 (copyLegacyPrice (copyCallData st cd).1 lp).2 = snapLegacyPrice st lp := by
        rw [snapLegacyPrice_congr _ fun r hr => ec.readCell r (frb r hr).2, snb]
        exact snapLegacyPrice_congr lp fun r hr => ea.readCell r (h r (by tauto))
      have h3 : snapAccessListData (copyAccessListData (copyLegacyPrice (copyCallData st cd).1 lp).1 al).1 (copyAccessListData (copyLegacyPrice (copyCallData st cd).1 lp).1 al).2 = snapAccessListData st al := by
        rw [snc]
        exact snapAccessListData_congr al fun r hr =>
          (ea.trans eb).readCell r (hal0 r hr)
      simp only [snapTx, Transaction.call, snapCall, h1, h2, h3]
  | dynamicFee cd td al df =>
    simp only [WFTx, txRefs, List.mem_append] at h
    obtain ⟨ea, fra, sna⟩ := copyCallData_spec st cd fun r hr => h r (by tauto)
    have hal0 : ∀ q ∈ alRefs st al, q < st.length := fun q hq => h q (by tauto)
    have hala : alRefs (copyCallData st cd).1 al = alRefs st al :=
      alRefs_ext al ea fun q hq =>
        hal0 q (by rw [alRefs]; exact List.mem_append_left _ hq)
    obtain ⟨eb, frb, snb⟩ := copyAccessListData_spec (copyCallData st cd).1 al
      (fun r hr => by
        rw [hala] at hr
        exact lt_of_lt_of_le (hal0 r hr) ea.len)
    obtain ⟨ec, frc, snc⟩ := copyDynamicFee_spec (copyAccessListData (copyCallData st cd).1 al).1 df
      (fun r hr => lt_of_lt_of_le (h r (by tauto)) (ea.trans eb).len)
    have halb : alRefs (copyDynamicFee (copyAccessListData (copyCallData st cd).1 al).1 df).1 (copyAccessListData (copyCallData st cd).1 al).2 = alRefs (copyAccessListData (copyCallData st cd).1 al).1 (copyAccessListData (copyCallData st cd).1 al).2 :=
      alRefs_ext (copyAccessListData (copyCallData st cd).1 al).2 ec fun q hq =>
        (frb q (by rw [alRefs]; exact List.mem_append_left _ hq)).2
    have hres1 : (txCall st (.dynamicFee cd td al df)).1 = (copyDynamicFee (copyAccessListData (copyCallData st cd).1 al).1 df).1 := by
      simp only [txCall]
    have hres2 : (txCall st (.dynamicFee cd td al df)).2 =
        .dynamicFee (copyCallData st cd).2 (copyAccessListData (copyCallData st cd).1 al).2 (copyDynamicFee (copyAccessListData (copyCallData st cd).1 al).1 df).2 := by
      simp only [txCall]
    refine ⟨by rw [hres1]; exact (ea.trans eb).trans ec, ?_, ?_⟩
    · intro r' hr'
      rw [hres1, hres2] at hr'
      simp only [callRefs, List.mem_append, halb] at hr'
      rcases hr' with (hr' | hr') | hr'
      · have := fra r' hr'
        rw [hres1]
        exact ⟨this.1, lt_of_lt_of_le this.2 (eb.trans ec).len⟩
      · have := frb r' hr'
        rw [hres1]
        exact ⟨le_trans ea.len this.1, lt_of_lt_of_le this.2 ec.len⟩
      · have := frc r' hr'
        rw [hres1]
        exact ⟨le_trans (ea.trans eb).len this.1, this.2⟩
    · rw [hres1, hres2]
      have h1 : snapCallData (copyDynamicFee (copyAccessListData (copyCallData st cd).1 al).1 df).1 (copyCallData st cd).2 = snapCallData st cd := by
        rw [snapCallData_congr _ fun r hr => (eb.trans ec).readCell r (fra r hr).2, sna]
      have h2 : snapAccessListData (copyDynamicFee (copyAccessListData (copyCallData st cd).1 al).1 df).1 (copyAccessListData (copyCallData st cd).1 al).2 = snapAccessListData (copyAccessListData (copyCallData st cd).1 al).1 (copyAccessListData (copyCallData st cd).1 al).2 :=
        snapAccessListData_congr (copyAccessListData (copyCallData st cd).1 al).2 fun r hr => ec.readCell r (frb r hr).2
      have h2' : snapAccessListData (copyDynamicFee (copyAccessListData (copyCallData st cd).1 al).1 df).1 (copyAccessListData (copyCallData st cd).1 al).2 = snapAccessListData st al := by
        rw [h2, snb]
        exact snapAccessListData_congr al fun r hr => ea.readCell r (hal0 r hr)
      have h3 : snapDynamicFee (copyDynamicFee (copyAccessListData (copyCallData st cd).1 al).1 df).1 (copyDynamicFee (copyAccessListData (copyCallData st cd).1 al).1 df).2 = snapDynamicFee st df := by
        rw [snc]
        exact snapDynamicFee_congr df fun r hr =>
          (ea.trans eb).readCell r (h r (by tauto))
      simp only [snapTx, Transaction.call, snapCall, h1, h2', h3]
  | blob cd td al df bd =>
    simp only [WFTx, txRefs, List.mem_append] at h
    obtain ⟨ea, fra, sna⟩ := copyCallData_spec st cd fun r hr => h r (by tauto)
    have hal0 : ∀ q ∈ alRefs st al, q < st.length := fun q hq => h q (by tauto)
    have hala : alRefs (copyCallData st cd).1 al = alRefs st al :=
      alRefs_ext al ea fun q hq =>
        hal0 q (by rw [alRefs]; exact List.mem_append_left _ hq)
    obtain ⟨eb, frb, snb⟩ := copyAccessListData_spec (copyCallData st cd).1 al
      (fun r hr => by
        rw [hala] at hr
        exact lt_of_lt_of_le (hal0 r hr) ea.len)
    obtain ⟨ec, frc, snc⟩ := copyDynamicFee_spec (copyAccessListData (copyCallData st cd).1 al).1 df
      (fun r hr => lt_of_lt_of_le (h r (by tauto)) (ea.trans eb).len)
    have hbd0 : ∀ q ∈ bdRefs st bd, q < st.length := fun q hq => h q (by tauto)
    have hbda : bdRefs (copyDynamicFee (copyAccessListData (copyCallData st cd).1 al).1 df).1 bd = bdRefs st bd :=
      bdRefs_ext bd ((ea.trans eb).trans ec) fun q hq =>
        hbd0 q (by
          rw [bdRefs]
          exact List.mem_append_left _ (List.mem_append_right _ hq))
    obtain ⟨ed, frd, snd1⟩ := copyBlobData_spec (copyDynamicFee (copyAccessListData (copyCallData st cd).1 al).1 df).1 bd
      (fun r hr => by
        rw [hbda] at hr
        exact lt_of_lt_of_le (hbd0 r hr) ((ea.trans eb).trans ec).len)
    have halb : alRefs (copyBlobData (copyDynamicFee (copyAccessListData (copyCallData st cd).1 al).1 df).1 bd).1 (copyAccessListData (copyCallData st cd).1 al).2 = alRefs (copyAccessListData (copyCallData st cd).1 al).1 (copyAccessListData (copyCallData st cd).1 al).2 :=
      alRefs_ext (copyAccessListData (copyCallData st cd).1 al).2 (ec.trans ed) fun q hq =>
        (frb q (by rw [alRefs]; exact List.mem_append_left _ hq)).2
    have hres1 : (txCall st (.blob cd td al df bd)).1 = (copyBlobData (copyDynamicFee (copyAccessListData (copyCallData st cd).1 al).1 df).1 bd).1 := by
      simp only [txCall]
    have hres2 : (txCall st (.blob cd td al df bd)).2 =
        .blob (copyCallData st cd).2 (copyAccessListData (copyCallData st cd).1 al).2 (copyDynamicFee (copyAccessListData (copyCallData st cd).1 al).1 df).2 (copyBlobData (copyDynamicFee (copyAccessListData (copyCallData st cd).1 al).1 df).1 bd).2 := by
      simp only [txCall]
    refine ⟨by rw [hres1]; exact ((ea.trans eb).trans ec).trans ed, ?_, ?_⟩
    · intro r' hr'
      rw [hres1, hres2] at hr'
      simp only [callRefs, List.mem_append, halb] at hr'
      rcases hr' with ((hr' | hr') | hr') | hr'
      · have := fra r' hr'
        rw [hres1]
        exact ⟨this.1, lt_of_lt_of_le this.2 ((eb.trans ec).trans ed).len⟩
      · have := frb r' hr'
        rw [hres1]
        exact ⟨le_trans ea.len this.1, lt_of_lt_of_le this.2 (ec.trans ed).len⟩
      · have := frc r' hr'
        rw [hres1]
        exact ⟨le_trans (ea.trans eb).len this.1, lt_of_lt_of_le this.2 ed.len⟩
      · have := frd r' hr'
        rw [hres1]
        exact ⟨le_trans ((ea.trans eb).trans ec).len this.1, this.2⟩
    · rw [hres1, hres2]
      have h1 : snapCallData (copyBlobData (copyDynamicFee (copyAccessListData (copyCallData st cd).1 al).1 df).1 bd).1 (copyCallData st cd).2 = snapCallData st cd := by
        rw [snapCallData_congr _ fun r hr =>
          ((eb.trans ec).trans ed).readCell r (fra r hr).2, sna]
      have h2 : snapAccessListData (copyBlobData (copyDynamicFee (copyAccessListData (copyCallData st cd).1 al).1 df).1 bd).1 (copyAccessListData (copyCallData st cd).1 al).2 = snapAccessListData (copyAccessListData (copyCallData st cd).1 al).1 (copyAccessListData (copyCallData st cd).1 al).2 :=
        snapAccessListData_congr (copyAccessListData (copyCallData st cd).1 al).2 fun r hr => (ec.trans ed).readCell r (frb r hr).2
      have h2' : snapAccessListData (copyBlobData (copyDynamicFee (copyAccessListData (copyCallData st cd).1 al).1 df).1 bd).1 (copyAccessListData (copyCallData st cd).1 al).2 = snapAccessListData st al := by
        rw [h2, snb]
        exact snapAccessListData_congr al fun r hr => ea.readCell r (hal0 r hr)
      have h3 : snapDynamicFee (copyBlobData (copyDynamicFee (copyAccessListData (copyCallData st cd).1 al).1 df).1 bd).1 (copyDynamicFee (copyAccessListData (copyCallData st cd).1 al).1 df).2 = snapDynamicFee st df := by
        rw [snapDynamicFee_congr _ fun r hr => ed.readCell r (frc r hr).2, snc]
        exact snapDynamicFee_congr df fun r hr =>
          (ea.trans eb).readCell r (h r (by tauto))
      have h4 : snapBlobData (copyBlobData (copyDynamicFee (copyAccessListData (copyCallData st cd).1 al).1 df).1 bd).1 (copyBlobData (copyDynamicFee (copyAccessListData (copyCallData st cd).1 al).1 df).1 bd).2 = snapBlobData st bd := by
        rw [snd1]
        exact snapBlobData_congr bd fun r hr =>
          ((ea.trans eb).trans ec).readCell r (hbd0 r hr)
      simp only [snapTx, Transaction.call, snapCall, h1, h2', h3, h4]

end HeapModel

/-! ## The claims -/

instance : IsTotal BuiltinOpt (fun a b => a.order ≤ b.order) :=
  ⟨fun _ _ => Nat.le_total _ _⟩

instance : IsTrans BuiltinOpt (fun a b => a.order ≤ b.order) :=
  ⟨fun _ _ _ => Nat.le_trans⟩

instance : IsAntisymm BuiltinOpt (fun a b => a.order ≤ b.order) :=
  ⟨fun a b h1 h2 => by cases a <;> cases b <;> simp_all [BuiltinOpt.order]⟩

/-- C1: for a client configured with the seven built-in hijacker options —
regardless of the order client code registers them — the pipeline executes
chain ID first, then address, gas limit, dynamic gas fee, nonce, simulate
and sign before the transport.  This is the reverse of the ascending
`Order()` sort, because each `Hijack.Use` wraps the previous chain; the
specification's claimed order (address first, signing before simulation)
is refuted by `pipeline_spec_order_refuted`. -/
theorem pipeline_exec_order (opts : List BuiltinOpt)
    (h : opts.Perm [.withKeys, .withSimulate, .withNonce, .withDynamicGasFee,
      .withGasLimit, .withDefaultAddress, .withChainID]) :
    applyOptions opts =
      [.chainID, .address, .gasLimit, .dynamicGasFee, .nonce, .simulate, .sign,
        .transport] := by
  have hperm := List.perm_insertionSort (fun a b : BuiltinOpt => a.order ≤ b.order) opts
  have hsorted := List.sorted_insertionSort (fun a b : BuiltinOpt => a.order ≤ b.order) opts
  have heq : opts.insertionSort (fun a b => a.order ≤ b.order) =
      [.withKeys, .withSimulate, .withNonce, .withDynamicGasFee, .withGasLimit,
        .withDefaultAddress, .withChainID] :=
    List.eq_of_perm_of_sorted (hperm.trans h) hsorted (by decide)
  rw [applyOptions, heq]
  rfl

/-- Witness for C1 at the specification's own registration order. -/
theorem pipeline_exec_order_witness :
    applyOptions [.withDefaultAddress, .withChainID, .withNonce, .withDynamicGasFee,
      .withGasLimit, .withKeys, .withSimulate] =
      [.chainID, .address, .gasLimit, .dynamicGasFee, .nonce, .simulate, .sign,
        .transport] :=
  pipeline_exec_order _ (by decide)

/-- Counterexample for C1: the execution trace is not the specification's
claimed address → chainID → nonce → gasFee → gasLimit → sign → simulate. -/
theorem pipeline_spec_order_refuted :
    applyOptions [.withDefaultAddress, .withChainID, .withNonce, .withDynamicGasFee,
      .withGasLimit, .withKeys, .withSimulate] ≠
      [.address, .chainID, .nonce, .dynamicGasFee, .gasLimit, .sign, .simulate,
        .transport] := by decide

/-- C2: code bug — the address hijacker configured with `replace = false`
does not leave an already-set `from` untouched: the guard in
`hijackAddress.Call` is `h.replace && cd.From != nil` (skip only when
replacement is on and the field is set), the inverse of its documented
contract, so with `replace = false` it overwrites the caller's `from`. -/
theorem hijackAddress_replace_false_overwrites (cfg : AddressCfg) (tx : Transaction)
    (a : Address) (hrep : cfg.replace = false) (hset : tx.callData.fromAddr = some a) :
    hijackAddressCall cfg .sendTransaction (some (.tx tx)) =
      .next (some (.tx (tx.setFrom cfg.address))) := by
  rw [hijackAddressCall]
  simp [hrep]

/-- Witness for C2: a transaction whose `from` is already `[1]` comes back
with `from` forced to the hijacker's default `[9]`. -/
theorem hijackAddress_replace_false_overwrites_witness :
    hijackAddressCall ⟨[9], false⟩ .sendTransaction
      (some (.tx (.legacy { cd := { fromAddr := some [1] }, td := {}, lp := {} }))) =
      .next (some (.tx ((Transaction.legacy
        { cd := { fromAddr := some [1] }, td := {}, lp := {} }).setFrom [9]))) :=
  hijackAddress_replace_false_overwrites ⟨[9], false⟩ _ [1] rfl rfl

/-- C3: `TransactionLegacy.CalculateSigningHash` hashes exactly the RLP list
`(nonce, gas_price, gas_limit, to, value, input)` with zero defaults for
unset fields, with `(chain_id, 0, 0)` appended if and only if the chain ID
is set and non-zero (`legacySigningItemsSpec` transcribes the
specification's words). -/
theorem signingHash_matches_spec (keccak : List Nat → Hash256)
    (t : TransactionLegacy) :
    t.calculateSigningHash keccak =
      keccak (rlpEncode (.list (legacySigningItemsSpec t))) := by
  rw [TransactionLegacy.calculateSigningHash, signingItems_eq_spec]

/-- C4: EIP-155 `v` for a signed Legacy transaction — for a set chain ID
`c` below `2 ^ 63` (so `uint64(c * 2)` does not wrap) the stored `v` is
`c * 2 + 35 + bit` and decoding the encoded transaction rederives exactly
`c` from `v` alone; with no chain ID set, `v` is `bit + 27` (27 or 28) and
decoding leaves the chain ID unset.  For `c ≥ 2 ^ 63` the claim fails: the
Go `uint64` product `*txd.ChainID * 2` wraps (`eip155_v_overflow_cex`). -/
theorem normalizeLegacy_chainID (u : TransactionLegacy) :
    (normalizeLegacy u).td.chainID =
      (if (u.td.signature.map Sig.v).getD 0 ≠ 0 ∨ (u.td.signature.map Sig.r).getD 0 ≠ 0 ∨
          (u.td.signature.map Sig.s).getD 0 ≠ 0 then
        if 35 ≤ (u.td.signature.map Sig.v).getD 0 then
          some ((((u.td.signature.map Sig.v).getD 0) - 35) / 2 % 2 ^ 64)
        else none
      else none) := rfl

/-- C4: EIP-155 `v` for a signed Legacy transaction — for a set chain ID
`c` below `2 ^ 63` (so `uint64(c * 2)` does not wrap) the stored `v` is
`c * 2 + 35 + bit` and decoding the encoded transaction rederives exactly
`c` from `v` alone; with no chain ID set, `v` is `bit + 27` (27 or 28) and
decoding leaves the chain ID unset.  For `c ≥ 2 ^ 63` the claim fails: the
Go `uint64` product `*txd.ChainID * 2` wraps (`eip155_v_overflow_cex`). -/
theorem eip155_v_roundtrip (t : TransactionLegacy) (bit r s : Nat) (signer : Address)
    (hbit : bit < 2) (hW : WFLegacy (signLegacy t bit r s signer)) :
    (∀ c, t.td.chainID = some c → c < 2 ^ 63 →
      (signLegacy t bit r s signer).td.signature = some ⟨c * 2 + 35 + bit, r, s⟩ ∧
      ∃ t', TransactionLegacy.decodeRLP (signLegacy t bit r s signer).encodeRLP =
          .ok t' ∧ t'.td.chainID = some c) ∧
    (t.td.chainID = none →
      (signLegacy t bit r s signer).td.signature = some ⟨bit + 27, r, s⟩ ∧
      (bit + 27 = 27 ∨ bit + 27 = 28) ∧
      ∃ t', TransactionLegacy.decodeRLP (signLegacy t bit r s signer).encodeRLP =
          .ok t' ∧ t'.td.chainID = none) := by
  constructor
  · intro c hc hclt
    have hsig : (signLegacy t bit r s signer).td.signature =
        some ⟨c * 2 + 35 + bit, r, s⟩ := by
      simp [signLegacy, hc]
      omega
    refine ⟨hsig, normalizeLegacy (signLegacy t bit r s signer),
      legacy_decode_encode _ hW, ?_⟩
    rw [normalizeLegacy_chainID, hsig]
    simp only [Option.map_some', Option.getD_some]
    rw [if_pos (Or.inl (by omega)), if_pos (by omega)]
    congr 1
    omega
  · intro hc
    have hsig : (signLegacy t bit r s signer).td.signature =
        some ⟨bit + 27, r, s⟩ := by
      simp [signLegacy, hc]
    refine ⟨hsig, by omega, normalizeLegacy (signLegacy t bit r s signer),
      legacy_decode_encode _ hW, ?_⟩
    rw [normalizeLegacy_chainID, hsig]
    simp only [Option.map_some', Option.getD_some]
    rw [if_pos (Or.inl (by omega)), if_neg (by omega)]

/-- Witness for C4 at chain ID 1, recovery bit 0. -/
theorem eip155_v_roundtrip_witness :
    (∀ c, ({ td := { chainID := some 1 }, cd := {}, lp := {} } :
        TransactionLegacy).td.chainID = some c → c < 2 ^ 63 →
      (signLegacy { td := { chainID := some 1 }, cd := {}, lp := {} } 0 1 1 [5]).td.signature =
        some ⟨c * 2 + 35 + 0, 1, 1⟩ ∧
      ∃ t', TransactionLegacy.decodeRLP
          (signLegacy { td := { chainID := some 1 }, cd := {}, lp := {} } 0 1 1 [5]).encodeRLP =
          .ok t' ∧ t'.td.chainID = some c) ∧
    (({ td := { chainID := some 1 }, cd := {}, lp := {} } :
        TransactionLegacy).td.chainID = none →
      (signLegacy { td := { chainID := some 1 }, cd := {}, lp := {} } 0 1 1 [5]).td.signature =
        some ⟨0 + 27, 1, 1⟩ ∧
      (0 + 27 = 27 ∨ 0 + 27 = 28) ∧
      ∃ t', TransactionLegacy.decodeRLP
          (signLegacy { td := { chainID := some 1 }, cd := {}, lp := {} } 0 1 1 [5]).encodeRLP =
          .ok t' ∧ t'.td.chainID = none) :=
  eip155_v_roundtrip { td := { chainID := some 1 }, cd := {}, lp := {} } 0 1 1 [5]
    (by decide) (by decide)

/-- Counterexample for C4 at `c = 2 ^ 63`: the stored `v` is 35 (the
`uint64` product wrapped to zero), not `c * 2 + 35 + bit`, so `v` cannot
rederive this chain ID. -/
theorem eip155_v_overflow_cex :
    (signLegacy { td := { chainID := some (2 ^ 63) }, cd := {}, lp := {} } 0 1 1
        [5]).td.signature = some ⟨35, 1, 1⟩ ∧
      2 ^ 63 * 2 + 35 + 0 ≠ 35 := by
  constructor
  · rfl
  · decide

/-- C5: for every variant, decoding an encoding returns exactly the
normalized transaction: every non-zero, non-empty serialized field
round-trips, zero/absent fields collapse to unset — and the non-serialized
`from` field is dropped even when set (`decode_drops_set_from`), which is
where the claim's "equals tx on every field that was non-zero" fails. -/
theorem decode_encode_roundtrip :
    (∀ t : TransactionLegacy, WFLegacy t →
      TransactionLegacy.decodeRLP t.encodeRLP = .ok (normalizeLegacy t)) ∧
    (∀ t : TransactionAccessList, WFAccessList t →
      TransactionAccessList.decodeRLP t.encodeRLP = .ok (normalizeAccessList t)) ∧
    (∀ t : TransactionDynamicFee, WFDynamicFee t →
      TransactionDynamicFee.decodeRLP t.encodeRLP = .ok (normalizeDynamicFee t)) ∧
    (∀ (computeHash : BlobSidecar → Hash256) (t : TransactionBlob),
      WFBlob computeHash t →
      TransactionBlob.decodeRLP (t.encodeRLP computeHash) =
        .ok (normalizeBlob computeHash t)) :=
  ⟨legacy_decode_encode, accessList_decode_encode, dynamicFee_decode_encode,
    blob_decode_encode⟩

/-- Counterexample for C5 as literally stated: a legacy transaction whose
only set field is `from` decodes back with `from` unset. -/
theorem decode_drops_set_from :
    TransactionLegacy.decodeRLP
        (TransactionLegacy.encodeRLP
          { cd := { fromAddr := some [1] }, td := {}, lp := {} }) =
      .ok { cd := {}, td := {}, lp := {} } ∧
    ({ cd := { fromAddr := some [1] }, td := {}, lp := {} } : TransactionLegacy) ≠
      { cd := {}, td := {}, lp := {} } := by
  constructor
  · rfl
  · decide

/-- C6: the simulate hijacker forwards a send to the next stage exactly
when the pre-send simulation succeeds; any simulation error (for all
three send-shaped methods, including the missing-argument case) comes
back wrapped with the stage name `simulate` and — the result being the
same for every possible next stage — without invoking the next stage;
every other method passes through untouched. -/
theorem simulate_gates_send (α : Type) (d : SimDeps)
    (next : Method → Option Arg → Except HijackErr α)
    (tx tx' : Transaction) (bs : List Nat) (e : String) (arg : Option Arg) :
    (simulateTx d tx = .error e →
      hijackSimulateCall d next .sendTransaction (some (.tx tx)) =
        .error ⟨"simulate", e⟩) ∧
    (simulateTx d tx = .ok tx' →
      hijackSimulateCall d next .sendTransaction (some (.tx tx)) =
        next .sendTransaction (some (.tx tx'))) ∧
    (∀ m, m = .sendRawTransaction ∨ m = .sendPrivateTransaction →
      (d.decodeTx bs = .ok tx → simulateTx d tx = .error e →
        hijackSimulateCall d next m (some (.raw bs)) = .error ⟨"simulate", e⟩) ∧
      (d.decodeTx bs = .ok tx → simulateTx d tx = .ok tx' →
        hijackSimulateCall d next m (some (.raw bs)) = next m (some (.raw bs)))) ∧
    (∀ m, m = .sendTransaction ∨ m = .sendRawTransaction ∨
        m = .sendPrivateTransaction →
      hijackSimulateCall d next m none = .error ⟨"simulate", "missing transaction data"⟩) ∧
    (∀ m, m ≠ .sendTransaction → m ≠ .sendRawTransaction →
        m ≠ .sendPrivateTransaction →
      hijackSimulateCall d next m arg = next m arg) := by
  refine ⟨fun h => by simp [hijackSimulateCall, h],
    fun h => by simp [hijackSimulateCall, h], ?_, ?_, ?_⟩
  · intro m hm
    rcases hm with rfl | rfl <;>
      exact ⟨fun h1 h2 => by simp [hijackSimulateCall, h1, h2],
        fun h1 h2 => by simp [hijackSimulateCall, h1, h2]⟩
  · intro m hm
    rcases hm with rfl | rfl | rfl <;> rfl
  · intro m h1 h2 h3
    cases m <;> simp_all [hijackSimulateCall]

theorem filterMap_sidecar_length (bs : List Blob)
    (h : ∀ b ∈ bs, b.sidecar ≠ none) :
    (bs.filterMap Blob.sidecar).length = bs.length := by
  induction bs with
  | nil => simp
  | cons b rest ih =>
    cases hb : b.sidecar with
    | none => exact absurd hb (h b (by simp))
    | some sc =>
      simp [List.filterMap_cons, hb, ih fun x hx => h x (by simp [hx])]

/-- The network-envelope switch, characterized: it fires exactly when the
blob list is non-empty and every blob carries a sidecar. -/
theorem useEnvelope_iff (t : TransactionBlob) :
    t.useEnvelope = true ↔
      t.bd.blobs ≠ [] ∧ ∀ b ∈ t.bd.blobs, b.sidecar ≠ none := by
  rw [TransactionBlob.useEnvelope, blobSidecars]
  simp only [Bool.and_eq_true, bne_iff_ne, ne_eq, beq_iff_eq, List.length_map]
  constructor
  · rintro ⟨h1, h2⟩
    exact ⟨fun hc => h1 (by simp [hc]), filterMap_sidecar_all_some _ h2.symm⟩
  · rintro ⟨h1, h2⟩
    refine ⟨fun hc => h1 (by simpa using hc), (filterMap_sidecar_length _ h2).symm⟩

/-- C7: `TransactionBlob.EncodeRLP` emits the type byte `0x03` followed by
the RLP of the 14-field consensus list; the outer value becomes the
4-element network envelope `[inner-tx-list, blobs, commitments, proofs]`
exactly when the blob list is non-empty and every blob carries a sidecar —
not merely "when sidecars are present" (`blob_mixed_sidecars_consensus_cex`). -/
theorem blob_encoding_shape (computeHash : BlobSidecar → Hash256)
    (t : TransactionBlob) :
    (t.encodeItems computeHash).length = 14 ∧
    t.encodeRLP computeHash =
      3 :: rlpEncode
        (if t.bd.blobs ≠ [] ∧ ∀ b ∈ t.bd.blobs, b.sidecar ≠ none then
          .list [.list (t.encodeItems computeHash),
            .list ((blobSidecars t).map fun sc => .bytes sc.blob),
            .list ((blobSidecars t).map fun sc => .bytes sc.commitment),
            .list ((blobSidecars t).map fun sc => .bytes sc.proof)]
        else .list (t.encodeItems computeHash)) := by
  refine ⟨by simp [TransactionBlob.encodeItems], ?_⟩
  rw [TransactionBlob.encodeRLP, TransactionBlob.outerItem]
  by_cases h : t.bd.blobs ≠ [] ∧ ∀ b ∈ t.bd.blobs, b.sidecar ≠ none
  · rw [if_pos ((useEnvelope_iff t).mpr h), if_pos h]
  · rw [if_neg (fun hc => h ((useEnvelope_iff t).mp hc)), if_neg h]

/-- A blob transaction with two blobs of which only the first carries a
sidecar: sidecars are present, but not one per blob. -/
def txMixedSidecars : TransactionBlob :=
  { bd := { blobs := [⟨[1], some ⟨[2], [3], [4]⟩⟩, ⟨[5], none⟩] } }

/-- Counterexample for C7 as the specification words it: two blobs, one
sidecar — sidecars are present, yet the encoder emits the consensus form,
not the envelope. -/
theorem blob_mixed_sidecars_consensus_cex :
    (blobSidecars txMixedSidecars).length ≠ 0 ∧
    TransactionBlob.useEnvelope txMixedSidecars = false ∧
    TransactionBlob.encodeRLP (fun _ => [0]) txMixedSidecars =
      3 :: rlpEncode (.list (TransactionBlob.encodeItems (fun _ => [0])
        txMixedSidecars)) := by
  refine ⟨by decide, by decide, by rfl⟩

/-- C8: transaction type upgrade is idempotent — `convertTXToLegacyPrice`
and `convertTXToDynamicFee` return the transaction unchanged when it
already carries the target fragment — and otherwise the produced variant
carries every fragment of the source that it supports, unchanged. -/
theorem convert_idempotent_preserves (tx : Transaction) :
    (tx.legacyPriceData? ≠ none → convertTXToLegacyPrice tx = tx) ∧
    (tx.dynamicFeeData? ≠ none → convertTXToDynamicFee tx = tx) ∧
    (∀ f v, tx.frag? f = some v → (convertTXToLegacyPrice tx).frag? f ≠ none →
      (convertTXToLegacyPrice tx).frag? f = some v) ∧
    (∀ f v, tx.frag? f = some v → (convertTXToDynamicFee tx).frag? f ≠ none →
      (convertTXToDynamicFee tx).frag? f = some v) := by
  refine ⟨fun h => by rw [convertTXToLegacyPrice, if_pos h],
    fun h => by rw [convertTXToDynamicFee, if_pos h], ?_, ?_⟩
  · intro f v hv hne
    cases tx <;> cases f <;>
      simp_all [convertTXToLegacyPrice, convertTXToDynamicFee, convertTX,
        Transaction.frag?, Transaction.legacyPriceData?, Transaction.accessListData?,
        Transaction.dynamicFeeData?, Transaction.blobData?, Transaction.callData,
        Transaction.transactionData]
  · intro f v hv hne
    cases tx <;> cases f <;>
      simp_all [convertTXToLegacyPrice, convertTXToDynamicFee, convertTX,
        Transaction.frag?, Transaction.legacyPriceData?, Transaction.accessListData?,
        Transaction.dynamicFeeData?, Transaction.blobData?, Transaction.callData,
        Transaction.transactionData]

theorem clampDynFees_le (cfg : DynFeeCfg) (f p : Nat) :
    (clampDynFees cfg f p).2 ≤ (clampDynFees cfg f p).1 := by
  simp only [clampDynFees]
  cases cfg.minGasPrice <;> cases cfg.maxGasPrice <;>
    cases cfg.minPriorityFeePerGas <;> cases cfg.maxPriorityFeePerGas <;>
      simp only [] <;> split_ifs <;> omega

/-- C10: whenever the dynamic gas fee hijacker computes and stores fees for
an `eth_sendTransaction` (fee fields unset or replacement requested), the
value written is exactly the clamped pair, and the stored priority fee
never exceeds the stored max fee: after multipliers and min/max clamps, the
priority fee is additionally capped at the computed max fee. -/
theorem dynamicGasFee_prio_le_fee (h : DynFeeCfg) (mulFee mulPrio : Nat → Nat)
    (node : FeeNode) (tx0 : Transaction) (dfd : EmbedDynamicFeeData) (gp pf : Nat)
    (hdfd : (if h.allowChangeType then convertTXToDynamicFee tx0
      else tx0).dynamicFeeData? = some dfd)
    (hskip : ¬(¬h.replace ∧ dfd.maxFeePerGas ≠ none ∧
      dfd.maxPriorityFeePerGas ≠ none))
    (hgp : node.gasPrice = .ok gp) (hpf : node.maxPriorityFeePerGas = .ok pf) :
    hijackDynamicGasFeeCall h mulFee mulPrio node .sendTransaction
        (some (.tx tx0)) =
      .next (some (.tx ((if h.allowChangeType then convertTXToDynamicFee tx0
          else tx0).setDynamicFeeData
        ⟨some (clampDynFees h (mulFee gp) (mulPrio pf)).1,
          some (clampDynFees h (mulFee gp) (mulPrio pf)).2⟩))) ∧
    (clampDynFees h (mulFee gp) (mulPrio pf)).2 ≤
      (clampDynFees h (mulFee gp) (mulPrio pf)).1 := by
  refine ⟨?_, clampDynFees_le h _ _⟩
  simp only [hijackDynamicGasFeeCall]
  rw [if_neg (by simp)]
  simp only [hdfd]
  rw [if_neg hskip]
  simp [hgp, hpf]

/-- Witness for C10: with node gas price 10, priority fee 6 doubled to 12
but capped by `maxGasPrice = 8` on the fee side, the stored pair is
clamped so the priority fee does not exceed the max fee. -/
theorem dynamicGasFee_prio_le_fee_witness :
    (clampDynFees ⟨none, some 8, none, none, true, false⟩ 20 12).2 ≤
      (clampDynFees ⟨none, some 8, none, none, true, false⟩ 20 12).1 :=
  (dynamicGasFee_prio_le_fee ⟨none, some 8, none, none, true, false⟩
    (fun x => 2 * x) (fun x => 2 * x) ⟨.ok 10, .ok 6⟩ (.dynamicFee {}) {} 10 6
    rfl (by decide) rfl rfl).2

namespace HeapModel

/-- C9: for every well-formed heap transaction, `Call()` dereferences to
exactly the value-level call projection of the source transaction, and
every reference reachable from the returned call is a freshly allocated
cell — so writing any value through any of the call's references leaves
the source transaction's observable value unchanged. -/
theorem call_is_deep_copy (st : Store) (tx : HTx) (h : WFTx st tx) :
    Transaction.call (snapTx st tx) =
      some (snapCall (txCall st tx).1 (txCall st tx).2) ∧
    ∀ j ∈ callRefs (txCall st tx).1 (txCall st tx).2, ∀ v,
      snapTx ((txCall st tx).1.set j v) tx = snapTx st tx := by
  obtain ⟨hext, hfresh, hsnap⟩ := txCall_spec st tx h
  refine ⟨hsnap, ?_⟩
  intro j hj v
  apply snapTx_congr
  intro r hr
  have hrlt : r < st.length := h r hr
  have hjge : st.length ≤ j := (hfresh j hj).1
  have hne : r ≠ j := Nat.ne_of_lt (Nat.lt_of_lt_of_le hrlt hjge)
  rw [readCell_set_ne ((txCall st tx).1) j v r hne, hext.readCell r hrlt]

/-- A two-cell store and a legacy heap transaction whose `from` and
`value` point into it. -/
def stW : Store := [HVal.addr [1], HVal.big 5]

def txW : HTx := .legacy { fromR := some 0, valueR := some 1 } {} {}

/-- Witness for C9 on a concrete two-cell store. -/
theorem call_is_deep_copy_witness :
    Transaction.call (snapTx stW txW) =
      some (snapCall (txCall stW txW).1 (txCall stW txW).2) ∧
    ∀ j ∈ callRefs (txCall stW txW).1 (txCall stW txW).2, ∀ v,
      snapTx ((txCall stW txW).1.set j v) txW = snapTx stW txW :=
  call_is_deep_copy stW txW (by unfold WFTx; decide)

end HeapModel

end GoEth
